import Mathlib

/-!
# IESParser: a shallow embedding of `iesparser.h` / `iesparser.cpp`

The class `IESParser` becomes the structure `IESParser` (options, the two
pattern constants and the mutable members); every member function becomes a
function that takes the object and returns the updated object together with
the outcome, so that the state left behind by a thrown exception is visible.
C++ exceptions are values of `Failure`; `std::string` is `String`, read
through its list of characters; the input stream is the list of lines still
to be read together with its fail flag.
-/

set_option autoImplicit false

namespace IES

/-! ## Exceptions -/

/-- The ways a member function can stop abnormally: the two exception classes
of the header, and a failed `assert`. -/
inductive FailureKind where
  | ParsingException
  | NotSupportedException
  | AssertionFailed
  deriving DecidableEq, Repr

/-- An `IESParser::Exception`: its class, message and `line_number`. -/
structure Failure where
  kind : FailureKind
  msg : String
  line_number : Int
  deriving DecidableEq, Repr

deriving instance DecidableEq for Except

/-- Outcome of a member function returning `void`. -/
abbrev Outcome := Except Failure Unit

/-- Whether the outcome is a normal return. -/
def Outcome.succeeded : Outcome → Bool
  | .ok _ => true
  | .error _ => false

/-- The exception class of the outcome, when an exception was thrown. -/
def Outcome.failureKind : Outcome → Option FailureKind
  | .ok _ => none
  | .error e => some e.kind

/-! ## Data model -/

/-- The enumeration `Format` (named as `iesparser.cpp` names its values). -/
inductive Format where
  | UNKNOWN
  | LM631986
  | LM631991
  | LM631995
  | LM632002
  deriving DecidableEq, Repr

/-- The enumeration `TiltSpecification`. -/
inductive TiltSpecification where
  | INCLUDE
  | FILE
  | NONE
  deriving DecidableEq, Repr

/-- The `KeywordsDictionary`: a map from keyword to value, kept as a list of
entries with pairwise different keys as long as it is only changed through
`assign` and `appendAt`. -/
abbrev KeywordsDictionary := List (String × String)

namespace KeywordsDictionary

/-- The value stored under `key` (`find`). -/
def find (d : KeywordsDictionary) (key : String) : Option String :=
  match d with
  | [] => none
  | (k, v) :: rest => if k = key then some v else find rest key

/-- The statement `d[key] = value`: overwrite the entry of `key`, or insert one. -/
def assign (d : KeywordsDictionary) (key value : String) : KeywordsDictionary :=
  match d with
  | [] => [(key, value)]
  | (k, v) :: rest => if k = key then (k, value) :: rest else (k, v) :: assign rest key value

/-- The statement `it->second += suffix` for the iterator at the entry of `key`. -/
def appendAt (d : KeywordsDictionary) (key suffix : String) : KeywordsDictionary :=
  match d with
  | [] => []
  | (k, v) :: rest => if k = key then (k, v ++ suffix) :: rest else (k, v) :: appendAt rest key suffix

/-- The keys of the dictionary. -/
def keys (d : KeywordsDictionary) : List String := d.map Prod.fst

end KeywordsDictionary

/-! ## Patterns

`boost::regex` restricted to what the two pattern constants use: a pattern is
a sequence of single-character tests, each taken once, or repeated greedily
with `*` or `+`, with capture groups opened and closed between them. -/

/-- A test on one character. -/
inductive CharClass where
  | any
  | lit (c : Char)
  | set (cs : List Char)
  | space
  | word
  deriving DecidableEq, Repr

/-- The `isspace` of the classic locale. -/
def isspace (c : Char) : Bool :=
  c == ' ' || c == '\t' || c == '\n' || c == '\x0b' || c == '\x0c' || c == '\r'

/-- Whether the character passes the test. -/
def CharClass.test : CharClass → Char → Bool
  | .any, _ => true
  | .lit c, x => x == c
  | .set cs, x => cs.contains x
  | .space, x => isspace x
  | .word, x => x.isAlphanum || x == '_'

/-- One element of a pattern. -/
inductive RegexNode where
  | one (c : CharClass)
  | star (c : CharClass)
  | plus (c : CharClass)
  | groupOpen
  | groupClose
  deriving DecidableEq, Repr

/-- A pattern: its elements in order. -/
abbrev Regex := List RegexNode

/-- The groups captured so far: the finished ones in order, and the characters
of the group that is open, the most recent first. -/
structure Captures where
  closed : List String
  opened : Option (List Char)
  deriving DecidableEq, Repr

namespace Captures

/-- No group yet. -/
def start : Captures := ⟨[], none⟩

/-- One character was consumed. -/
def push (caps : Captures) (c : Char) : Captures :=
  { caps with opened := caps.opened.map (fun acc => c :: acc) }

/-- A group starts here. -/
def enter (caps : Captures) : Captures := { caps with opened := some [] }

/-- The open group ends here. -/
def leave (caps : Captures) : Captures :=
  match caps.opened with
  | none => caps
  | some acc => ⟨caps.closed ++ [String.mk acc.reverse], none⟩

end Captures

/-- Greedy repetition: every way of consuming characters that pass `c` and then
continuing with `next`, the longest repetition first. -/
def starAll (c : CharClass) (next : List Char → Captures → List (List Char × Captures)) :
    List Char → Captures → List (List Char × Captures)
  | [], caps => next [] caps
  | x :: xs, caps =>
    (if c.test x then starAll c next xs (caps.push x) else []) ++ next (x :: xs) caps

/-- Every way the pattern matches a prefix of the input, in the order a
backtracking matcher tries them; each with the rest of the input and the groups. -/
def runAll : Regex → List Char → Captures → List (List Char × Captures)
  | [], s, caps => [(s, caps)]
  | .one c :: r, s, caps =>
    match s with
    | [] => []
    | x :: xs => if c.test x then runAll r xs (caps.push x) else []
  | .star c :: r, s, caps => starAll c (fun s1 caps1 => runAll r s1 caps1) s caps
  | .plus c :: r, s, caps =>
    match s with
    | [] => []
    | x :: xs =>
      if c.test x then starAll c (fun s1 caps1 => runAll r s1 caps1) xs (caps.push x) else []
  | .groupOpen :: r, s, caps => runAll r s caps.enter
  | .groupClose :: r, s, caps => runAll r s caps.leave

/-- The call `boost::regex_match(line, regex)`: the whole line matches the pattern. -/
def regex_match (line : String) (regex : Regex) : Bool :=
  (runAll regex line.data Captures.start).any (fun m => m.1.isEmpty)

/-- The leftmost match starting in the given input: the first way the pattern
matches at the first position where it matches at all. -/
def searchFrom (regex : Regex) : List Char → Option Captures
  | [] => (runAll regex [] Captures.start).head?.map Prod.snd
  | x :: xs =>
    match (runAll regex (x :: xs) Captures.start).head? with
    | some m => some m.2
    | none => searchFrom regex xs

/-- The call `boost::regex_search(line, what, regex)`: `none` when it returns
false, otherwise the sub-expressions `what[1]`, `what[2]`, ... in order. -/
def regex_search (line : String) (regex : Regex) : Option (List String) :=
  (searchFrom regex line.data).map (fun caps => caps.closed)

/-- The sub-expression `what[i]` for `i ≥ 1` (empty when the group does not exist). -/
def sub_match (what : List String) (i : Nat) : String := what.getD (i - 1) ""

/-- The set written `[:space:]` in both pattern constants. Outside a bracket
expression this is not the POSIX class: it is the bracket expression that lists
the characters `:`, `s`, `p`, `a`, `c`, `e`. -/
def colonSpaceSet : CharClass := .set [':', 's', 'p', 'a', 'c', 'e']

/-- The constant `KEYWORD_LINE_REGEX = "(.*)[:space:]+(\[\w*\])"`. In a C++
string literal `\[`, `\w` and `\]` are not escape sequences and the compiler
keeps the character without the backslash, so the pattern handed to Boost is
`(.*)[:space:]+([w*])`: any text, one or more characters of the set
`[:space:]`, and one character that is `w` or `*`. -/
def KEYWORD_LINE_REGEX : Regex :=
  [.groupOpen, .star .any, .groupClose, .plus colonSpaceSet,
   .groupOpen, .one (.set ['w', '*']), .groupClose]

/-- The constant `TILT_LINE_REGEX = "TILT[:space:]*=[:space:]*(.*)"`. -/
def TILT_LINE_REGEX : Regex :=
  [.one (.lit 'T'), .one (.lit 'I'), .one (.lit 'L'), .one (.lit 'T'),
   .star colonSpaceSet, .one (.lit '='), .star colonSpaceSet,
   .groupOpen, .star .any, .groupClose]

/-- The keyword pattern as its author wrote it down, with the escapes kept and
`[:space:]` read as the class of white space: `(.*)\s+(\[\w*\])`. -/
def KEYWORD_LINE_REGEX_escaped : Regex :=
  [.groupOpen, .star .any, .groupClose, .plus .space,
   .groupOpen, .one (.lit '['), .star .word, .one (.lit ']'), .groupClose]

/-- The TILT pattern with `[:space:]` read as the class of white space:
`TILT\s*=\s*(.*)`. -/
def TILT_LINE_REGEX_escaped : Regex :=
  [.one (.lit 'T'), .one (.lit 'I'), .one (.lit 'L'), .one (.lit 'T'),
   .star .space, .one (.lit '='), .star .space,
   .groupOpen, .star .any, .groupClose]

/-! ## The parser object -/

/-- The constant `MAX_KEYWORD_LENGTH`. -/
def MAX_KEYWORD_LENGTH : Nat := 18

/-- The class `IESParser`: the five public options, the two pattern constants
(non-static `const` members with a default initialiser) and the private
members. `last_added_keyword` is an iterator into the dictionary: `none` is
`keywords_dictionary.end()`, `some k` the entry of key `k`. -/
structure IESParser where
  restrict_keyword_length : Bool := false
  ignore_allowed_keywords : Bool := false
  ignore_required_keywords : Bool := false
  ignore_blocks : Bool := false
  ignore_empty_lines : Bool := true
  KEYWORD_LINE_REGEX : Regex := IES.KEYWORD_LINE_REGEX
  TILT_LINE_REGEX : Regex := IES.TILT_LINE_REGEX
  format : Format
  tilt_specification : TiltSpecification
  tilt_specification_filename : String
  keywords_dictionary : KeywordsDictionary
  last_added_keyword : Option String
  line_counter : Int
  inside_block : Bool := false
  deriving DecidableEq, Repr

/-- The input stream: the lines not read yet, and whether the stream is still
usable (`good = false` is the state in which `!input_stream` holds). -/
structure IStream where
  lines : List String
  good : Bool := true
  deriving DecidableEq, Repr

/-- The call `std::getline(input_stream, line)` on an empty `line`: the next
line; at the end of the input, or on a stream that already failed, nothing is
read and the stream fails. -/
def getline (input_stream : IStream) : String × IStream :=
  if input_stream.good then
    match input_stream.lines with
    | [] => ("", { input_stream with good := false })
    | l :: ls => (l, { input_stream with lines := ls })
  else ("", input_stream)

/-- The call `boost::trim_copy`: the string without its leading and trailing white space. -/
def trim_copy (s : String) : String :=
  String.mk ((s.data.dropWhile isspace).reverse.dropWhile isspace).reverse

/-! ## Allow-lists -/

/-- Transcription of `IESParser::KeywordAllowedByIesna02`. -/
def KeywordAllowedByIesna02 (keyword : String) : Bool :=
  keyword == "TEST" ||
  keyword == "TESTLAB" ||
  keyword == "TESTDATE" ||
  keyword == "NEARFIELD" ||
  keyword == "MANUFAC" ||
  keyword == "LUMCAT" ||
  keyword == "LUMINAIRE" ||
  keyword == "LAMPCAT" ||
  keyword == "LAMP" ||
  keyword == "BALLAST" ||
  keyword == "BALLASTCAT" ||
  keyword == "MAINTCAT" ||
  keyword == "DISTRIBUTION" ||
  keyword == "FLASHAREA" ||
  keyword == "COLORCONSTANT" ||
  keyword == "LAMPPOSITION" ||
  keyword == "ISSUEDATE" ||
  keyword == "OTHER" ||
  keyword == "SEARCH" ||
  keyword == "MORE"

/-- Transcription of `IESParser::KeywordAllowedByIesna95`. -/
def KeywordAllowedByIesna95 (keyword : String) : Bool :=
  keyword == "TEST" ||
  keyword == "DATE" ||
  keyword == "NEARFIELD" ||
  keyword == "MANUFAC" ||
  keyword == "LUMCAT" ||
  keyword == "LUMINAIRE" ||
  keyword == "LAMPCAT" ||
  keyword == "LAMP" ||
  keyword == "BALLAST" ||
  keyword == "BALLASTCAT" ||
  keyword == "MAINTCAT" ||
  keyword == "DISTRIBUTION" ||
  keyword == "FLASHAREA" ||
  keyword == "COLORCONSTANT" ||
  keyword == "OTHER" ||
  keyword == "SEARCH" ||
  keyword == "MORE" ||
  keyword == "BLOCK" ||
  keyword == "ENDBLOCK"

/-- Transcription of `IESParser::KeywordAllowedByIesna91`. -/
def KeywordAllowedByIesna91 (keyword : String) : Bool :=
  keyword == "TEST" ||
  keyword == "DATE" ||
  keyword == "MANUFAC" ||
  keyword == "LUMCAT" ||
  keyword == "LUMINAIRE" ||
  keyword == "LAMPCAT" ||
  keyword == "LAMP" ||
  keyword == "BALLAST" ||
  keyword == "BALLASTCAT" ||
  keyword == "MAINTCAT" ||
  keyword == "DISTRIBUTION" ||
  keyword == "FLASHAREA" ||
  keyword == "COLORCONSTANT" ||
  keyword == "MORE"

namespace IESParser

/-- A `throw ParsingException(msg, line_counter)`. -/
def parsingException (self : IESParser) (msg : String) : Failure :=
  ⟨.ParsingException, msg, self.line_counter⟩

/-- A `throw NotSupportedException(msg, line_counter)`. -/
def notSupportedException (self : IESParser) (msg : String) : Failure :=
  ⟨.NotSupportedException, msg, self.line_counter⟩

/-- The test `keyword[0] == '_'` on a keyword that is not empty. -/
def startsWithUnderscore (keyword : String) : Bool :=
  keyword.data.head? == some '_'

/-- Transcription of `IESParser::AcceptKeyword`; it changes no member. The
`switch` has no case for `LM631986`, which therefore accepts every keyword
that passed the two checks before it. -/
def AcceptKeyword (self : IESParser) (keyword : String) : Outcome :=
  if keyword == "" then
    .error (self.parsingException "Keyword is empty")
  else if self.restrict_keyword_length || keyword.length > MAX_KEYWORD_LENGTH then
    .error (self.parsingException
      "Keyword exceeds maximum length specified by IESNA standard")
  else if self.format == Format.UNKNOWN then
    .error ⟨.AssertionFailed, "format != Format::UNKNOWN", self.line_counter⟩
  else
    match self.format with
    | .LM632002 =>
      if !(startsWithUnderscore keyword || KeywordAllowedByIesna02 keyword) then
        .error (self.parsingException
          ("Keyword " ++ keyword ++ " is not allowed by IESNA LM-63-2002 standard"))
      else .ok ()
    | .LM631995 =>
      if !(startsWithUnderscore keyword || KeywordAllowedByIesna95 keyword) then
        .error (self.parsingException
          ("Keyword " ++ keyword ++ " is not allowed by IESNA LM-63-95 standard"))
      else .ok ()
    | .LM631991 =>
      if startsWithUnderscore keyword then
        .error (self.parsingException
          "User keywords are not allowed by IESNA LM-63-91 standard")
      else if !KeywordAllowedByIesna91 keyword then
        .error (self.parsingException
          ("Keyword " ++ keyword ++ " is not allowed by IESNA LM-63-91 standard"))
      else .ok ()
    | _ => .ok ()

/-- Transcription of `IESParser::ProcessBlockKeywords`. -/
def ProcessBlockKeywords (self : IESParser) (keyword : String) : Outcome × IESParser :=
  if keyword == "BLOCK" && self.ignore_blocks then
    if self.inside_block then
      (.error (self.parsingException "BLOCK keyword is not expected"), self)
    else (.ok (), { self with inside_block := true })
  else if keyword == "ENDBLOCK" && self.ignore_blocks then
    if !self.inside_block then
      (.error (self.parsingException "ENDBLOCK keyword is not expected"), self)
    else (.ok (), { self with inside_block := false })
  else if keyword == "ENDBLOCK" || keyword == "BLOCK" then
    (.error (self.notSupportedException "Block support is not implemented"), self)
  else (.ok (), self)

/-- Transcription of `IESParser::IsKeywordLine`. -/
def IsKeywordLine (self : IESParser) (line : String) : Bool :=
  regex_match line self.KEYWORD_LINE_REGEX

/-- Transcription of `IESParser::IsTiltLine`. -/
def IsTiltLine (self : IESParser) (line : String) : Bool :=
  regex_match line self.TILT_LINE_REGEX

/-- The part of `IESParser::ParseKeywordLine` after the extraction of `key`
and `value`: the allow-list check, the block keywords, and the dictionary. -/
def storeKeyword (self : IESParser) (key value : String) : Outcome × IESParser :=
  match (if !self.ignore_allowed_keywords then self.AcceptKeyword key else .ok ()) with
  | .error e => (.error e, self)
  | .ok _ =>
    match self.ProcessBlockKeywords key with
    | (.error e, s1) => (.error e, s1)
    | (.ok _, s1) =>
      if key == "MORE" then
        match s1.last_added_keyword with
        | none =>
          (.error (s1.parsingException "Keyword MORE occured before any other keyword"), s1)
        | some k =>
          (.ok (), { s1 with
            keywords_dictionary := s1.keywords_dictionary.appendAt k ("\n" ++ value) })
      else
        (.ok (), { s1 with keywords_dictionary := s1.keywords_dictionary.assign key value })

/-- Transcription of `IESParser::ParseKeywordLine`: `key` is `what[1]` and
`value` is `what[2]`. -/
def ParseKeywordLine (self : IESParser) (line : String) : Outcome × IESParser :=
  match regex_search line self.KEYWORD_LINE_REGEX with
  | none => (.error (self.parsingException "Keyword is expected"), self)
  | some what => self.storeKeyword (sub_match what 1) (sub_match what 2)

/-- Transcription of `IESParser::ParseTiltLine`. -/
def ParseTiltLine (self : IESParser) (line : String) : Outcome × IESParser :=
  match regex_search line self.TILT_LINE_REGEX with
  | none => (.error (self.parsingException "TILT line is expected"), self)
  | some what =>
    let value := sub_match what 1
    if value == "INCLUDE" then
      (.ok (), { self with tilt_specification := TiltSpecification.INCLUDE })
    else if value == "NONE" then
      (.ok (), { self with tilt_specification := TiltSpecification.NONE })
    else
      (.error (self.notSupportedException
        "TILT specification from file is not supported"), self)

/-- Transcription of `IESParser::ParseFormatVersion`. -/
def ParseFormatVersion (self : IESParser) (version_string : String) : IESParser :=
  if version_string == "IESNA91" then { self with format := Format.LM631991 }
  else if version_string == "IESNA:LM-63-1995" then { self with format := Format.LM631995 }
  else if version_string == "IESNA:LM-63-2002" then { self with format := Format.LM632002 }
  else { self with format := Format.UNKNOWN }

/-- Transcription of `IESParser::ReadLine`. -/
def ReadLine (self : IESParser) (input_stream : IStream) : String × IESParser × IStream :=
  let s1 := { self with line_counter := self.line_counter + 1 }
  let r := getline input_stream
  (r.1, s1, r.2)

/-- The `do ... while` loop of `IESParser::ReadTrimmedLine`, run for at most
`fuel` iterations; `none` when they do not suffice. -/
def ReadTrimmedLineLoop : Nat → IESParser → IStream → Option (String × IESParser × IStream)
  | 0, _, _ => none
  | fuel + 1, self, input_stream =>
    let r := self.ReadLine input_stream
    let line := trim_copy r.1
    if self.ignore_empty_lines && r.2.2.good && line == "" then
      ReadTrimmedLineLoop fuel r.2.1 r.2.2
    else some (line, r.2.1, r.2.2)

/-- Transcription of `IESParser::ReadTrimmedLine`: the loop with one iteration
for each line left in the stream and one more. -/
def ReadTrimmedLine (self : IESParser) (input_stream : IStream) :
    Option (String × IESParser × IStream) :=
  ReadTrimmedLineLoop (input_stream.lines.length + 1) self input_stream

/-- Transcription of `IESParser::CheckEmpty`; it changes no member. -/
def CheckEmpty (self : IESParser) (input_stream : IStream) (line : String) : Outcome :=
  if !input_stream.good then
    .error (self.parsingException "End of file is not expectied")
  else if line == "" then
    .error (self.parsingException "Empty line is not expected")
  else .ok ()

/-- The result of `Parse` and of its loop: the outcome, the object and the
stream as they are left; `none` when the iterations allowed did not suffice. -/
abbrev ParseResult := Option (Outcome × IESParser × IStream)

/-- The statements `line = ReadTrimmedLine(input_stream); CheckEmpty(input_stream, line);`
followed by what comes after them. -/
def readChecked (self : IESParser) (input_stream : IStream)
    (next : String → IESParser → IStream → ParseResult) : ParseResult :=
  match self.ReadTrimmedLine input_stream with
  | none => none
  | some (line, s1, is1) =>
    match s1.CheckEmpty is1 line with
    | .error e => some (.error e, s1, is1)
    | .ok _ => next line s1 is1

/-- The loop `while (!tilt_reached)` of `IESParser::Parse`, entered with
`tilt_reached = false` and the current `line`, run for at most `fuel` iterations. -/
def ParseLoop : Nat → IESParser → IStream → String → ParseResult
  | 0, _, _, _ => none
  | fuel + 1, self, input_stream, line =>
    if self.IsKeywordLine line then
      match self.ParseKeywordLine line with
      | (.error e, s1) => some (.error e, s1, input_stream)
      | (.ok _, s1) =>
        s1.readChecked input_stream (fun line1 s2 is2 => ParseLoop fuel s2 is2 line1)
    else if self.IsTiltLine line then
      match self.ParseTiltLine line with
      | (.error e, s1) => some (.error e, s1, input_stream)
      | (.ok _, s1) =>
        s1.readChecked input_stream (fun _ s2 is2 => some (.ok (), s2, is2))
    else if self.format != Format.LM631986 then
      some (.error (self.parsingException "Expected keyword line or TILT line"),
        self, input_stream)
    else
      self.readChecked input_stream (fun line1 s2 is2 => ParseLoop fuel s2 is2 line1)

/-- Transcription of `IESParser::Parse`; the loop gets one iteration for each
line left in the stream when it is entered and one more. -/
def Parse (self : IESParser) (input_stream : IStream) : ParseResult :=
  let s0 := { self with last_added_keyword := none }
  s0.readChecked input_stream (fun line s1 is1 =>
    let s2 := s1.ParseFormatVersion line
    if s2.format != Format.UNKNOWN then
      s2.readChecked is1 (fun line2 s3 is3 => ParseLoop (is3.lines.length + 1) s3 is3 line2)
    else
      ParseLoop (is1.lines.length + 1) { s2 with format := Format.LM631986 } is1 line)

end IESParser

/-! ## Objects and inputs used in the examples -/

/-- A parser object as its constructor leaves it: the options and constants at
their default initialisers, an empty dictionary; the members the class does
not initialise are given a value here. -/
def newParser : IESParser :=
  { format := Format.UNKNOWN, tilt_specification := TiltSpecification.FILE,
    tilt_specification_filename := "", keywords_dictionary := [],
    last_added_keyword := none, line_counter := 0 }

/-- The object `newParser` with the pattern constants read with their escapes. -/
def newParserEscaped : IESParser :=
  { newParser with
    KEYWORD_LINE_REGEX := KEYWORD_LINE_REGEX_escaped
    TILT_LINE_REGEX := TILT_LINE_REGEX_escaped }

/-- A stream over the given lines, in its initial good state. -/
def IStream.ofLines (lines : List String) : IStream := { lines := lines, good := true }

/-! ## Sequences of block keywords -/

/-- The keys passed in order to `ProcessBlockKeywords`, up to the first that throws. -/
def IESParser.ProcessBlockKeywordsSeq (self : IESParser) : List String → Outcome × IESParser
  | [] => (.ok (), self)
  | key :: keys =>
    match self.ProcessBlockKeywords key with
    | (.error e, s1) => (.error e, s1)
    | (.ok _, s1) => s1.ProcessBlockKeywordsSeq keys

/-- The occurrences of `BLOCK` and `ENDBLOCK` in a sequence of keys. -/
def blockMarkers (keys : List String) : List String :=
  keys.filter (fun k => k == "BLOCK" || k == "ENDBLOCK")

/-- The markers strictly alternate beginning with `BLOCK`: those at even
positions are `BLOCK`, those at odd positions `ENDBLOCK`. -/
def StrictlyAlternate (markers : List String) : Prop :=
  ∀ i : Nat, i < markers.length →
    markers.get? i = some (if i % 2 = 0 then "BLOCK" else "ENDBLOCK")

/-- The markers alternate, beginning with `BLOCK` when `inside = false` and with
`ENDBLOCK` when `inside = true`. -/
def AlternateFrom (inside : Bool) (markers : List String) : Prop :=
  ∀ i : Nat, i < markers.length →
    markers.get? i = some (if (i % 2 = 0) = (inside = false) then "BLOCK" else "ENDBLOCK")

/-- The value of `inside_block` after the markers, starting from `inside`. -/
def insideAfter (inside : Bool) (markers : List String) : Bool :=
  match markers.getLast? with
  | none => inside
  | some m => m == "BLOCK"

/-! ## The input as `ReadTrimmedLine` sees it -/

/-- The object after `n` more lines were counted. -/
def IESParser.advance (self : IESParser) (n : Int) : IESParser :=
  { self with line_counter := self.line_counter + n }

/-- The next line with content and the lines after it: with `ignore = true` the
first line that is not blank once trimmed, with `ignore = false` the first line
provided it is not blank; `none` when there is no such line. -/
def nextContent (ignore : Bool) : List String → Option (String × List String)
  | [] => none
  | l :: rest =>
    if trim_copy l == "" then (if ignore then nextContent ignore rest else none)
    else some (trim_copy l, rest)

/-! ## The states `Parse` goes through -/

/-- The members that `Parse` and the functions it calls leave alone once the
format is decided: `b` is `a` up to `inside_block`, the dictionary,
`tilt_specification` and `line_counter`. -/
def Frame (a b : IESParser) : Prop :=
  b = { a with
    inside_block := b.inside_block
    keywords_dictionary := b.keywords_dictionary
    tilt_specification := b.tilt_specification
    line_counter := b.line_counter }

/-- The call `Parse` on object `self0` and stream `is0` arrives at the test of
its `while` loop with `tilt_reached = false`, the object `s`, the stream `is`
and the current `line`, after having handled keyword lines with the keys
`keys`, in this order. The constructors follow the statements of `Parse`: the
version line is read and recognised and the next line is read (`header`), or
it is not recognised and stays the current line (`noHeader`); an iteration
handles a keyword line (`keyword`), or passes over a line that is neither a
keyword line nor a TILT line under `LM631986` (`other`), and reads the next line. -/
inductive AtLoop (self0 : IESParser) (is0 : IStream) :
    List String → IESParser → IStream → String → Prop where
  | header {line : String} {s1 : IESParser} {is1 : IStream}
      {line2 : String} {s3 : IESParser} {is3 : IStream} :
      ({ self0 with last_added_keyword := none } : IESParser).ReadTrimmedLine is0 =
        some (line, s1, is1) →
      s1.CheckEmpty is1 line = .ok () →
      (s1.ParseFormatVersion line).format ≠ Format.UNKNOWN →
      (s1.ParseFormatVersion line).ReadTrimmedLine is1 = some (line2, s3, is3) →
      s3.CheckEmpty is3 line2 = .ok () →
      AtLoop self0 is0 [] s3 is3 line2
  | noHeader {line : String} {s1 : IESParser} {is1 : IStream} :
      ({ self0 with last_added_keyword := none } : IESParser).ReadTrimmedLine is0 =
        some (line, s1, is1) →
      s1.CheckEmpty is1 line = .ok () →
      (s1.ParseFormatVersion line).format = Format.UNKNOWN →
      AtLoop self0 is0 [] { s1.ParseFormatVersion line with format := Format.LM631986 }
        is1 line
  | keyword {keys : List String} {s : IESParser} {is : IStream} {line : String}
      {what : List String} {s1 : IESParser}
      {line1 : String} {s2 : IESParser} {is2 : IStream} :
      AtLoop self0 is0 keys s is line →
      s.IsKeywordLine line = true →
      regex_search line s.KEYWORD_LINE_REGEX = some what →
      s.ParseKeywordLine line = (.ok (), s1) →
      s1.ReadTrimmedLine is = some (line1, s2, is2) →
      s2.CheckEmpty is2 line1 = .ok () →
      AtLoop self0 is0 (keys ++ [sub_match what 1]) s2 is2 line1
  | other {keys : List String} {s : IESParser} {is : IStream} {line : String}
      {line1 : String} {s2 : IESParser} {is2 : IStream} :
      AtLoop self0 is0 keys s is line →
      s.IsKeywordLine line = false →
      s.IsTiltLine line = false →
      s.format = Format.LM631986 →
      s.ReadTrimmedLine is = some (line1, s2, is2) →
      s2.CheckEmpty is2 line1 = .ok () →
      AtLoop self0 is0 keys s2 is2 line1

/-- The format a version line stands for, as the specification lists the tokens:
`IESNA91`, `IESNA:LM-63-1995` and `IESNA:LM-63-2002`; every other line stands
for the 1986 format, which has no token. -/
def formatOfVersionLine (L : String) : Format :=
  if L = "IESNA91" then Format.LM631991
  else if L = "IESNA:LM-63-1995" then Format.LM631995
  else if L = "IESNA:LM-63-2002" then Format.LM632002
  else Format.LM631986

/-! ## Comparing two runs of `Parse` -/

/-- The outcome without the line number: a normal return, or the class and the
message of the exception. -/
def Outcome.what : Outcome → Option (FailureKind × String)
  | .ok _ => none
  | .error e => some (e.kind, e.msg)

/-- The outcome with the line number of its exception replaced. -/
def Outcome.atLine (r : Outcome) (n : Int) : Outcome :=
  match r with
  | .ok u => .ok u
  | .error e => .error { e with line_number := n }

/-- The object with another `line_counter` and another `tilt_specification`. -/
def IESParser.moved (self : IESParser) (n : Int) (t : TiltSpecification) : IESParser :=
  { self with line_counter := n, tilt_specification := t }

/-- The lines that are not blank once trimmed. -/
def contentLines (lines : List String) : List String :=
  lines.filter (fun l => trim_copy l != "")

/-- The two streams look the same to `ReadTrimmedLine`: both usable or both
failed, and the same lines left, up to blank lines when these are skipped. -/
def SameContent (ignore : Bool) (a b : IStream) : Prop :=
  a.good = b.good ∧
    (if ignore = true then contentLines a.lines = contentLines b.lines else a.lines = b.lines)

/-- The second list is the first with whitespace-only lines inserted before,
between or after its lines. -/
inductive InsertedBlanks : List String → List String → Prop where
  | nil : InsertedBlanks [] []
  | keep (l : String) {a b : List String} :
      InsertedBlanks a b → InsertedBlanks (l :: a) (l :: b)
  | blank (w : String) {a b : List String} :
      trim_copy w = "" → InsertedBlanks a b → InsertedBlanks a (w :: b)

/-- Two results of `Parse` or of its loop that differ at most in the line
number of the exception, in `line_counter`, in `tilt_specification` and in the
stream left; and not in `tilt_specification` when the run succeeded or `c` holds. -/
def SameRun (c : Prop) (x y : IESParser.ParseResult) : Prop :=
  ∃ (r : Outcome) (s : IESParser) (i : IStream) (k m : Int) (t : TiltSpecification)
    (j : IStream),
    x = some (r, s, i) ∧ y = some (r.atLine k, s.moved m t, j) ∧
    (r.succeeded = true ∨ c → t = s.tilt_specification)

/-- The object with other values of the members that `Parse` assigns: `format`,
`last_added_keyword`, `line_counter` and `tilt_specification`. -/
def IESParser.withPrior (self : IESParser) (f : Format) (k : Option String) (n : Int)
    (t : TiltSpecification) : IESParser :=
  { self with format := f, last_added_keyword := k, line_counter := n, tilt_specification := t }

/-- The run `x` over a stream in which the line `w` is followed by the lines
`rest` returns, and either it has ended with `w` still unread in the stream it
leaves, or the read of `w` has thrown the `ParsingException` for an empty line
with the line number `n`, leaving `rest`. -/
def BlankReached (w : String) (rest : List String) (n : Int)
    (x : IESParser.ParseResult) : Prop :=
  ∃ (r : Outcome) (s1 : IESParser) (i1 : IStream), x = some (r, s1, i1) ∧
    ((∃ more : List String, i1.lines = more ++ w :: rest) ∨
      (r = .error ⟨FailureKind.ParsingException, "Empty line is not expected", n⟩ ∧
        i1 = ⟨rest, true⟩))

/-! # Theorems -/

open IESParser

/-! ## Keyword acceptance -/

theorem AcceptKeyword_eq_of_restrict (self : IESParser) (keyword : String)
    (hne : keyword ≠ "") (hr : self.restrict_keyword_length = true) :
    self.AcceptKeyword keyword = .error (self.parsingException
      "Keyword exceeds maximum length specified by IESNA standard") := by
  simp [AcceptKeyword, hne, hr]

theorem AcceptKeyword_eq_of_long (self : IESParser) (keyword : String)
    (hlen : MAX_KEYWORD_LENGTH < keyword.length) :
    (self.AcceptKeyword keyword).failureKind = some FailureKind.ParsingException := by
  unfold AcceptKeyword
  split
  · rfl
  · simp [hlen, Outcome.failureKind, parsingException]

/-- C3: with `restrict_keyword_length` disabled, for a key that is not empty
and has at most 18 characters, `AcceptKeyword` returns normally exactly when the
format is 1986, or the format is 1991 and the key does not start with `_` and
is on the 1991 list, or the format is 1995 or 2002 and the key starts with `_`
or is on the list of that standard; in every other case it throws a
`ParsingException`. The format is one of the four standards, as the assertion
of `AcceptKeyword` requires. -/
theorem AcceptKeyword_succeeds_iff (self : IESParser) (keyword : String)
    (hr : self.restrict_keyword_length = false) (hne : keyword ≠ "")
    (hlen : keyword.length ≤ 18) (hf : self.format ≠ Format.UNKNOWN) :
    ((self.AcceptKeyword keyword).succeeded = true ↔
      (self.format = Format.LM631986 ∨
       (self.format = Format.LM631991 ∧ startsWithUnderscore keyword = false ∧
          KeywordAllowedByIesna91 keyword = true) ∨
       (self.format = Format.LM631995 ∧
          (startsWithUnderscore keyword = true ∨ KeywordAllowedByIesna95 keyword = true)) ∨
       (self.format = Format.LM632002 ∧
          (startsWithUnderscore keyword = true ∨ KeywordAllowedByIesna02 keyword = true)))) ∧
    ((self.AcceptKeyword keyword).succeeded = false →
      (self.AcceptKeyword keyword).failureKind = some FailureKind.ParsingException) := by
  have hlen2 : ¬ MAX_KEYWORD_LENGTH < keyword.length := by
    simp only [MAX_KEYWORD_LENGTH]; omega
  unfold AcceptKeyword
  simp only [beq_iff_eq, hne, if_false, hr, Bool.false_or, decide_eq_true_eq, hlen2, hf]
  cases hfmt : self.format
  · exact absurd hfmt hf
  all_goals
    cases startsWithUnderscore keyword <;> cases KeywordAllowedByIesna91 keyword <;>
    cases KeywordAllowedByIesna95 keyword <;> cases KeywordAllowedByIesna02 keyword <;>
    simp [Outcome.succeeded, Outcome.failureKind, parsingException]


theorem AcceptKeyword_succeeds_iff_witness :
    ({ newParser with format := Format.LM631991 } : IESParser).restrict_keyword_length = false ∧
    "LAMP" ≠ "" ∧ "LAMP".length ≤ 18 ∧
    ({ newParser with format := Format.LM631991 } : IESParser).format ≠ Format.UNKNOWN ∧
    (({ newParser with format := Format.LM631991 } : IESParser).AcceptKeyword
      "LAMP").succeeded = true :=
  ⟨rfl, by decide, by decide, by decide,
    (AcceptKeyword_succeeds_iff ({ newParser with format := Format.LM631991 }) "LAMP" rfl
      (by decide) (by decide) (by decide)).1.2
      (Or.inr (Or.inl ⟨rfl, by decide, by decide⟩))⟩

theorem ParseKeywordLine_eq_storeKeyword (self : IESParser) (line : String)
    (what : List String) (hs : regex_search line self.KEYWORD_LINE_REGEX = some what) :
    self.ParseKeywordLine line = self.storeKeyword (sub_match what 1) (sub_match what 2) := by
  simp [ParseKeywordLine, hs]

theorem storeKeyword_of_reject (self : IESParser) (key value : String) (e : Failure)
    (hi : self.ignore_allowed_keywords = false) (ha : self.AcceptKeyword key = .error e) :
    self.storeKeyword key value = (.error e, self) := by
  simp [storeKeyword, hi, ha]

theorem storeKeyword_long_key (self : IESParser) (key value : String)
    (hi : self.ignore_allowed_keywords = false) (hlen : 18 < key.length) :
    (self.storeKeyword key value).1.failureKind = some FailureKind.ParsingException ∧
    (self.storeKeyword key value).2 = self := by
  have h := AcceptKeyword_eq_of_long self key hlen
  cases ha : self.AcceptKeyword key with
  | ok u => rw [ha] at h; simp [Outcome.failureKind] at h
  | error e =>
    rw [ha] at h
    rw [storeKeyword_of_reject self key value e hi ha]
    exact ⟨h, rfl⟩

/-- C4, amended: with `ignore_allowed_keywords` disabled, for every format and
every setting of the other options, handling a keyword line whose key is
longer than 18 characters throws a `ParsingException` and leaves the object
unchanged. -/
theorem ParseKeywordLine_long_key (self : IESParser) (line : String) (what : List String)
    (hs : regex_search line self.KEYWORD_LINE_REGEX = some what)
    (hlen : 18 < (sub_match what 1).length)
    (hi : self.ignore_allowed_keywords = false) :
    (self.ParseKeywordLine line).1.failureKind = some FailureKind.ParsingException ∧
    (self.ParseKeywordLine line).2 = self := by
  rw [ParseKeywordLine_eq_storeKeyword self line what hs]
  exact storeKeyword_long_key self _ _ hi hlen

theorem ParseKeywordLine_long_key_witness :
    regex_search "ABCDEFGHIJKLMNOPQRSsw" newParser.KEYWORD_LINE_REGEX =
        some ["ABCDEFGHIJKLMNOPQRS", "w"] ∧
      18 < (sub_match ["ABCDEFGHIJKLMNOPQRS", "w"] 1).length ∧
      newParser.ignore_allowed_keywords = false ∧
      (newParser.ParseKeywordLine "ABCDEFGHIJKLMNOPQRSsw").1.failureKind =
        some FailureKind.ParsingException ∧
      (newParser.ParseKeywordLine "ABCDEFGHIJKLMNOPQRSsw").2 = newParser :=
  ⟨by decide, by decide, rfl,
    ParseKeywordLine_long_key newParser "ABCDEFGHIJKLMNOPQRSsw" ["ABCDEFGHIJKLMNOPQRS", "w"]
      (by decide) (by decide) rfl⟩

/-- C4, counterexample: with `ignore_allowed_keywords` enabled `AcceptKeyword`
is not called, so a keyword line with a key of 19 characters is handled
without an exception and the key is stored (for the patterns as compiled and
as written). -/
theorem ParseKeywordLine_long_key_unchecked :
    ("ABCDEFGHIJKLMNOPQRS".length = 19 ∧
      ({ newParser with ignore_allowed_keywords := true, format := Format.LM632002 }
        : IESParser).IsKeywordLine "ABCDEFGHIJKLMNOPQRSsw" = true ∧
      (({ newParser with ignore_allowed_keywords := true, format := Format.LM632002 }
        : IESParser).ParseKeywordLine "ABCDEFGHIJKLMNOPQRSsw").1.succeeded = true ∧
      (({ newParser with ignore_allowed_keywords := true, format := Format.LM632002 }
        : IESParser).ParseKeywordLine "ABCDEFGHIJKLMNOPQRSsw").2.keywords_dictionary =
          [("ABCDEFGHIJKLMNOPQRS", "w")]) ∧
    (({ newParserEscaped with ignore_allowed_keywords := true, format := Format.LM632002 }
        : IESParser).IsKeywordLine "ABCDEFGHIJKLMNOPQRS [x]" = true ∧
      (({ newParserEscaped with ignore_allowed_keywords := true, format := Format.LM632002 }
        : IESParser).ParseKeywordLine "ABCDEFGHIJKLMNOPQRS [x]").1.succeeded = true ∧
      (({ newParserEscaped with ignore_allowed_keywords := true, format := Format.LM632002 }
        : IESParser).ParseKeywordLine "ABCDEFGHIJKLMNOPQRS [x]").2.keywords_dictionary =
          [("ABCDEFGHIJKLMNOPQRS", "[x]")]) := by
  decide

/-- C5: the code at the failing input. The key `TEST` has 4 characters and is
on the 2002 list; `AcceptKeyword` accepts it with `restrict_keyword_length`
disabled, and with the option enabled throws "Keyword exceeds maximum length
specified by IESNA standard": the test is `restrict_keyword_length || length > 18`.
`Parse` with the option enabled stops with this exception at the first keyword
line (for the patterns as compiled and as written). -/
theorem AcceptKeyword_restrict_rejects_short :
    "TEST".length = 4 ∧ KeywordAllowedByIesna02 "TEST" = true ∧
    ({ newParser with format := Format.LM632002 } : IESParser).AcceptKeyword "TEST" = .ok () ∧
    ({ newParser with format := Format.LM632002, restrict_keyword_length := true }
      : IESParser).AcceptKeyword "TEST" =
        .error ⟨FailureKind.ParsingException,
          "Keyword exceeds maximum length specified by IESNA standard", 0⟩ ∧
    ((({ newParser with restrict_keyword_length := true } : IESParser).Parse
        (IStream.ofLines ["IESNA:LM-63-2002", "TESTsw", "TILT=NONE", "1"])).map
        (fun r => r.1) =
      some (.error ⟨FailureKind.ParsingException,
        "Keyword exceeds maximum length specified by IESNA standard", 2⟩)) ∧
    ((({ newParserEscaped with restrict_keyword_length := true } : IESParser).Parse
        (IStream.ofLines ["IESNA:LM-63-2002", "TEST [abc]", "TILT=NONE", "1"])).map
        (fun r => r.1) =
      some (.error ⟨FailureKind.ParsingException,
        "Keyword exceeds maximum length specified by IESNA standard", 2⟩)) := by
  decide

theorem ProcessBlockKeywords_unsupported (self : IESParser) (key : String)
    (hk : key = "BLOCK" ∨ key = "ENDBLOCK") (hb : self.ignore_blocks = false) :
    self.ProcessBlockKeywords key =
      (.error (self.notSupportedException "Block support is not implemented"), self) := by
  rcases hk with rfl | rfl <;> simp [ProcessBlockKeywords, hb]

theorem storeKeyword_block_unsupported (self : IESParser) (key value : String)
    (hk : key = "BLOCK" ∨ key = "ENDBLOCK") (hb : self.ignore_blocks = false)
    (ha : self.ignore_allowed_keywords = true ∨ self.AcceptKeyword key = .ok ()) :
    self.storeKeyword key value =
      (.error (self.notSupportedException "Block support is not implemented"), self) := by
  unfold storeKeyword
  rw [ProcessBlockKeywords_unsupported self key hk hb]
  rcases ha with ha | ha
  · simp [ha]
  · cases hi : self.ignore_allowed_keywords <;> simp [ha]

theorem AcceptKeyword_block (self : IESParser) (key : String)
    (hk : key = "BLOCK" ∨ key = "ENDBLOCK") (hr : self.restrict_keyword_length = false) :
    ((self.format = Format.LM631986 ∨ self.format = Format.LM631995) →
      self.AcceptKeyword key = .ok ()) ∧
    ((self.format = Format.LM631991 ∨ self.format = Format.LM632002) →
      (self.AcceptKeyword key).failureKind = some FailureKind.ParsingException) := by
  have l1 : ¬ (18 < "BLOCK".length) := by decide
  have l2 : ¬ (18 < "ENDBLOCK".length) := by decide
  have u1 : startsWithUnderscore "BLOCK" = false := by decide
  have u2 : startsWithUnderscore "ENDBLOCK" = false := by decide
  have a1 : KeywordAllowedByIesna95 "BLOCK" = true := by decide
  have a2 : KeywordAllowedByIesna95 "ENDBLOCK" = true := by decide
  have b1 : KeywordAllowedByIesna91 "BLOCK" = false := by decide
  have b2 : KeywordAllowedByIesna91 "ENDBLOCK" = false := by decide
  have c1 : KeywordAllowedByIesna02 "BLOCK" = false := by decide
  have c2 : KeywordAllowedByIesna02 "ENDBLOCK" = false := by decide
  constructor
  · rintro (hf | hf) <;> rcases hk with rfl | rfl <;>
      simp [AcceptKeyword, hr, hf, MAX_KEYWORD_LENGTH, l1, l2, u1, u2, a1, a2]
  · rintro (hf | hf) <;> rcases hk with rfl | rfl <;>
      simp [AcceptKeyword, hr, hf, MAX_KEYWORD_LENGTH, Outcome.failureKind, parsingException,
        l1, l2, u1, u2, b1, b2, c1, c2]

/-- C9, amended: with `ignore_blocks` disabled, handling a keyword line whose key
is `BLOCK` or `ENDBLOCK` throws a `NotSupportedException` when
`ignore_allowed_keywords` is enabled, or when it is disabled,
`restrict_keyword_length` is disabled and the format is 1986 or 1995; under the
formats 1991 and 2002 (same options) it throws a `ParsingException`, because
`AcceptKeyword` runs first and their lists hold neither key. -/
theorem ParseKeywordLine_block_not_ignored (self : IESParser) (line : String)
    (what : List String)
    (hs : regex_search line self.KEYWORD_LINE_REGEX = some what)
    (hk : sub_match what 1 = "BLOCK" ∨ sub_match what 1 = "ENDBLOCK")
    (hb : self.ignore_blocks = false) :
    (self.ignore_allowed_keywords = true →
      (self.ParseKeywordLine line).1.failureKind = some FailureKind.NotSupportedException) ∧
    (self.ignore_allowed_keywords = false → self.restrict_keyword_length = false →
      (self.format = Format.LM631986 ∨ self.format = Format.LM631995) →
      (self.ParseKeywordLine line).1.failureKind = some FailureKind.NotSupportedException) ∧
    (self.ignore_allowed_keywords = false → self.restrict_keyword_length = false →
      (self.format = Format.LM631991 ∨ self.format = Format.LM632002) →
      (self.ParseKeywordLine line).1.failureKind = some FailureKind.ParsingException) := by
  rw [ParseKeywordLine_eq_storeKeyword self line what hs]
  refine ⟨?_, ?_, ?_⟩
  · intro hi
    rw [storeKeyword_block_unsupported self _ _ hk hb (Or.inl hi)]
    rfl
  · intro _ hr hf
    rw [storeKeyword_block_unsupported self _ _ hk hb
      (Or.inr ((AcceptKeyword_block self _ hk hr).1 hf))]
    rfl
  · intro hi hr hf
    have h := (AcceptKeyword_block self _ hk hr).2 hf
    cases ha : self.AcceptKeyword (sub_match what 1) with
    | ok u => rw [ha] at h; simp [Outcome.failureKind] at h
    | error e =>
      rw [ha] at h
      rw [storeKeyword_of_reject self _ _ e hi ha]
      exact h

theorem ParseKeywordLine_block_not_ignored_witness :
    regex_search "BLOCKsw" newParser.KEYWORD_LINE_REGEX = some ["BLOCK", "w"] ∧
      (sub_match ["BLOCK", "w"] 1 = "BLOCK" ∨ sub_match ["BLOCK", "w"] 1 = "ENDBLOCK") ∧
      newParser.ignore_blocks = false ∧
      (({ newParser with format := Format.LM631995 } : IESParser).ParseKeywordLine
        "BLOCKsw").1.failureKind = some FailureKind.NotSupportedException :=
  ⟨by decide, Or.inl (by decide), rfl,
    (ParseKeywordLine_block_not_ignored ({ newParser with format := Format.LM631995 })
      "BLOCKsw" ["BLOCK", "w"] (by decide) (Or.inl (by decide)) rfl).2.1 rfl rfl (Or.inr rfl)⟩

/-- C9, counterexample: with the default options and `ignore_blocks` disabled,
a keyword line with key `BLOCK` under the 2002 format, and one with key
`ENDBLOCK` under the 1991 format, throw a `ParsingException`, not a
`NotSupportedException` (for the patterns as compiled and as written). -/
theorem ParseKeywordLine_block_format_violation :
    (({ newParser with format := Format.LM632002 } : IESParser).IsKeywordLine "BLOCKsw" = true ∧
      regex_search "BLOCKsw" newParser.KEYWORD_LINE_REGEX = some ["BLOCK", "w"] ∧
      ({ newParser with format := Format.LM632002 } : IESParser).ignore_blocks = false ∧
      (({ newParser with format := Format.LM632002 } : IESParser).ParseKeywordLine
        "BLOCKsw").1.failureKind = some FailureKind.ParsingException ∧
      (({ newParser with format := Format.LM631991 } : IESParser).ParseKeywordLine
        "ENDBLOCKsw").1.failureKind = some FailureKind.ParsingException) ∧
    (({ newParserEscaped with format := Format.LM632002 } : IESParser).IsKeywordLine
        "BLOCK [x]" = true ∧
      regex_search "BLOCK [x]" newParserEscaped.KEYWORD_LINE_REGEX = some ["BLOCK", "[x]"] ∧
      (({ newParserEscaped with format := Format.LM632002 } : IESParser).ParseKeywordLine
        "BLOCK [x]").1.failureKind = some FailureKind.ParsingException ∧
      (({ newParserEscaped with format := Format.LM631991 } : IESParser).ParseKeywordLine
        "ENDBLOCK [x]").1.failureKind = some FailureKind.ParsingException) := by
  decide

/-! ## Block keywords -/


theorem ProcessBlockKeywords_other (self : IESParser) (key : String)
    (h1 : key ≠ "BLOCK") (h2 : key ≠ "ENDBLOCK") :
    self.ProcessBlockKeywords key = (.ok (), self) := by
  simp [ProcessBlockKeywords, h1, h2]

theorem blockMarkers_cons_other (key : String) (keys : List String)
    (h1 : key ≠ "BLOCK") (h2 : key ≠ "ENDBLOCK") :
    blockMarkers (key :: keys) = blockMarkers keys := by
  simp [blockMarkers, List.filter_cons, h1, h2]

theorem blockMarkers_cons_block (keys : List String) :
    blockMarkers ("BLOCK" :: keys) = "BLOCK" :: blockMarkers keys := by
  simp [blockMarkers, List.filter_cons]

theorem blockMarkers_cons_endblock (keys : List String) :
    blockMarkers ("ENDBLOCK" :: keys) = "ENDBLOCK" :: blockMarkers keys := by
  simp [blockMarkers, List.filter_cons]

theorem alternateFrom_nil (inside : Bool) : AlternateFrom inside [] := by
  intro i hi
  simp at hi

theorem alternateFrom_cons (inside : Bool) (m : String) (ms : List String) :
    AlternateFrom inside (m :: ms) ↔
      m = (if inside = false then "BLOCK" else "ENDBLOCK") ∧ AlternateFrom (!inside) ms := by
  constructor
  · intro h
    refine ⟨?_, ?_⟩
    · have := h 0 (by simp)
      simpa using this
    · intro i hi
      have := h (i + 1) (by rw [List.length_cons]; exact Nat.succ_lt_succ hi)
      rw [List.get?_cons_succ] at this
      rw [this]
      have h2 : (i + 1) % 2 = 0 ↔ ¬ (i % 2 = 0) := by omega
      cases inside <;> simp [h2]
  · rintro ⟨hm, h⟩ i hi
    cases i with
    | zero => simp [hm]
    | succ j =>
      have := h j (by rw [List.length_cons] at hi; exact Nat.lt_of_succ_lt_succ hi)
      rw [List.get?_cons_succ, this]
      have h2 : (j + 1) % 2 = 0 ↔ ¬ (j % 2 = 0) := by omega
      cases inside <;> simp [h2]

theorem strictlyAlternate_iff (markers : List String) :
    StrictlyAlternate markers ↔ AlternateFrom false markers := by
  unfold StrictlyAlternate AlternateFrom
  simp

theorem insideAfter_cons (inside b : Bool) (m : String) (ms : List String)
    (h : ms = [] → b = (m == "BLOCK")) :
    insideAfter inside (m :: ms) = insideAfter b ms := by
  cases ms with
  | nil => simp [insideAfter, h]
  | cons m2 ms2 =>
    unfold insideAfter
    rw [List.getLast?_cons_cons]
    cases hl : (m2 :: ms2).getLast? with
    | none => simp at hl
    | some x => rfl

theorem ProcessBlockKeywords_enter (self : IESParser)
    (hb : self.ignore_blocks = true) (hin : self.inside_block = false) :
    self.ProcessBlockKeywords "BLOCK" = (.ok (), { self with inside_block := true }) := by
  simp [ProcessBlockKeywords, hb, hin]

theorem ProcessBlockKeywords_leave (self : IESParser)
    (hb : self.ignore_blocks = true) (hin : self.inside_block = true) :
    self.ProcessBlockKeywords "ENDBLOCK" = (.ok (), { self with inside_block := false }) := by
  simp [ProcessBlockKeywords, hb, hin]

theorem ProcessBlockKeywords_nested (self : IESParser)
    (hb : self.ignore_blocks = true) (hin : self.inside_block = true) :
    self.ProcessBlockKeywords "BLOCK" =
      (.error (self.parsingException "BLOCK keyword is not expected"), self) := by
  simp [ProcessBlockKeywords, hb, hin]

theorem ProcessBlockKeywords_unopened (self : IESParser)
    (hb : self.ignore_blocks = true) (hin : self.inside_block = false) :
    self.ProcessBlockKeywords "ENDBLOCK" =
      (.error (self.parsingException "ENDBLOCK keyword is not expected"), self) := by
  simp [ProcessBlockKeywords, hb, hin]

theorem ProcessBlockKeywordsSeq_spec (keys : List String) :
    ∀ self : IESParser, self.ignore_blocks = true →
      ((self.ProcessBlockKeywordsSeq keys).1.succeeded = true ↔
        AlternateFrom self.inside_block (blockMarkers keys)) ∧
      ((self.ProcessBlockKeywordsSeq keys).1.succeeded = true →
        (self.ProcessBlockKeywordsSeq keys).2.inside_block =
          insideAfter self.inside_block (blockMarkers keys)) ∧
      ((self.ProcessBlockKeywordsSeq keys).1.succeeded = false →
        (self.ProcessBlockKeywordsSeq keys).1.failureKind =
          some FailureKind.ParsingException) := by
  induction keys with
  | nil =>
    intro self _
    simp [ProcessBlockKeywordsSeq, blockMarkers, Outcome.succeeded, alternateFrom_nil,
      insideAfter]
  | cons key keys ih =>
    intro self hb
    by_cases h1 : key = "BLOCK"
    · subst h1
      rw [blockMarkers_cons_block, alternateFrom_cons]
      cases hin : self.inside_block
      · have ih1 := ih { self with inside_block := true } hb
        simp only [ProcessBlockKeywordsSeq, ProcessBlockKeywords_enter self hb hin]
        refine ⟨?_, ?_, ih1.2.2⟩
        · simpa using ih1.1
        · intro hs
          rw [ih1.2.1 hs]
          exact (insideAfter_cons false true "BLOCK" _ (by simp)).symm
      · simp [ProcessBlockKeywordsSeq, ProcessBlockKeywords_nested self hb hin,
          Outcome.succeeded, Outcome.failureKind, parsingException]
    · by_cases h2 : key = "ENDBLOCK"
      · subst h2
        rw [blockMarkers_cons_endblock, alternateFrom_cons]
        cases hin : self.inside_block
        · simp [ProcessBlockKeywordsSeq, ProcessBlockKeywords_unopened self hb hin,
            Outcome.succeeded, Outcome.failureKind, parsingException]
        · have ih1 := ih { self with inside_block := false } hb
          simp only [ProcessBlockKeywordsSeq, ProcessBlockKeywords_leave self hb hin]
          refine ⟨?_, ?_, ih1.2.2⟩
          · simpa using ih1.1
          · intro hs
            rw [ih1.2.1 hs]
            exact (insideAfter_cons true false "ENDBLOCK" _ (by simp)).symm
      · rw [blockMarkers_cons_other key keys h1 h2]
        simp only [ProcessBlockKeywordsSeq, ProcessBlockKeywords_other self key h1 h2]
        exact ih self hb


/-! ## Reading lines -/

theorem advance_advance (self : IESParser) (a b : Int) :
    (self.advance a).advance b = self.advance (a + b) := by
  simp [advance, add_assoc]

theorem advance_zero (self : IESParser) : self.advance 0 = self := by
  simp [advance]

theorem ReadLine_cons (self : IESParser) (l : String) (rest : List String) :
    self.ReadLine ⟨l :: rest, true⟩ = (l, self.advance 1, ⟨rest, true⟩) := by
  simp [ReadLine, getline, advance]

theorem ReadLine_nil (self : IESParser) :
    self.ReadLine ⟨[], true⟩ = ("", self.advance 1, ⟨[], false⟩) := by
  simp [ReadLine, getline, advance]

theorem ReadLine_failed (self : IESParser) (lines : List String) :
    self.ReadLine ⟨lines, false⟩ = ("", self.advance 1, ⟨lines, false⟩) := by
  simp [ReadLine, getline, advance]

theorem trim_copy_empty : trim_copy "" = "" := by decide

theorem nextContent_length (ignore : Bool) (lines : List String) :
    ∀ (l : String) (rest : List String), nextContent ignore lines = some (l, rest) →
      rest.length < lines.length ∧ l ≠ "" := by
  induction lines with
  | nil => intro l rest h; simp [nextContent] at h
  | cons x xs ih =>
    intro l rest h
    unfold nextContent at h
    by_cases hx : trim_copy x = ""
    · simp only [hx, beq_self_eq_true, if_true] at h
      cases ignore
      · simp at h
      · simp only [if_true] at h
        have := ih l rest h
        exact ⟨by simp only [List.length_cons]; omega, this.2⟩
    · simp only [beq_iff_eq, hx, if_false, Option.some.injEq, Prod.mk.injEq] at h
      obtain ⟨h1, h2⟩ := h
      subst h1 h2
      exact ⟨by simp, hx⟩

/-- When a line with content is left, the loop of `ReadTrimmedLine` returns it,
having counted the lines up to it. -/
theorem ReadTrimmedLineLoop_some (lines : List String) :
    ∀ (fuel : Nat) (self : IESParser) (l : String) (rest : List String),
      lines.length < fuel → nextContent self.ignore_empty_lines lines = some (l, rest) →
      ReadTrimmedLineLoop fuel self ⟨lines, true⟩ =
        some (l, self.advance ((lines.length - rest.length : Nat) : Int), ⟨rest, true⟩) := by
  induction lines with
  | nil => intro fuel self l rest _ h; simp [nextContent] at h
  | cons x xs ih =>
    intro fuel self l rest hf h
    cases fuel with
    | zero => simp at hf
    | succ fuel =>
      unfold ReadTrimmedLineLoop
      rw [ReadLine_cons]
      unfold nextContent at h
      by_cases hx : trim_copy x = ""
      · simp only [hx, beq_self_eq_true, if_true] at h
        cases hi : self.ignore_empty_lines
        · rw [hi] at h; simp at h
        · rw [hi] at h
          simp only [if_true] at h
          have hi2 : (self.advance 1).ignore_empty_lines = true := hi
          have h2 : nextContent (self.advance 1).ignore_empty_lines xs = some (l, rest) := by
            rw [hi2]; exact h
          have hlen := (nextContent_length true xs l rest h).1
          simp only [hx, beq_self_eq_true, Bool.and_self, if_true]
          have hc : (((x :: xs).length - rest.length : Nat) : Int) =
              1 + ((xs.length - rest.length : Nat) : Int) := by
            have : (x :: xs).length - rest.length = 1 + (xs.length - rest.length) := by
              simp only [List.length_cons]; omega
            rw [this]; push_cast; rfl
          rw [ih fuel (self.advance 1) l rest (by simp at hf; omega) h2, advance_advance, hc]
      · simp only [beq_iff_eq, hx, if_false, Option.some.injEq, Prod.mk.injEq] at h
        obtain ⟨h1, h2⟩ := h
        subst h1 h2
        simp [hx]

/-- When no line with content is left, the loop of `ReadTrimmedLine` returns the
empty string. -/
theorem ReadTrimmedLineLoop_none (lines : List String) :
    ∀ (fuel : Nat) (self : IESParser),
      lines.length < fuel → nextContent self.ignore_empty_lines lines = none →
      ∃ (n : Int) (is1 : IStream),
        ReadTrimmedLineLoop fuel self ⟨lines, true⟩ = some ("", self.advance n, is1) := by
  induction lines with
  | nil =>
    intro fuel self hf _
    cases fuel with
    | zero => simp at hf
    | succ fuel =>
      refine ⟨1, ⟨[], false⟩, ?_⟩
      unfold ReadTrimmedLineLoop
      rw [ReadLine_nil]
      simp [trim_copy_empty]
  | cons x xs ih =>
    intro fuel self hf h
    cases fuel with
    | zero => simp at hf
    | succ fuel =>
      unfold ReadTrimmedLineLoop
      rw [ReadLine_cons]
      unfold nextContent at h
      by_cases hx : trim_copy x = ""
      · simp only [hx, beq_self_eq_true, if_true] at h
        cases hi : self.ignore_empty_lines
        · exact ⟨1, ⟨xs, true⟩, by simp [hx]⟩
        · rw [hi] at h
          simp only [if_true] at h
          have hi2 : (self.advance 1).ignore_empty_lines = true := hi
          have h2 : nextContent (self.advance 1).ignore_empty_lines xs = none := by
            rw [hi2]; exact h
          obtain ⟨n, is1, hn⟩ := ih fuel (self.advance 1) (by simp at hf; omega) h2
          refine ⟨1 + n, is1, ?_⟩
          simp only [hx, beq_self_eq_true, Bool.and_self, if_true]
          rw [hn, advance_advance]
      · simp [hx] at h


theorem readChecked_some (self : IESParser) (input_stream : IStream)
    (next : String → IESParser → IStream → ParseResult) (l : String) (rest : List String)
    (hg : input_stream.good = true)
    (h : nextContent self.ignore_empty_lines input_stream.lines = some (l, rest)) :
    self.readChecked input_stream next =
      next l (self.advance ((input_stream.lines.length - rest.length : Nat) : Int))
        ⟨rest, true⟩ := by
  obtain ⟨lines, good⟩ := input_stream
  simp only at hg h
  subst hg
  have hl := (nextContent_length _ _ l rest h).2
  unfold readChecked ReadTrimmedLine
  rw [ReadTrimmedLineLoop_some lines _ self l rest (Nat.lt_succ_self _) h]
  simp [CheckEmpty, hl]

theorem readChecked_none (self : IESParser) (input_stream : IStream)
    (hg : input_stream.good = true)
    (h : nextContent self.ignore_empty_lines input_stream.lines = none) :
    ∃ (e : Failure) (n : Int) (is1 : IStream), e.kind = FailureKind.ParsingException ∧
      ∀ next : String → IESParser → IStream → ParseResult,
        self.readChecked input_stream next = some (.error e, self.advance n, is1) := by
  obtain ⟨lines, good⟩ := input_stream
  simp only at hg h
  subst hg
  obtain ⟨n, is1, hn⟩ := ReadTrimmedLineLoop_none lines _ self (Nat.lt_succ_self _) h
  by_cases hgood : is1.good = true
  · refine ⟨(self.advance n).parsingException "Empty line is not expected", n, is1, rfl, ?_⟩
    intro next
    unfold readChecked ReadTrimmedLine
    rw [hn]
    simp [CheckEmpty, hgood]
  · refine ⟨(self.advance n).parsingException "End of file is not expectied", n, is1, rfl, ?_⟩
    intro next
    unfold readChecked ReadTrimmedLine
    rw [hn]
    simp [CheckEmpty, hgood]

theorem readChecked_failed (self : IESParser) (input_stream : IStream)
    (next : String → IESParser → IStream → ParseResult)
    (hg : input_stream.good = false) :
    self.readChecked input_stream next =
      some (.error ((self.advance 1).parsingException "End of file is not expectied"),
        self.advance 1, input_stream) := by
  obtain ⟨lines, good⟩ := input_stream
  simp only at hg
  subst hg
  unfold readChecked ReadTrimmedLine ReadTrimmedLineLoop
  rw [ReadLine_failed]
  simp [CheckEmpty]

theorem readChecked_congr (self : IESParser) (input_stream : IStream)
    (f g : String → IESParser → IStream → ParseResult)
    (h : ∀ (l : String) (s : IESParser) (rest : List String),
      rest.length < input_stream.lines.length → f l s ⟨rest, true⟩ = g l s ⟨rest, true⟩) :
    self.readChecked input_stream f = self.readChecked input_stream g := by
  cases hg : input_stream.good
  · rw [readChecked_failed self input_stream f hg, readChecked_failed self input_stream g hg]
  · cases hn : nextContent self.ignore_empty_lines input_stream.lines with
    | none =>
      obtain ⟨e, n, is1, _, he⟩ := readChecked_none self input_stream hg hn
      rw [he f, he g]
    | some p =>
      obtain ⟨l, rest⟩ := p
      rw [readChecked_some self input_stream f l rest hg hn,
        readChecked_some self input_stream g l rest hg hn]
      exact h l _ rest (nextContent_length _ _ l rest hn).1

/-- The loop of `Parse` does not depend on the number of iterations allowed,
once that exceeds the number of lines left in the stream. -/
theorem ParseLoop_fuel (n : Nat) :
    ∀ (m : Nat) (self : IESParser) (input_stream : IStream) (line : String),
      input_stream.lines.length < n → input_stream.lines.length < m →
      ParseLoop n self input_stream line = ParseLoop m self input_stream line := by
  induction n with
  | zero => intro m self input_stream line hn; simp at hn
  | succ n ih =>
    intro m self input_stream line hn hm
    cases m with
    | zero => simp at hm
    | succ m =>
      have key : ∀ s1 : IESParser,
          s1.readChecked input_stream (fun line1 s2 is2 => ParseLoop n s2 is2 line1) =
          s1.readChecked input_stream (fun line1 s2 is2 => ParseLoop m s2 is2 line1) := by
        intro s1
        apply readChecked_congr
        intro l s rest hr
        exact ih m s ⟨rest, true⟩ l (by simp only; omega) (by simp only; omega)
      unfold ParseLoop
      split
      · split
        · rfl
        · exact key _
      · split
        · rfl
        · split
          · rfl
          · exact key _

/-- One more iteration than lines are left is enough for the loop of `Parse`:
it never stops for lack of iterations. -/
theorem ParseLoop_isSome (n : Nat) :
    ∀ (self : IESParser) (input_stream : IStream) (line : String),
      input_stream.lines.length < n → (ParseLoop n self input_stream line).isSome = true := by
  induction n with
  | zero => intro self input_stream line hn; simp at hn
  | succ n ih =>
    intro self input_stream line hn
    have key : ∀ (s1 : IESParser) (f : String → IESParser → IStream → ParseResult),
        (∀ (l : String) (s : IESParser) (rest : List String),
          rest.length < input_stream.lines.length → (f l s ⟨rest, true⟩).isSome = true) →
        (s1.readChecked input_stream f).isSome = true := by
      intro s1 f hf
      cases hg : input_stream.good
      · rw [readChecked_failed s1 input_stream f hg]; rfl
      · cases hc : nextContent s1.ignore_empty_lines input_stream.lines with
        | none =>
          obtain ⟨e, k, is1, _, he⟩ := readChecked_none s1 input_stream hg hc
          rw [he f]; rfl
        | some p =>
          obtain ⟨l, rest⟩ := p
          rw [readChecked_some s1 input_stream f l rest hg hc]
          exact hf l _ rest (nextContent_length _ _ l rest hc).1
    have keyLoop : ∀ s1 : IESParser,
        (s1.readChecked input_stream
          (fun line1 s2 is2 => ParseLoop n s2 is2 line1)).isSome = true := by
      intro s1
      apply key
      intro l s rest hr
      exact ih s ⟨rest, true⟩ l (by simp only; omega)
    unfold ParseLoop
    split
    · split
      · rfl
      · exact keyLoop _
    · split
      · split
        · rfl
        · apply key
          intro l s rest _
          rfl
      · split
        · rfl
        · exact keyLoop _


/-! ## The loop of `Parse` -/

theorem ReadTrimmedLine_checked (self : IESParser) (input_stream : IStream) (l : String)
    (s1 : IESParser) (is1 : IStream)
    (hr : self.ReadTrimmedLine input_stream = some (l, s1, is1))
    (hc : s1.CheckEmpty is1 l = .ok ()) :
    input_stream.good = true ∧
      nextContent self.ignore_empty_lines input_stream.lines = some (l, is1.lines) ∧
      is1.good = true ∧
      s1 = self.advance ((input_stream.lines.length - is1.lines.length : Nat) : Int) := by
  obtain ⟨lines, good⟩ := input_stream
  cases good with
  | false =>
    exfalso
    unfold ReadTrimmedLine ReadTrimmedLineLoop at hr
    rw [ReadLine_failed] at hr
    simp at hr
    obtain ⟨h1, h2, h3⟩ := hr
    subst h1 h2 h3
    simp [CheckEmpty] at hc
  | true =>
    cases hn : nextContent self.ignore_empty_lines lines with
    | none =>
      exfalso
      obtain ⟨n, is2, h2⟩ := ReadTrimmedLineLoop_none lines _ self (Nat.lt_succ_self _) hn
      unfold ReadTrimmedLine at hr
      rw [h2] at hr
      simp at hr
      obtain ⟨h1, h2, h3⟩ := hr
      subst h1 h2 h3
      unfold CheckEmpty at hc
      split at hc
      · simp at hc
      · simp at hc
    | some p =>
      obtain ⟨l2, rest⟩ := p
      have h2 := ReadTrimmedLineLoop_some lines _ self l2 rest (Nat.lt_succ_self _) hn
      unfold ReadTrimmedLine at hr
      rw [h2] at hr
      simp at hr
      obtain ⟨h1, h2, h3⟩ := hr
      subst h1 h2 h3
      simp

theorem readChecked_of_checked (self : IESParser) (input_stream : IStream)
    (next : String → IESParser → IStream → ParseResult) (l : String)
    (s1 : IESParser) (is1 : IStream)
    (hr : self.ReadTrimmedLine input_stream = some (l, s1, is1))
    (hc : s1.CheckEmpty is1 l = .ok ()) :
    self.readChecked input_stream next = next l s1 is1 := by
  unfold readChecked
  rw [hr]
  simp only [hc]

theorem ReadTrimmedLine_shorter (self : IESParser) (input_stream : IStream) (l : String)
    (s1 : IESParser) (is1 : IStream)
    (hr : self.ReadTrimmedLine input_stream = some (l, s1, is1))
    (hc : s1.CheckEmpty is1 l = .ok ()) :
    is1.lines.length < input_stream.lines.length := by
  have h := ReadTrimmedLine_checked self input_stream l s1 is1 hr hc
  exact (nextContent_length _ _ _ _ h.2.1).1

/-- From a state at the test of the loop, `Parse` is the loop run from there. -/
theorem Parse_eq_of_atLoop (self0 : IESParser) (is0 : IStream) (keys : List String)
    (s : IESParser) (is : IStream) (line : String)
    (h : AtLoop self0 is0 keys s is line) :
    self0.Parse is0 = ParseLoop (is.lines.length + 1) s is line := by
  induction h with
  | header hr hc hf hr2 hc2 =>
    unfold Parse
    simp only
    rw [readChecked_of_checked _ _ _ _ _ _ hr hc]
    simp only [ne_eq, hf, not_false_eq_true, if_true, bne_iff_ne]
    rw [readChecked_of_checked _ _ _ _ _ _ hr2 hc2]
  | noHeader hr hc hf =>
    unfold Parse
    simp only
    rw [readChecked_of_checked _ _ _ _ _ _ hr hc]
    simp [hf]
  | keyword hat hk hs hp hr hc ih =>
    rw [ih]
    rename_i keys1 s0 is1 line0 what s1 line1 s2 is2
    have hlen := ReadTrimmedLine_shorter _ _ _ _ _ hr hc
    conv => lhs; unfold ParseLoop
    simp only [hk, if_true, hp]
    rw [readChecked_of_checked _ _ _ _ _ _ hr hc]
    exact ParseLoop_fuel _ _ _ _ _ hlen (Nat.lt_succ_self _)
  | other hat hk ht hf hr hc ih =>
    rw [ih]
    rename_i keys1 s0 is1 line0 line1 s2 is2
    have hlen := ReadTrimmedLine_shorter _ _ _ _ _ hr hc
    conv => lhs; unfold ParseLoop
    simp only [hk, ht, hf, Bool.false_eq_true, if_false, bne_self_eq_false]
    rw [readChecked_of_checked _ _ _ _ _ _ hr hc]
    exact ParseLoop_fuel _ _ _ _ _ hlen (Nat.lt_succ_self _)


theorem atLoop_good (self0 : IESParser) (is0 : IStream) (keys : List String)
    (s : IESParser) (is : IStream) (line : String)
    (h : AtLoop self0 is0 keys s is line) : is.good = true ∧ line ≠ "" := by
  have aux : ∀ (s : IESParser) (is : IStream) (line : String),
      s.CheckEmpty is line = .ok () → is.good = true ∧ line ≠ "" := by
    intro s is line hc
    unfold CheckEmpty at hc
    cases hg : is.good
    · simp [hg] at hc
    · by_cases hl : line = ""
      · simp [hg, hl] at hc
      · exact ⟨rfl, hl⟩
  cases h with
  | header hr hc hf hr2 hc2 => exact aux _ _ _ hc2
  | noHeader hr hc hf => exact aux _ _ _ hc
  | keyword hat hk hs hp hr hc => exact aux _ _ _ hc
  | other hat hk ht hf hr hc => exact aux _ _ _ hc

theorem nextContent_isSome_iff (ignore : Bool) (lines : List String) :
    (nextContent ignore lines).isSome = true ↔
      if ignore = true then ∃ l ∈ lines, trim_copy l ≠ ""
      else ∃ l rest, lines = l :: rest ∧ trim_copy l ≠ "" := by
  induction lines with
  | nil => cases ignore <;> simp [nextContent]
  | cons x xs ih =>
    unfold nextContent
    by_cases hx : trim_copy x = ""
    · cases ignore
      · simp [hx]
      · simp only [if_true] at ih
        simp [hx, ih]
    · cases ignore <;> simp [hx]

theorem ParseTiltLine_value (self : IESParser) (line : String) (what : List String)
    (hs : regex_search line self.TILT_LINE_REGEX = some what)
    (hv : sub_match what 1 = "INCLUDE" ∨ sub_match what 1 = "NONE") :
    self.ParseTiltLine line =
      (.ok (), { self with tilt_specification :=
        (if sub_match what 1 = "INCLUDE" then TiltSpecification.INCLUDE
        else TiltSpecification.NONE) }) := by
  have hne : ¬ ("NONE" = "INCLUDE") := by decide
  unfold ParseTiltLine
  rw [hs]
  rcases hv with hv | hv <;> simp [hv, hne]

/-- The last iteration of the loop: after the TILT line one more line is read
and checked, and its outcome is the outcome of `Parse`. -/
theorem readChecked_last (self : IESParser) (input_stream : IStream)
    (hg : input_stream.good = true) :
    ∃ (r : Outcome) (n : Int) (is1 : IStream),
      self.readChecked input_stream (fun _ s2 is2 => some (.ok (), s2, is2)) =
        some (r, self.advance n, is1) ∧
      (r.succeeded = true ↔
        (nextContent self.ignore_empty_lines input_stream.lines).isSome = true) ∧
      (r.succeeded = false → r.failureKind = some FailureKind.ParsingException) := by
  cases hn : nextContent self.ignore_empty_lines input_stream.lines with
  | none =>
    obtain ⟨e, n, is1, hk, he⟩ := readChecked_none self input_stream hg hn
    refine ⟨.error e, n, is1, he _, ?_, ?_⟩
    · simp [Outcome.succeeded]
    · intro _; simp [Outcome.failureKind, hk]
  | some p =>
    obtain ⟨l, rest⟩ := p
    refine ⟨.ok (), _, ⟨rest, true⟩, readChecked_some self input_stream _ l rest hg hn, ?_, ?_⟩
    · simp [Outcome.succeeded]
    · simp [Outcome.succeeded]

/-- C1, amended: when `Parse` arrives at its loop with a line that is a TILT line
(and not a keyword line) whose value is `INCLUDE` (respectively `NONE`), it
records `tilt_specification = INCLUDE` (respectively `NONE`) and then reads
and checks one more line: `Parse` returns normally exactly when a line with
content follows the TILT line (with `ignore_empty_lines` a later line that is
not blank, without it the very next line, not blank), and throws a
`ParsingException` otherwise. -/
theorem Parse_tilt_line (self0 : IESParser) (is0 : IStream) (keys : List String)
    (s : IESParser) (is : IStream) (line : String) (what : List String)
    (hat : AtLoop self0 is0 keys s is line)
    (hk : s.IsKeywordLine line = false) (ht : s.IsTiltLine line = true)
    (hs : regex_search line s.TILT_LINE_REGEX = some what)
    (hv : sub_match what 1 = "INCLUDE" ∨ sub_match what 1 = "NONE") :
    ∃ (r : Outcome) (s1 : IESParser) (is1 : IStream),
      self0.Parse is0 = some (r, s1, is1) ∧
      s1.tilt_specification =
        (if sub_match what 1 = "INCLUDE" then TiltSpecification.INCLUDE
          else TiltSpecification.NONE) ∧
      (r.succeeded = true ↔
        if s.ignore_empty_lines = true then ∃ l ∈ is.lines, trim_copy l ≠ ""
        else ∃ l rest, is.lines = l :: rest ∧ trim_copy l ≠ "") ∧
      (r.succeeded = false → r.failureKind = some FailureKind.ParsingException) := by
  have hg := (atLoop_good _ _ _ _ _ _ hat).1
  rw [Parse_eq_of_atLoop _ _ _ _ _ _ hat]
  unfold ParseLoop
  simp only [hk, ht, if_true, Bool.false_eq_true, if_false,
    ParseTiltLine_value s line what hs hv]
  obtain ⟨r, n, is1, he, h1, h2⟩ := readChecked_last
    ({ s with tilt_specification :=
        (if sub_match what 1 = "INCLUDE" then TiltSpecification.INCLUDE
        else TiltSpecification.NONE) }) is hg
  refine ⟨r, _, is1, he, rfl, ?_, h2⟩
  rw [h1]
  exact nextContent_isSome_iff _ _


theorem atLoop_example :
    AtLoop newParser (IStream.ofLines ["IESNA:LM-63-2002", "TILT=NONE", "1"]) []
      (((newParser.advance 1).ParseFormatVersion "IESNA:LM-63-2002").advance 1)
      ⟨["1"], true⟩ "TILT=NONE" :=
  @AtLoop.header _ _ "IESNA:LM-63-2002" (newParser.advance 1) ⟨["TILT=NONE", "1"], true⟩
    _ _ _ (by decide) (by decide) (by decide) (by decide) (by decide)

theorem Parse_tilt_line_witness :
    ∃ (r : Outcome) (s1 : IESParser) (is1 : IStream),
      newParser.Parse (IStream.ofLines ["IESNA:LM-63-2002", "TILT=NONE", "1"]) =
        some (r, s1, is1) ∧
      s1.tilt_specification = TiltSpecification.NONE ∧
      r.succeeded = true :=
  match Parse_tilt_line newParser (IStream.ofLines ["IESNA:LM-63-2002", "TILT=NONE", "1"]) []
      (((newParser.advance 1).ParseFormatVersion "IESNA:LM-63-2002").advance 1)
      ⟨["1"], true⟩ "TILT=NONE" ["NONE"] atLoop_example (by decide) (by decide) (by decide)
      (Or.inr (by decide)) with
  | ⟨r, s1, is1, h1, h2, h3, _⟩ =>
    ⟨r, s1, is1, h1, h2, h3.2 ⟨"1", by simp, by decide⟩⟩

/-- C1, counterexample: when the TILT line is the last line of the input, `Parse`
throws the `ParsingException` "End of file is not expectied" after having
recorded the TILT value (for the patterns as compiled and as written, also
after an accepted keyword line). The input of the round-trip example of the
specification fails earlier: its second line has no separator before the tag
and is neither a keyword line nor a TILT line. -/
theorem Parse_tilt_last_line_fails :
    ((newParser.Parse (IStream.ofLines ["IESNA:LM-63-2002", "TILT=NONE"])).map
        (fun r => (r.1, r.2.1.tilt_specification)) =
      some (.error ⟨FailureKind.ParsingException, "End of file is not expectied", 3⟩,
        TiltSpecification.NONE)) ∧
    ((newParser.Parse (IStream.ofLines ["IESNA:LM-63-2002", "TESTsw", "TILT=INCLUDE"])).map
        (fun r => (r.1, r.2.1.tilt_specification)) =
      some (.error ⟨FailureKind.ParsingException, "End of file is not expectied", 4⟩,
        TiltSpecification.INCLUDE)) ∧
    ((newParserEscaped.Parse (IStream.ofLines ["IESNA:LM-63-2002", "TILT=NONE"])).map
        (fun r => (r.1, r.2.1.tilt_specification)) =
      some (.error ⟨FailureKind.ParsingException, "End of file is not expectied", 3⟩,
        TiltSpecification.NONE)) ∧
    ((newParserEscaped.Parse
        (IStream.ofLines ["IESNA:LM-63-2002", "TEST [abc]", "TILT=INCLUDE"])).map
        (fun r => (r.1, r.2.1.tilt_specification)) =
      some (.error ⟨FailureKind.ParsingException, "End of file is not expectied", 4⟩,
        TiltSpecification.INCLUDE)) ∧
    ((newParserEscaped.Parse
        (IStream.ofLines ["IESNA:LM-63-2002", "TEST[abc]", "TILT=NONE"])).map
        (fun r => r.1) =
      some (.error ⟨FailureKind.ParsingException,
        "Expected keyword line or TILT line", 2⟩)) := by
  decide


/-- C8: with `ignore_blocks` enabled and `inside_block = false` at the start, a
sequence of keys passed in order to `ProcessBlockKeywords` is processed without
an exception if and only if its `BLOCK` and `ENDBLOCK` keys strictly alternate
beginning with `BLOCK`; on success `inside_block` is true exactly when the last
of these keys is `BLOCK`; when the sequence is not processed to its end, the
exception is a `ParsingException` (thrown at the first offending key, every
alternating sequence before it being processed); and a key other than `BLOCK`
and `ENDBLOCK` changes nothing. -/
theorem ProcessBlockKeywordsSeq_alternation (self : IESParser) (keys : List String)
    (hb : self.ignore_blocks = true) (hin : self.inside_block = false) :
    ((self.ProcessBlockKeywordsSeq keys).1.succeeded = true ↔
      StrictlyAlternate (blockMarkers keys)) ∧
    ((self.ProcessBlockKeywordsSeq keys).1.succeeded = true →
      ((self.ProcessBlockKeywordsSeq keys).2.inside_block = true ↔
        (blockMarkers keys).getLast? = some "BLOCK")) ∧
    ((self.ProcessBlockKeywordsSeq keys).1.succeeded = false →
      (self.ProcessBlockKeywordsSeq keys).1.failureKind =
        some FailureKind.ParsingException) ∧
    (∀ (s : IESParser) (key : String), key ≠ "BLOCK" → key ≠ "ENDBLOCK" →
      s.ProcessBlockKeywords key = (.ok (), s)) := by
  have h := ProcessBlockKeywordsSeq_spec keys self hb
  rw [hin] at h
  refine ⟨?_, ?_, h.2.2, ProcessBlockKeywords_other⟩
  · rw [strictlyAlternate_iff]; exact h.1
  · intro hs
    rw [h.2.1 hs]
    unfold insideAfter
    cases (blockMarkers keys).getLast? with
    | none => simp
    | some m => simp

theorem ProcessBlockKeywordsSeq_alternation_witness :
    ({ newParser with ignore_blocks := true } : IESParser).ignore_blocks = true ∧
    ({ newParser with ignore_blocks := true } : IESParser).inside_block = false ∧
    StrictlyAlternate (blockMarkers ["TEST", "BLOCK", "LAMP", "ENDBLOCK", "BLOCK"]) ∧
    (({ newParser with ignore_blocks := true } : IESParser).ProcessBlockKeywordsSeq
      ["TEST", "BLOCK", "LAMP", "ENDBLOCK", "BLOCK"]).2.inside_block = true :=
  ⟨rfl, rfl,
    (ProcessBlockKeywordsSeq_alternation ({ newParser with ignore_blocks := true })
      ["TEST", "BLOCK", "LAMP", "ENDBLOCK", "BLOCK"] rfl rfl).1.1 (by decide),
    ((ProcessBlockKeywordsSeq_alternation ({ newParser with ignore_blocks := true })
      ["TEST", "BLOCK", "LAMP", "ENDBLOCK", "BLOCK"] rfl rfl).2.1 (by decide)).2 (by decide)⟩

/-- C2: the code at the failing input. After the accepted keyword line with key
`TEST`, the line with key `MORE` throws the `ParsingException` "Keyword MORE
occured before any other keyword" and the value stored under `TEST` stays as it
was: `last_added_keyword`, set to `end()` when `Parse` starts, is assigned
nowhere else. Shown for the patterns as compiled and as written. -/
theorem Parse_more_after_keyword_fails :
    ((newParser.Parse
        (IStream.ofLines ["IESNA:LM-63-2002", "TESTsw", "MOREsw", "TILT=NONE", "1"])).map
        (fun r => (r.1, r.2.1.keywords_dictionary, r.2.1.last_added_keyword)) =
      some (.error ⟨FailureKind.ParsingException,
        "Keyword MORE occured before any other keyword", 3⟩, [("TEST", "w")], none)) ∧
    ((newParserEscaped.Parse
        (IStream.ofLines
          ["IESNA:LM-63-2002", "TEST [abc]", "MORE [def]", "TILT=NONE", "1"])).map
        (fun r => (r.1, r.2.1.keywords_dictionary, r.2.1.last_added_keyword)) =
      some (.error ⟨FailureKind.ParsingException,
        "Keyword MORE occured before any other keyword", 3⟩, [("TEST", "[abc]")], none)) := by
  decide

/-! ## What the loop leaves unchanged -/

theorem Frame.refl (a : IESParser) : Frame a a := rfl

theorem Frame.trans {a b c : IESParser} (h1 : Frame a b) (h2 : Frame b c) : Frame a c := by
  unfold Frame at *
  rw [h1] at h2
  exact h2

theorem Frame.format_eq {a b : IESParser} (h : Frame a b) : b.format = a.format := by
  unfold Frame at h; rw [h]

theorem Frame.ignore_blocks_eq {a b : IESParser} (h : Frame a b) :
    b.ignore_blocks = a.ignore_blocks := by
  unfold Frame at h; rw [h]

theorem Frame.ignore_empty_lines_eq {a b : IESParser} (h : Frame a b) :
    b.ignore_empty_lines = a.ignore_empty_lines := by
  unfold Frame at h; rw [h]

theorem frame_advance (self : IESParser) (n : Int) : Frame self (self.advance n) := rfl

theorem frame_ProcessBlockKeywords (self : IESParser) (key : String) :
    Frame self (self.ProcessBlockKeywords key).2 := by
  unfold ProcessBlockKeywords
  split
  · split <;> rfl
  · split
    · split <;> rfl
    · split <;> rfl

theorem frame_storeKeyword (self : IESParser) (key value : String) :
    Frame self (self.storeKeyword key value).2 := by
  have hp := frame_ProcessBlockKeywords self key
  unfold storeKeyword
  split
  · rfl
  · split
    · rename_i e s1 heq
      rw [heq] at hp
      exact hp
    · rename_i u s1 heq
      rw [heq] at hp
      split
      · split
        · exact hp
        · exact Frame.trans hp rfl
      · exact Frame.trans hp rfl

theorem frame_ParseKeywordLine (self : IESParser) (line : String) :
    Frame self (self.ParseKeywordLine line).2 := by
  unfold ParseKeywordLine
  split
  · rfl
  · exact frame_storeKeyword _ _ _

theorem frame_ParseTiltLine (self : IESParser) (line : String) :
    Frame self (self.ParseTiltLine line).2 := by
  unfold ParseTiltLine
  split
  · rfl
  · simp only
    split
    · rfl
    · split <;> rfl

/-- The two ways `readChecked` ends: with a `ParsingException`, or by passing the
next line with content to what follows. -/
theorem readChecked_cases (self : IESParser) (input_stream : IStream)
    (next : String → IESParser → IStream → ParseResult) :
    (∃ (e : Failure) (n : Int) (is1 : IStream), e.kind = FailureKind.ParsingException ∧
      self.readChecked input_stream next = some (.error e, self.advance n, is1)) ∨
    (∃ (l : String) (rest : List String), input_stream.good = true ∧
      nextContent self.ignore_empty_lines input_stream.lines = some (l, rest) ∧
      self.readChecked input_stream next =
        next l (self.advance ((input_stream.lines.length - rest.length : Nat) : Int))
          ⟨rest, true⟩) := by
  cases hg : input_stream.good
  · exact Or.inl ⟨_, 1, input_stream, rfl, readChecked_failed self input_stream next hg⟩
  · cases hn : nextContent self.ignore_empty_lines input_stream.lines with
    | none =>
      obtain ⟨e, n, is1, hk, he⟩ := readChecked_none self input_stream hg hn
      exact Or.inl ⟨e, n, is1, hk, he next⟩
    | some p =>
      obtain ⟨l, rest⟩ := p
      exact Or.inr ⟨l, rest, rfl, rfl, readChecked_some self input_stream next l rest hg hn⟩

theorem frame_readChecked (self : IESParser) (input_stream : IStream)
    (next : String → IESParser → IStream → ParseResult)
    (hnext : ∀ (l : String) (s : IESParser) (is : IStream) (r : Outcome) (s1 : IESParser)
      (is1 : IStream), next l s is = some (r, s1, is1) → Frame s s1)
    (r : Outcome) (s1 : IESParser) (is1 : IStream)
    (h : self.readChecked input_stream next = some (r, s1, is1)) : Frame self s1 := by
  rcases readChecked_cases self input_stream next with ⟨e, n, is2, _, he⟩ | ⟨l, rest, _, _, he⟩
  · rw [he] at h
    simp only [Option.some.injEq, Prod.mk.injEq] at h
    rw [← h.2.1]
    exact frame_advance self n
  · rw [he] at h
    exact Frame.trans (frame_advance self _) (hnext _ _ _ _ _ _ h)

theorem frame_ParseLoop (n : Nat) :
    ∀ (self : IESParser) (input_stream : IStream) (line : String) (r : Outcome)
      (s1 : IESParser) (is1 : IStream),
      ParseLoop n self input_stream line = some (r, s1, is1) → Frame self s1 := by
  induction n with
  | zero => intro self input_stream line r s1 is1 h; simp [ParseLoop] at h
  | succ n ih =>
    intro self input_stream line r s1 is1 h
    have hloop : ∀ s : IESParser, Frame self s →
        s.readChecked input_stream (fun line1 s2 is2 => ParseLoop n s2 is2 line1) =
          some (r, s1, is1) → Frame self s1 := by
      intro s hs hr
      exact Frame.trans hs (frame_readChecked s input_stream _
        (fun l s2 is2 r2 s3 is3 h2 => ih s2 is2 l r2 s3 is3 h2) r s1 is1 hr)
    unfold ParseLoop at h
    split at h
    · have hf := frame_ParseKeywordLine self line
      split at h
      · rename_i e s2 heq
        rw [heq] at hf
        simp only [Option.some.injEq, Prod.mk.injEq] at h
        rw [← h.2.1]; exact hf
      · rename_i u s2 heq
        rw [heq] at hf
        exact hloop s2 hf h
    · split at h
      · have hf := frame_ParseTiltLine self line
        split at h
        · rename_i e s2 heq
          rw [heq] at hf
          simp only [Option.some.injEq, Prod.mk.injEq] at h
          rw [← h.2.1]; exact hf
        · rename_i u s2 heq
          rw [heq] at hf
          refine Frame.trans hf (frame_readChecked s2 input_stream _ ?_ r s1 is1 h)
          intro l s is r2 s3 is3 h2
          simp only [Option.some.injEq, Prod.mk.injEq] at h2
          rw [← h2.2.1]
          exact Frame.refl s
      · split at h
        · simp only [Option.some.injEq, Prod.mk.injEq] at h
          rw [← h.2.1]
          exact Frame.refl self
        · exact hloop self (Frame.refl self) h

/-! ## The version line -/

theorem nextContent_blanks (ignore : Bool) (blanks : List String) (raw : String)
    (rest : List String) (hb : ∀ b ∈ blanks, trim_copy b = "") (hraw : trim_copy raw ≠ "")
    (hi : ignore = true ∨ blanks = []) :
    nextContent ignore (blanks ++ raw :: rest) = some (trim_copy raw, rest) := by
  induction blanks with
  | nil => simp [nextContent, hraw]
  | cons b bs ih =>
    have hign : ignore = true := by
      rcases hi with h | h
      · exact h
      · simp at h
    have hb1 : trim_copy b = "" := hb b (by simp)
    have hbs : ∀ b ∈ bs, trim_copy b = "" := fun x hx => hb x (by simp [hx])
    simp only [List.cons_append, nextContent, hb1, beq_self_eq_true, if_true, hign]
    rw [← hign]
    exact ih hbs (Or.inl hign)

theorem ParseFormatVersion_eq (self : IESParser) (L : String) :
    self.ParseFormatVersion L =
      { self with format :=
        (if L = "IESNA91" then Format.LM631991
          else if L = "IESNA:LM-63-1995" then Format.LM631995
          else if L = "IESNA:LM-63-2002" then Format.LM632002
          else Format.UNKNOWN) } := by
  unfold ParseFormatVersion
  by_cases h1 : L = "IESNA91"
  · simp [h1]
  · by_cases h2 : L = "IESNA:LM-63-1995"
    · simp [h2]
    · by_cases h3 : L = "IESNA:LM-63-2002"
      · simp [h3]
      · simp [h1, h2, h3]

theorem Parse_after_version_line (self : IESParser) (blanks : List String) (raw : String)
    (rest : List String) (hb : ∀ b ∈ blanks, trim_copy b = "") (hraw : trim_copy raw ≠ "")
    (hi : self.ignore_empty_lines = true ∨ blanks = []) :
    ((trim_copy raw = "IESNA91" ∨ trim_copy raw = "IESNA:LM-63-1995" ∨
        trim_copy raw = "IESNA:LM-63-2002") →
      self.Parse (IStream.ofLines (blanks ++ raw :: rest)) =
        ({ ({ self with last_added_keyword := none } : IESParser).advance
            ((blanks.length + 1 : Nat) : Int) with
          format := formatOfVersionLine (trim_copy raw) } : IESParser).readChecked
          ⟨rest, true⟩ (fun line2 s3 is3 => ParseLoop (is3.lines.length + 1) s3 is3 line2)) ∧
    (¬ (trim_copy raw = "IESNA91" ∨ trim_copy raw = "IESNA:LM-63-1995" ∨
        trim_copy raw = "IESNA:LM-63-2002") →
      self.Parse (IStream.ofLines (blanks ++ raw :: rest)) =
        ParseLoop (rest.length + 1)
          ({ ({ self with last_added_keyword := none } : IESParser).advance
              ((blanks.length + 1 : Nat) : Int) with
            format := Format.LM631986 } : IESParser)
          ⟨rest, true⟩ (trim_copy raw)) := by
  have hn : nextContent ({ self with last_added_keyword := none } : IESParser).ignore_empty_lines
      (IStream.ofLines (blanks ++ raw :: rest)).lines = some (trim_copy raw, rest) :=
    nextContent_blanks _ blanks raw rest hb hraw hi
  have hlen : (IStream.ofLines (blanks ++ raw :: rest)).lines.length - rest.length =
      blanks.length + 1 := by
    simp [IStream.ofLines]
    omega
  have hP : ∀ next : String → IESParser → IStream → ParseResult,
      ({ self with last_added_keyword := none } : IESParser).readChecked
        (IStream.ofLines (blanks ++ raw :: rest)) next =
      next (trim_copy raw)
        (({ self with last_added_keyword := none } : IESParser).advance
          ((blanks.length + 1 : Nat) : Int)) ⟨rest, true⟩ := by
    intro next
    rw [readChecked_some _ _ next _ _ rfl hn, hlen]
  unfold Parse
  simp only
  rw [hP]
  simp only [ParseFormatVersion_eq]
  constructor
  · rintro (h | h | h) <;> rw [h] <;> simp [formatOfVersionLine, advance]
  · intro h
    simp only [not_or] at h
    obtain ⟨h1, h2, h3⟩ := h
    simp [h1, h2, h3, advance]

theorem ParseLoop_result (self : IESParser) (input_stream : IStream) (line : String)
    (n : Nat) (hn : input_stream.lines.length < n) :
    ∃ (r : Outcome) (s1 : IESParser) (is1 : IStream),
      ParseLoop n self input_stream line = some (r, s1, is1) ∧ Frame self s1 := by
  have h := ParseLoop_isSome n self input_stream line hn
  cases hp : ParseLoop n self input_stream line with
  | none => rw [hp] at h; simp at h
  | some res =>
    obtain ⟨r, s1, is1⟩ := res
    exact ⟨r, s1, is1, rfl, frame_ParseLoop n self input_stream line r s1 is1 hp⟩

/-- C7, amended: let the input consist of blank lines, a line whose trimmed text
`L` is not empty, and further lines, where the blank lines are skipped
(`ignore_empty_lines` enabled) or absent. If `L` is exactly `IESNA91`,
`IESNA:LM-63-1995` or `IESNA:LM-63-2002`, `Parse` sets the format to 1991, 1995
or 2002 and goes on by reading the next line, which becomes the first line of
the loop; for every other `L` it sets the format to 1986 and enters the loop
with `L` itself as the current line. In both cases the object `Parse` leaves
has that format. -/
theorem Parse_version_line (self : IESParser) (blanks : List String) (raw : String)
    (rest : List String) (hb : ∀ b ∈ blanks, trim_copy b = "") (hraw : trim_copy raw ≠ "")
    (hi : self.ignore_empty_lines = true ∨ blanks = []) :
    ((trim_copy raw = "IESNA91" ∨ trim_copy raw = "IESNA:LM-63-1995" ∨
        trim_copy raw = "IESNA:LM-63-2002") →
      self.Parse (IStream.ofLines (blanks ++ raw :: rest)) =
        ({ ({ self with last_added_keyword := none } : IESParser).advance
            ((blanks.length + 1 : Nat) : Int) with
          format := formatOfVersionLine (trim_copy raw) } : IESParser).readChecked
          ⟨rest, true⟩ (fun line2 s3 is3 => ParseLoop (is3.lines.length + 1) s3 is3 line2)) ∧
    (¬ (trim_copy raw = "IESNA91" ∨ trim_copy raw = "IESNA:LM-63-1995" ∨
        trim_copy raw = "IESNA:LM-63-2002") →
      self.Parse (IStream.ofLines (blanks ++ raw :: rest)) =
        ParseLoop (rest.length + 1)
          ({ ({ self with last_added_keyword := none } : IESParser).advance
              ((blanks.length + 1 : Nat) : Int) with
            format := Format.LM631986 } : IESParser)
          ⟨rest, true⟩ (trim_copy raw)) ∧
    (∃ (r : Outcome) (s1 : IESParser) (is1 : IStream),
      self.Parse (IStream.ofLines (blanks ++ raw :: rest)) = some (r, s1, is1) ∧
      s1.format = formatOfVersionLine (trim_copy raw)) := by
  have h := Parse_after_version_line self blanks raw rest hb hraw hi
  refine ⟨h.1, h.2, ?_⟩
  by_cases hk : trim_copy raw = "IESNA91" ∨ trim_copy raw = "IESNA:LM-63-1995" ∨
      trim_copy raw = "IESNA:LM-63-2002"
  · rw [h.1 hk]
    rcases readChecked_cases _ ⟨rest, true⟩
        (fun line2 s3 is3 => ParseLoop (is3.lines.length + 1) s3 is3 line2) with
      ⟨e, n, is2, _, he⟩ | ⟨l, rest2, _, _, he⟩
    · exact ⟨_, _, _, he, rfl⟩
    · rw [he]
      obtain ⟨r, s1, is1, hp, hf⟩ := ParseLoop_result _ ⟨rest2, true⟩ l (rest2.length + 1)
        (Nat.lt_succ_self _)
      refine ⟨r, s1, is1, hp, ?_⟩
      rw [hf.format_eq]
      rfl
  · rw [h.2 hk]
    obtain ⟨r, s1, is1, hp, hf⟩ := ParseLoop_result _ ⟨rest, true⟩ (trim_copy raw)
      (rest.length + 1) (Nat.lt_succ_self _)
    refine ⟨r, s1, is1, hp, ?_⟩
    rw [hf.format_eq]
    simp only [not_or] at hk
    simp [formatOfVersionLine, hk.1, hk.2.1, hk.2.2]

theorem Parse_version_line_witness :
    (∀ b ∈ ["", " \t"], trim_copy b = "") ∧ trim_copy "  hello " ≠ "" ∧
    (newParser.ignore_empty_lines = true ∨ ["", " \t"] = ([] : List String)) ∧
    ∃ (r : Outcome) (s1 : IESParser) (is1 : IStream),
      newParser.Parse (IStream.ofLines (["", " \t"] ++ "  hello " :: ["TILT=NONE", "1"])) =
        some (r, s1, is1) ∧
      s1.format = Format.LM631986 :=
  ⟨by decide, by decide, Or.inl rfl,
    (Parse_version_line newParser ["", " \t"] "  hello " ["TILT=NONE", "1"] (by decide)
      (by decide) (Or.inl rfl)).2.2⟩

/-- C7, counterexample: with `ignore_empty_lines` disabled and a blank first
line, the first non-blank trimmed line is `IESNA91`, but `Parse` throws a
`ParsingException` at the blank line and leaves the format as it was (here
`UNKNOWN`), not 1991. -/
theorem Parse_blank_first_line_fails :
    (({ newParser with ignore_empty_lines := false } : IESParser).Parse
        (IStream.ofLines ["", "IESNA91", "TILT=NONE", "1"])).map
        (fun r => (r.1, r.2.1.format)) =
      some (.error ⟨FailureKind.ParsingException, "Empty line is not expected", 1⟩,
        Format.UNKNOWN) := by
  decide

/-! ## Blocks and the end of `Parse` -/

theorem ProcessBlockKeywordsSeq_append (keys1 keys2 : List String) :
    ∀ self : IESParser,
      self.ProcessBlockKeywordsSeq (keys1 ++ keys2) =
        match self.ProcessBlockKeywordsSeq keys1 with
        | (.error e, s1) => (.error e, s1)
        | (.ok _, s1) => s1.ProcessBlockKeywordsSeq keys2 := by
  induction keys1 with
  | nil => intro self; simp [ProcessBlockKeywordsSeq]
  | cons k ks ih =>
    intro self
    simp only [List.cons_append, ProcessBlockKeywordsSeq]
    cases hp : self.ProcessBlockKeywords k with
    | mk r s1 =>
      cases r with
      | error e => rfl
      | ok u => exact ih s1

/-- The outcome of `ProcessBlockKeywords` and the `inside_block` it leaves depend
on the object only through `ignore_blocks` and `inside_block`. -/
theorem ProcessBlockKeywords_congr (a b : IESParser) (key : String)
    (h1 : a.ignore_blocks = b.ignore_blocks) (h2 : a.inside_block = b.inside_block)
    (a1 : IESParser) (ha : a.ProcessBlockKeywords key = (.ok (), a1)) :
    ∃ b1 : IESParser, b.ProcessBlockKeywords key = (.ok (), b1) ∧
      b1.inside_block = a1.inside_block ∧ b1.ignore_blocks = a1.ignore_blocks ∧
      a1.ignore_blocks = a.ignore_blocks := by
  unfold ProcessBlockKeywords at ha ⊢
  rw [← h1, ← h2]
  by_cases hk1 : key = "BLOCK"
  · subst hk1
    cases hb : a.ignore_blocks <;> cases hi : a.inside_block <;>
      simp [hb, hi] at ha ⊢
    subst ha
    simp [h1.symm.trans hb]
  · by_cases hk2 : key = "ENDBLOCK"
    · subst hk2
      cases hb : a.ignore_blocks <;> cases hi : a.inside_block <;>
        simp [hb, hi] at ha ⊢
      subst ha
      simp [h1.symm.trans hb]
    · simp [hk1, hk2] at ha ⊢
      subst ha
      exact ⟨h2.symm, h1.symm, rfl⟩

theorem storeKeyword_ok (self : IESParser) (key value : String) (s1 : IESParser)
    (h : self.storeKeyword key value = (.ok (), s1)) :
    ∃ s2 : IESParser, self.ProcessBlockKeywords key = (.ok (), s2) ∧
      s1.inside_block = s2.inside_block ∧ s1.ignore_blocks = s2.ignore_blocks := by
  unfold storeKeyword at h
  split at h
  · simp at h
  · split at h
    · simp at h
    · rename_i u s2 heq
      refine ⟨s2, ?_, ?_⟩
      · rw [heq]
      · split at h
        · split at h
          · simp at h
          · simp only [Prod.mk.injEq, true_and] at h
            subst h
            exact ⟨rfl, rfl⟩
        · simp only [Prod.mk.injEq, true_and] at h
          subst h
          exact ⟨rfl, rfl⟩

theorem atLoop_blocks (self0 : IESParser) (is0 : IStream) (keys : List String)
    (s : IESParser) (is : IStream) (line : String)
    (h : AtLoop self0 is0 keys s is line) :
    ∃ t : IESParser, self0.ProcessBlockKeywordsSeq keys = (.ok (), t) ∧
      t.inside_block = s.inside_block ∧ t.ignore_blocks = s.ignore_blocks ∧
      s.ignore_blocks = self0.ignore_blocks := by
  induction h with
  | header hr hc hf hr2 hc2 =>
    have e1 := (ReadTrimmedLine_checked _ _ _ _ _ hr hc).2.2.2
    have e2 := (ReadTrimmedLine_checked _ _ _ _ _ hr2 hc2).2.2.2
    refine ⟨self0, rfl, ?_, ?_, ?_⟩ <;>
      · rw [e2, ParseFormatVersion_eq, e1]; rfl
  | noHeader hr hc hf =>
    have e1 := (ReadTrimmedLine_checked _ _ _ _ _ hr hc).2.2.2
    refine ⟨self0, rfl, ?_, ?_, ?_⟩ <;>
      · rw [ParseFormatVersion_eq, e1]; rfl
  | keyword hat hk hs hp hr hc ih =>
    rename_i keys1 s0 is1 line0 what s1 line1 s2 is2
    obtain ⟨t, ht, hti, htb, hsb⟩ := ih
    have e2 := (ReadTrimmedLine_checked _ _ _ _ _ hr hc).2.2.2
    rw [ParseKeywordLine_eq_storeKeyword s0 line0 what hs] at hp
    obtain ⟨s3, hp3, hi3, hb3⟩ := storeKeyword_ok _ _ _ _ hp
    obtain ⟨t1, ht1, hti1, htb1, hb0⟩ :=
      ProcessBlockKeywords_congr s0 t (sub_match what 1) htb.symm hti.symm s3 hp3
    refine ⟨t1, ?_, ?_, ?_, ?_⟩
    · rw [ProcessBlockKeywordsSeq_append, ht]
      simp [ProcessBlockKeywordsSeq, ht1]
    · rw [e2, hti1, ← hi3]; rfl
    · rw [e2, htb1, ← hb3]; rfl
    · rw [e2]
      show s1.ignore_blocks = self0.ignore_blocks
      rw [hb3, hb0, hsb]
  | other hat hk ht hf hr hc ih =>
    obtain ⟨t, ht, hti, htb, hsb⟩ := ih
    have e2 := (ReadTrimmedLine_checked _ _ _ _ _ hr hc).2.2.2
    refine ⟨t, ht, ?_, ?_, ?_⟩
    · rw [e2]; exact hti
    · rw [e2]; exact htb
    · rw [e2]; exact hsb

theorem readChecked_ok_inv (self : IESParser) (input_stream : IStream)
    (next : String → IESParser → IStream → ParseResult) (s1 : IESParser) (is1 : IStream)
    (h : self.readChecked input_stream next = some (.ok (), s1, is1)) :
    ∃ (l : String) (s2 : IESParser) (is2 : IStream),
      self.ReadTrimmedLine input_stream = some (l, s2, is2) ∧
      s2.CheckEmpty is2 l = .ok () ∧ next l s2 is2 = some (.ok (), s1, is1) := by
  unfold readChecked at h
  split at h
  · simp at h
  · rename_i l s2 is2 hr
    split at h
    · simp at h
    · rename_i u hc
      exact ⟨l, s2, is2, hr, hc, h⟩

/-- A loop that returns normally went through a TILT line: the last iteration
handled it and read one more line. -/
theorem ParseLoop_ok_reaches_tilt (self0 : IESParser) (is0 : IStream) (s1 : IESParser)
    (is1 : IStream) (n : Nat) :
    ∀ (keys : List String) (s : IESParser) (is : IStream) (line : String),
      AtLoop self0 is0 keys s is line →
      ParseLoop n s is line = some (.ok (), s1, is1) →
      ∃ (keys1 : List String) (s2 : IESParser) (is2 : IStream) (line2 : String)
        (t : IESParser) (l : String),
        AtLoop self0 is0 keys1 s2 is2 line2 ∧ s2.IsKeywordLine line2 = false ∧
        s2.IsTiltLine line2 = true ∧ s2.ParseTiltLine line2 = (.ok (), t) ∧
        t.ReadTrimmedLine is2 = some (l, s1, is1) ∧ s1.CheckEmpty is1 l = .ok () := by
  induction n with
  | zero => intro keys s is line _ h; simp [ParseLoop] at h
  | succ n ih =>
    intro keys s is line hat h
    unfold ParseLoop at h
    by_cases hk : s.IsKeywordLine line = true
    · simp only [hk, if_true] at h
      cases hs : regex_search line s.KEYWORD_LINE_REGEX with
      | none =>
        simp [ParseKeywordLine, hs] at h
      | some what =>
        split at h
        · simp at h
        · rename_i u s3 hp
          obtain ⟨l, s4, is4, hr, hc, hn⟩ := readChecked_ok_inv _ _ _ _ _ h
          exact ih _ s4 is4 l (AtLoop.keyword hat hk hs hp hr hc) hn
    · have hk2 : s.IsKeywordLine line = false := by simpa using hk
      simp only [hk2, Bool.false_eq_true, if_false] at h
      by_cases ht : s.IsTiltLine line = true
      · simp only [ht, if_true] at h
        split at h
        · simp at h
        · rename_i u t hp
          obtain ⟨l, s4, is4, hr, hc, hn⟩ := readChecked_ok_inv _ _ _ _ _ h
          simp only [Option.some.injEq, Prod.mk.injEq, true_and] at hn
          obtain ⟨h1, h2⟩ := hn
          subst h1 h2
          exact ⟨keys, s, is, line, t, l, hat, hk2, ht, hp, hr, hc⟩
      · have ht2 : s.IsTiltLine line = false := by simpa using ht
        simp only [ht2, Bool.false_eq_true, if_false] at h
        split at h
        · simp at h
        · rename_i hf
          have hf2 : s.format = Format.LM631986 := by simpa using hf
          obtain ⟨l, s4, is4, hr, hc, hn⟩ := readChecked_ok_inv _ _ _ _ _ h
          exact ih _ s4 is4 l (AtLoop.other hat hk2 ht2 hf2 hr hc) hn

theorem Parse_ok_reaches_tilt (self0 : IESParser) (is0 : IStream) (s1 : IESParser)
    (is1 : IStream) (h : self0.Parse is0 = some (.ok (), s1, is1)) :
    ∃ (keys1 : List String) (s2 : IESParser) (is2 : IStream) (line2 : String)
      (t : IESParser) (l : String),
      AtLoop self0 is0 keys1 s2 is2 line2 ∧ s2.IsKeywordLine line2 = false ∧
      s2.IsTiltLine line2 = true ∧ s2.ParseTiltLine line2 = (.ok (), t) ∧
      t.ReadTrimmedLine is2 = some (l, s1, is1) ∧ s1.CheckEmpty is1 l = .ok () := by
  unfold Parse at h
  simp only at h
  obtain ⟨l, s2, is2, hr, hc, hn⟩ := readChecked_ok_inv _ _ _ _ _ h
  by_cases hf : (s2.ParseFormatVersion l).format = Format.UNKNOWN
  · simp only [hf, bne_self_eq_false, Bool.false_eq_true, if_false] at hn
    exact ParseLoop_ok_reaches_tilt self0 is0 s1 is1 _ _ _ _ _
      (AtLoop.noHeader hr hc hf) hn
  · have hf2 : ((s2.ParseFormatVersion l).format != Format.UNKNOWN) = true := by
      simpa using hf
    simp only [hf2, if_true] at hn
    obtain ⟨l3, s3, is3, hr3, hc3, hn3⟩ := readChecked_ok_inv _ _ _ _ _ hn
    exact ParseLoop_ok_reaches_tilt self0 is0 s1 is1 _ _ _ _ _
      (AtLoop.header hr hc hf hr3 hc3) hn3

theorem ParseTiltLine_ok (self : IESParser) (line : String) (t : IESParser)
    (h : self.ParseTiltLine line = (.ok (), t)) :
    t = { self with tilt_specification := t.tilt_specification } ∧
    (t.tilt_specification = TiltSpecification.INCLUDE ∨
      t.tilt_specification = TiltSpecification.NONE) := by
  unfold ParseTiltLine at h
  split at h
  · simp at h
  · simp only at h
    split at h
    · simp only [Prod.mk.injEq, true_and] at h
      subst h
      exact ⟨rfl, Or.inl rfl⟩
    · split at h
      · simp only [Prod.mk.injEq, true_and] at h
        subst h
        exact ⟨rfl, Or.inr rfl⟩
      · simp at h

/-- C10, amended: with `ignore_blocks` enabled and `inside_block` false at the
start, whenever `Parse` returns normally the `BLOCK` and `ENDBLOCK` keys of the
keyword lines it handled before the TILT line strictly alternate beginning with
`BLOCK`, and `inside_block` at the end is true exactly when the last of them is
`BLOCK`: a block still open at the TILT line does not make `Parse` fail. -/
theorem Parse_success_blocks (self0 : IESParser) (is0 : IStream) (s1 : IESParser)
    (is1 : IStream) (hb : self0.ignore_blocks = true) (hin : self0.inside_block = false)
    (hp : self0.Parse is0 = some (.ok (), s1, is1)) :
    ∃ (keys : List String) (s : IESParser) (is : IStream) (line : String),
      AtLoop self0 is0 keys s is line ∧ s.IsKeywordLine line = false ∧
      s.IsTiltLine line = true ∧
      StrictlyAlternate (blockMarkers keys) ∧
      (s1.inside_block = true ↔ (blockMarkers keys).getLast? = some "BLOCK") := by
  obtain ⟨keys, s, is, line, t, l, hat, hk, ht, htl, hr, hc⟩ :=
    Parse_ok_reaches_tilt self0 is0 s1 is1 hp
  obtain ⟨u, hu, hui, _, _⟩ := atLoop_blocks self0 is0 keys s is line hat
  have hspec := ProcessBlockKeywordsSeq_spec keys self0 hb
  rw [hu, hin] at hspec
  have hsucc : Outcome.succeeded (Except.ok ()) = true := rfl
  have e1 := (ReadTrimmedLine_checked _ _ _ _ _ hr hc).2.2.2
  have e2 := (ParseTiltLine_ok s line t htl).1
  have hfin : s1.inside_block = s.inside_block := by
    rw [e1]
    show t.inside_block = s.inside_block
    rw [e2]
  refine ⟨keys, s, is, line, hat, hk, ht, ?_, ?_⟩
  · rw [strictlyAlternate_iff]
    exact hspec.1.1 hsucc
  · have h2 := hspec.2.1 hsucc
    simp only at h2
    rw [hfin, ← hui, h2]
    unfold insideAfter
    cases (blockMarkers keys).getLast? with
    | none => simp
    | some m => simp

theorem Parse_success_blocks_witness :
    ({ newParser with ignore_blocks := true } : IESParser).ignore_blocks = true ∧
    ({ newParser with ignore_blocks := true } : IESParser).inside_block = false ∧
    ({ newParser with ignore_blocks := true } : IESParser).Parse
        (IStream.ofLines ["IESNA:LM-63-1995", "BLOCKsw", "ENDBLOCKsw", "TILT=NONE", "1"]) =
      some (.ok (),
        { newParser with
          ignore_blocks := true
          format := Format.LM631995
          tilt_specification := TiltSpecification.NONE
          keywords_dictionary := [("BLOCK", "w"), ("ENDBLOCK", "w")]
          line_counter := 5 },
        ⟨[], true⟩) ∧
    ∃ (keys : List String) (s : IESParser) (is : IStream) (line : String),
      AtLoop ({ newParser with ignore_blocks := true } : IESParser)
        (IStream.ofLines ["IESNA:LM-63-1995", "BLOCKsw", "ENDBLOCKsw", "TILT=NONE", "1"])
        keys s is line ∧
      s.IsKeywordLine line = false ∧ s.IsTiltLine line = true ∧
      StrictlyAlternate (blockMarkers keys) ∧
      ((false : Bool) = true ↔ (blockMarkers keys).getLast? = some "BLOCK") :=
  ⟨rfl, rfl, by decide,
    Parse_success_blocks ({ newParser with ignore_blocks := true })
      (IStream.ofLines ["IESNA:LM-63-1995", "BLOCKsw", "ENDBLOCKsw", "TILT=NONE", "1"])
      { newParser with
        ignore_blocks := true
        format := Format.LM631995
        tilt_specification := TiltSpecification.NONE
        keywords_dictionary := [("BLOCK", "w"), ("ENDBLOCK", "w")]
        line_counter := 5 }
      ⟨[], true⟩ rfl rfl (by decide)⟩

/-- C10, counterexample: with `ignore_blocks` enabled and `inside_block` false at
the start, a `BLOCK` keyword line that no `ENDBLOCK` follows before the TILT
line does not make `Parse` fail: it returns normally with `inside_block = true`
(for the patterns as compiled and as written). -/
theorem Parse_unclosed_block_succeeds :
    ((({ newParser with ignore_blocks := true } : IESParser).Parse
        (IStream.ofLines ["IESNA:LM-63-1995", "BLOCKsw", "TILT=NONE", "1"])).map
        (fun r => (r.1, r.2.1.inside_block)) = some (.ok (), true)) ∧
    ((({ newParserEscaped with ignore_blocks := true } : IESParser).Parse
        (IStream.ofLines ["IESNA:LM-63-1995", "BLOCK [x]", "TILT=NONE", "1"])).map
        (fun r => (r.1, r.2.1.inside_block)) = some (.ok (), true)) := by
  decide

/-! ## What the keyword pattern captures -/

theorem pushAll_closed (a : List Char) :
    ∀ closed : List String, a.foldl Captures.push ⟨closed, none⟩ = ⟨closed, none⟩ := by
  induction a with
  | nil => intro closed; rfl
  | cons x xs ih => intro closed; simpa [Captures.push] using ih closed

theorem pushAll_opened (a : List Char) :
    ∀ (closed : List String) (acc : List Char),
      a.foldl Captures.push ⟨closed, some acc⟩ = ⟨closed, some (a.reverse ++ acc)⟩ := by
  induction a with
  | nil => intro closed acc; rfl
  | cons x xs ih =>
    intro closed acc
    simp only [List.foldl_cons, Captures.push, Option.map_some', ih, List.reverse_cons,
      List.append_assoc, List.singleton_append]

/-- Every result of a repetition consumed some characters that pass the test and
is a result of what follows on the rest. -/
theorem mem_starAll (c : CharClass)
    (next : List Char → Captures → List (List Char × Captures)) (m : List Char × Captures)
    (s : List Char) :
    ∀ caps : Captures, m ∈ starAll c next s caps →
      ∃ a b : List Char, s = a ++ b ∧ (∀ x ∈ a, c.test x = true) ∧
        m ∈ next b (a.foldl Captures.push caps) := by
  induction s with
  | nil =>
    intro caps h
    exact ⟨[], [], rfl, by simp, by simpa [starAll] using h⟩
  | cons x xs ih =>
    intro caps h
    unfold starAll at h
    rcases List.mem_append.1 h with h1 | h2
    · by_cases hx : c.test x = true
      · simp only [hx, if_true] at h1
        obtain ⟨a, b, hs, ha, hm⟩ := ih _ h1
        refine ⟨x :: a, b, by simp [hs], ?_, by simpa using hm⟩
        intro y hy
        rcases List.mem_cons.1 hy with rfl | hy
        · exact hx
        · exact ha y hy
      · simp [hx] at h1
    · exact ⟨[], x :: xs, rfl, by simp, by simpa using h2⟩

/-- Every match of the keyword pattern as compiled splits the input into a key,
a separator of characters of the set `[:space:]`, a tag that is one of the
characters `w` and `*`, and a rest; the groups are the key and the tag. -/
theorem mem_runAll_keyword (m : List Char × Captures) (s : List Char)
    (h : m ∈ runAll KEYWORD_LINE_REGEX s Captures.start) :
    ∃ (key sep : List Char) (w : Char) (rest : List Char),
      s = key ++ sep ++ w :: rest ∧ sep ≠ [] ∧
      (∀ x ∈ sep, x ∈ [':', 's', 'p', 'a', 'c', 'e']) ∧ (w = 'w' ∨ w = '*') ∧
      m = (rest, ⟨[String.mk key, String.mk [w]], none⟩) := by
  simp only [KEYWORD_LINE_REGEX, runAll, Captures.start, Captures.enter] at h
  obtain ⟨key, b, hs, _, hm⟩ := mem_starAll _ _ _ _ _ h
  rw [pushAll_opened] at hm
  simp only [Captures.leave, List.append_nil, List.reverse_reverse, List.nil_append] at hm
  cases b with
  | nil => simp at hm
  | cons y ys =>
    simp only at hm
    by_cases hy : colonSpaceSet.test y = true
    · simp only [hy, if_true, Captures.push, Option.map_none'] at hm
      obtain ⟨a2, b2, hs2, ha2, hm2⟩ := mem_starAll _ _ _ _ _ hm
      rw [pushAll_closed] at hm2
      cases b2 with
      | nil => simp at hm2
      | cons w rest =>
        simp only at hm2
        by_cases hw : (CharClass.set ['w', '*']).test w = true
        · simp only [hw, if_true, Captures.push, Option.map_some', Captures.leave,
            List.mem_singleton, List.reverse_cons, List.reverse_nil, List.nil_append] at hm2
          refine ⟨key, y :: a2, w, rest, ?_, by simp, ?_, ?_, hm2⟩
          · rw [hs, hs2]; simp
          · intro x hx
            have hx2 : colonSpaceSet.test x = true := by
              rcases List.mem_cons.1 hx with rfl | hx
              · exact hy
              · exact ha2 x hx
            simpa [colonSpaceSet, CharClass.test] using hx2
          · simpa [CharClass.test] using hw
        · simp [hw] at hm2
    · simp [hy] at hm

/-- Every match of the keyword pattern as written splits the input into a key,
a separator of white space, a tag of word characters in brackets, and a rest;
the groups are the key and the tag with its brackets. -/
theorem mem_runAll_keyword_escaped (m : List Char × Captures) (s : List Char)
    (h : m ∈ runAll KEYWORD_LINE_REGEX_escaped s Captures.start) :
    ∃ (key sep tag rest : List Char),
      s = key ++ sep ++ ('[' :: tag ++ [']']) ++ rest ∧ sep ≠ [] ∧
      (∀ x ∈ sep, isspace x = true) ∧ (∀ x ∈ tag, CharClass.word.test x = true) ∧
      m = (rest, ⟨[String.mk key, String.mk ('[' :: tag ++ [']'])], none⟩) := by
  simp only [KEYWORD_LINE_REGEX_escaped, runAll, Captures.start, Captures.enter] at h
  obtain ⟨key, b, hs, _, hm⟩ := mem_starAll _ _ _ _ _ h
  rw [pushAll_opened] at hm
  simp only [Captures.leave, List.append_nil, List.reverse_reverse, List.nil_append] at hm
  cases b with
  | nil => simp at hm
  | cons y ys =>
    simp only at hm
    by_cases hy : CharClass.space.test y = true
    · simp only [hy, if_true, Captures.push, Option.map_none'] at hm
      obtain ⟨a2, b2, hs2, ha2, hm2⟩ := mem_starAll _ _ _ _ _ hm
      rw [pushAll_closed] at hm2
      cases b2 with
      | nil => simp at hm2
      | cons o b3 =>
        simp only at hm2
        by_cases ho : (CharClass.lit '[').test o = true
        · simp only [ho, if_true, Captures.push, Option.map_some'] at hm2
          obtain ⟨tag, b4, hs4, ha4, hm4⟩ := mem_starAll _ _ _ _ _ hm2
          rw [pushAll_opened] at hm4
          cases b4 with
          | nil => simp at hm4
          | cons cl rest =>
            simp only at hm4
            by_cases hcl : (CharClass.lit ']').test cl = true
            · simp only [hcl, if_true, Captures.push, Option.map_some', Captures.leave,
                List.mem_singleton] at hm4
              have ho2 : o = '[' := by simpa [CharClass.test] using ho
              have hcl2 : cl = ']' := by simpa [CharClass.test] using hcl
              subst ho2 hcl2
              refine ⟨key, y :: a2, tag, rest, ?_, by simp, ?_, ha4, ?_⟩
              · rw [hs, hs2, hs4]; simp
              · intro x hx
                rcases List.mem_cons.1 hx with rfl | hx
                · simpa [CharClass.test] using hy
                · simpa [CharClass.test] using ha2 x hx
              · rw [hm4]; simp
            · simp [hcl] at hm4
        · simp [ho] at hm2
    · simp [hy] at hm

theorem find_assign (d : KeywordsDictionary) (key value : String) :
    (d.assign key value).find key = some value := by
  induction d with
  | nil => simp [KeywordsDictionary.assign, KeywordsDictionary.find]
  | cons p rest ih =>
    obtain ⟨k, v⟩ := p
    unfold KeywordsDictionary.assign
    by_cases h : k = key
    · simp [h, KeywordsDictionary.find]
    · simp [h, KeywordsDictionary.find, ih]

theorem storeKeyword_validates (self : IESParser) (key value : String)
    (hi : self.ignore_allowed_keywords = false)
    (h : (self.storeKeyword key value).1.succeeded = true) :
    self.AcceptKeyword key = .ok () := by
  cases ha : self.AcceptKeyword key with
  | ok u => rfl
  | error e =>
    rw [storeKeyword_of_reject self key value e hi ha] at h
    simp [Outcome.succeeded] at h

theorem storeKeyword_stores (self : IESParser) (key value : String)
    (h : (self.storeKeyword key value).1.succeeded = true) (hm : key ≠ "MORE") :
    (self.storeKeyword key value).2.keywords_dictionary.find key = some value := by
  unfold storeKeyword at h ⊢
  split
  · rename_i e heq
    rw [heq] at h
    simp [Outcome.succeeded] at h
  · rename_i u heq
    rw [heq] at h
    simp only at h ⊢
    split
    · rename_i e s1 heq2
      rw [heq2] at h
      simp [Outcome.succeeded] at h
    · simp only [beq_iff_eq, hm, if_false]
      exact find_assign _ _ _

/-! ## The first match on a keyword line -/

theorem starAll_any_cons (next : List Char → Captures → List (List Char × Captures))
    (x : Char) (xs : List Char) (caps : Captures) :
    starAll CharClass.any next (x :: xs) caps =
      starAll CharClass.any next xs (caps.push x) ++ next (x :: xs) caps := by
  simp [starAll, CharClass.test]

/-- On an input that ends with a character of the set `[:space:]` and one of `w`
and `*`, the first match of the keyword pattern as compiled takes everything
before these two characters as its key. -/
theorem head_runAll_keyword_tail (pre : List Char) (c1 c2 : Char)
    (h1 : colonSpaceSet.test c1 = true) (h2 : (CharClass.set ['w', '*']).test c2 = true) :
    ∀ (closed : List String) (acc : List Char),
      (starAll CharClass.any
        (fun s1 caps1 => runAll [.groupClose, .plus colonSpaceSet, .groupOpen,
          .one (.set ['w', '*']), .groupClose] s1 caps1)
        (pre ++ [c1, c2]) ⟨closed, some acc⟩).head? =
      some ([], ⟨closed ++ [String.mk (acc.reverse ++ pre), String.mk [c2]], none⟩) := by
  have h3 : colonSpaceSet.test c2 = false := by
    have : c2 = 'w' ∨ c2 = '*' := by simpa [CharClass.test] using h2
    rcases this with rfl | rfl <;> decide
  induction pre with
  | nil =>
    intro closed acc
    simp [starAll_any_cons, starAll, runAll, h1, h2, h3, Captures.push, Captures.leave,
      Captures.enter]
  | cons p ps ih =>
    intro closed acc
    rw [List.cons_append, starAll_any_cons, List.head?_append]
    simp only [Captures.push, Option.map_some']
    rw [ih closed (p :: acc)]
    simp

theorem isspace_of_word (x : Char) (h : CharClass.word.test x = true) : isspace x = false := by
  cases hs : isspace x with
  | false => rfl
  | true =>
    exfalso
    simp only [isspace, Bool.or_eq_true, beq_iff_eq] at hs
    rcases hs with ((((rfl | rfl) | rfl) | rfl) | rfl) | rfl <;> revert h <;> decide

/-- The tag of the pattern as written: after `[`, the repetition of word
characters takes the whole tag and `]` closes the group. -/
theorem head_starAll_tag (tag : List Char) (hw : ∀ x ∈ tag, CharClass.word.test x = true) :
    ∀ (closed : List String) (acc : List Char),
      (starAll CharClass.word
        (fun s1 caps1 => runAll [.one (.lit ']'), .groupClose] s1 caps1)
        (tag ++ [']']) ⟨closed, some acc⟩).head? =
      some ([], ⟨closed ++ [String.mk (acc.reverse ++ tag ++ [']'])], none⟩) := by
  have hb : CharClass.word.test ']' = false := by decide
  induction tag with
  | nil =>
    intro closed acc
    simp [starAll, runAll, hb, CharClass.test, Captures.push, Captures.leave]
  | cons t ts ih =>
    intro closed acc
    have ht : CharClass.word.test t = true := hw t (by simp)
    have hts : ∀ x ∈ ts, CharClass.word.test x = true := fun x hx => hw x (by simp [hx])
    rw [List.cons_append, starAll, List.head?_append]
    simp only [ht, if_true, Captures.push, Option.map_some']
    rw [ih hts closed (t :: acc)]
    simp

/-- No match of the rest of the pattern as written starts inside a text without
white space. -/
theorem starAll_any_no_space (t : List Char) (ht : ∀ x ∈ t, isspace x = false) :
    ∀ caps : Captures,
      starAll CharClass.any
        (fun s1 caps1 => runAll [.groupClose, .plus .space, .groupOpen, .one (.lit '['),
          .star .word, .one (.lit ']'), .groupClose] s1 caps1) t caps = [] := by
  induction t with
  | nil => intro caps; simp [starAll, runAll]
  | cons x xs ih =>
    intro caps
    have hx : isspace x = false := ht x (by simp)
    have hxs : ∀ y ∈ xs, isspace y = false := fun y hy => ht y (by simp [hy])
    rw [starAll_any_cons, ih hxs]
    simp [runAll, CharClass.test, hx]

/-- On an input that ends with a white space character and a bracketed tag of
word characters, the first match of the keyword pattern as written takes
everything before that character as its key and the tag as its value. -/
theorem head_runAll_keyword_escaped_tail (pre : List Char) (c1 : Char) (tag : List Char)
    (h1 : isspace c1 = true) (hw : ∀ x ∈ tag, CharClass.word.test x = true) :
    ∀ (closed : List String) (acc : List Char),
      (starAll CharClass.any
        (fun s1 caps1 => runAll [.groupClose, .plus .space, .groupOpen, .one (.lit '['),
          .star .word, .one (.lit ']'), .groupClose] s1 caps1)
        (pre ++ c1 :: '[' :: (tag ++ [']'])) ⟨closed, some acc⟩).head? =
      some ([], ⟨closed ++ [String.mk (acc.reverse ++ pre),
        String.mk ('[' :: (tag ++ [']']))], none⟩) := by
  have hno : ∀ x ∈ '[' :: (tag ++ [']']), isspace x = false := by
    intro x hx
    rcases List.mem_cons.1 hx with rfl | hx
    · decide
    · rcases List.mem_append.1 hx with hx | hx
      · exact isspace_of_word x (hw x hx)
      · have : x = ']' := by simpa using hx
        subst this
        decide
  have hopen : isspace '[' = false := by decide
  induction pre with
  | nil =>
    intro closed acc
    rw [List.nil_append, starAll_any_cons, starAll_any_no_space _ hno, List.nil_append]
    have ht := head_starAll_tag tag hw (closed ++ [String.mk acc.reverse]) ['[']
    have hstep : runAll [.groupClose, .plus .space, .groupOpen, .one (.lit '['),
          .star .word, .one (.lit ']'), .groupClose] (c1 :: '[' :: (tag ++ [']']))
          ⟨closed, some acc⟩ =
        starAll CharClass.word
          (fun s1 caps1 => runAll [.one (.lit ']'), .groupClose] s1 caps1)
          (tag ++ [']']) ⟨closed ++ [String.mk acc.reverse], some ['[']⟩ := by
      simp [runAll, CharClass.test, h1, Captures.leave, Captures.push, starAll, hopen,
        Captures.enter]
    rw [hstep, ht]
    simp
  | cons p ps ih =>
    intro closed acc
    rw [List.cons_append, starAll_any_cons, List.head?_append]
    simp only [Captures.push, Option.map_some']
    rw [ih closed (p :: acc)]
    simp

theorem regex_match_full (line : String) (regex : Regex)
    (h : regex_match line regex = true) :
    ∃ m : List Char × Captures, m ∈ runAll regex line.data Captures.start ∧ m.1 = [] := by
  unfold regex_match at h
  obtain ⟨m, hm, he⟩ := List.any_eq_true.1 h
  exact ⟨m, hm, by simpa using he⟩

/-- The groups `regex_search` finds on a keyword line of the pattern as compiled:
the line without its last two characters, and its last character. -/
theorem regex_search_keyword (line : String)
    (h : regex_match line KEYWORD_LINE_REGEX = true) :
    ∃ (pre : List Char) (c1 c2 : Char),
      line.data = pre ++ [c1, c2] ∧ c1 ∈ [':', 's', 'p', 'a', 'c', 'e'] ∧
      (c2 = 'w' ∨ c2 = '*') ∧
      regex_search line KEYWORD_LINE_REGEX = some [String.mk pre, String.mk [c2]] := by
  obtain ⟨m, hm, hrest⟩ := regex_match_full line _ h
  obtain ⟨key, sep, w, rest, hl, hsep, hset, hw, hmeq⟩ := mem_runAll_keyword m line.data hm
  have hr : rest = [] := by rw [hmeq] at hrest; exact hrest
  subst hr
  have hsplit : sep = sep.dropLast ++ [sep.getLast hsep] :=
    (List.dropLast_append_getLast hsep).symm
  have hc1 : sep.getLast hsep ∈ [':', 's', 'p', 'a', 'c', 'e'] :=
    hset _ (List.getLast_mem hsep)
  have hdata : line.data = (key ++ sep.dropLast) ++ [sep.getLast hsep, w] := by
    rw [hl]
    conv => lhs; rw [hsplit]
    simp
  refine ⟨key ++ sep.dropLast, sep.getLast hsep, w, hdata, hc1, hw, ?_⟩
  have h1 : colonSpaceSet.test (sep.getLast hsep) = true := by
    simpa [colonSpaceSet, CharClass.test] using hc1
  have h2 : (CharClass.set ['w', '*']).test w = true := by
    simpa [CharClass.test] using hw
  have hhead := head_runAll_keyword_tail (key ++ sep.dropLast) (sep.getLast hsep) w h1 h2
    [] []
  have hrun : (runAll KEYWORD_LINE_REGEX line.data Captures.start).head? =
      some ([], ⟨[String.mk (key ++ sep.dropLast), String.mk [w]], none⟩) := by
    rw [hdata]
    simpa [KEYWORD_LINE_REGEX, runAll, Captures.start, Captures.enter] using hhead
  unfold regex_search
  cases hd : line.data with
  | nil => rw [hd] at hdata; simp at hdata
  | cons x xs =>
    rw [hd] at hrun
    simp [searchFrom, hrun]

/-- The groups `regex_search` finds on a keyword line of the pattern as written:
the line up to the last white space character before the tag, and the tag. -/
theorem regex_search_keyword_escaped (line : String)
    (h : regex_match line KEYWORD_LINE_REGEX_escaped = true) :
    ∃ (pre : List Char) (c1 : Char) (tag : List Char),
      line.data = pre ++ c1 :: '[' :: (tag ++ [']']) ∧ isspace c1 = true ∧
      (∀ x ∈ tag, CharClass.word.test x = true) ∧
      regex_search line KEYWORD_LINE_REGEX_escaped =
        some [String.mk pre, String.mk ('[' :: (tag ++ [']']))] := by
  obtain ⟨m, hm, hrest⟩ := regex_match_full line _ h
  obtain ⟨key, sep, tag, rest, hl, hsep, hspace, hword, hmeq⟩ :=
    mem_runAll_keyword_escaped m line.data hm
  have hr : rest = [] := by rw [hmeq] at hrest; exact hrest
  subst hr
  have hsplit : sep = sep.dropLast ++ [sep.getLast hsep] :=
    (List.dropLast_append_getLast hsep).symm
  have h1 : isspace (sep.getLast hsep) = true := hspace _ (List.getLast_mem hsep)
  have hdata : line.data =
      (key ++ sep.dropLast) ++ sep.getLast hsep :: '[' :: (tag ++ [']']) := by
    rw [hl]
    conv => lhs; rw [hsplit]
    simp
  refine ⟨key ++ sep.dropLast, sep.getLast hsep, tag, hdata, h1, hword, ?_⟩
  have hhead := head_runAll_keyword_escaped_tail (key ++ sep.dropLast) (sep.getLast hsep)
    tag h1 hword [] []
  have hrun : (runAll KEYWORD_LINE_REGEX_escaped line.data Captures.start).head? =
      some ([], ⟨[String.mk (key ++ sep.dropLast),
        String.mk ('[' :: (tag ++ [']']))], none⟩) := by
    rw [hdata]
    simpa [KEYWORD_LINE_REGEX_escaped, runAll, Captures.start, Captures.enter] using hhead
  unfold regex_search
  cases hd : line.data with
  | nil => rw [hd] at hdata; simp at hdata
  | cons x xs =>
    rw [hd] at hrun
    simp [searchFrom, hrun]

/-- C6, amended: every line classified as a keyword line is a key, one separator
character and a tag, in this order and nothing else; the key that
`ParseKeywordLine` validates and stores is the text before that separator (the
first group), and the value it stores is the tag (the second group). For the
pattern as compiled the separator is a character of the set `[:space:]` and
the tag one of the characters `w` and `*`; for the pattern as written the
separator is a white space character and the tag a bracketed run of word
characters, stored with its brackets. -/
theorem ParseKeywordLine_key_value (self : IESParser) (line : String)
    (hk : self.IsKeywordLine line = true)
    (hre : self.KEYWORD_LINE_REGEX = IES.KEYWORD_LINE_REGEX ∨
      self.KEYWORD_LINE_REGEX = KEYWORD_LINE_REGEX_escaped) :
    ∃ (key value : String) (sep : Char),
      line.data = key.data ++ sep :: value.data ∧
      (self.KEYWORD_LINE_REGEX = IES.KEYWORD_LINE_REGEX →
        sep ∈ [':', 's', 'p', 'a', 'c', 'e'] ∧ (value = "w" ∨ value = "*")) ∧
      (self.KEYWORD_LINE_REGEX = KEYWORD_LINE_REGEX_escaped →
        isspace sep = true ∧
        ∃ tag : List Char, value.data = '[' :: (tag ++ [']']) ∧
          ∀ x ∈ tag, (x.isAlphanum || x == '_') = true) ∧
      self.ParseKeywordLine line = self.storeKeyword key value ∧
      (self.ignore_allowed_keywords = false →
        (self.ParseKeywordLine line).1.succeeded = true → self.AcceptKeyword key = .ok ()) ∧
      ((self.ParseKeywordLine line).1.succeeded = true → key ≠ "MORE" →
        (self.ParseKeywordLine line).2.keywords_dictionary.find key = some value) := by
  have hne : IES.KEYWORD_LINE_REGEX ≠ KEYWORD_LINE_REGEX_escaped := by decide
  have fin : ∀ key value : String,
      regex_search line self.KEYWORD_LINE_REGEX = some [key, value] →
      self.ParseKeywordLine line = self.storeKeyword key value ∧
      (self.ignore_allowed_keywords = false →
        (self.ParseKeywordLine line).1.succeeded = true → self.AcceptKeyword key = .ok ()) ∧
      ((self.ParseKeywordLine line).1.succeeded = true → key ≠ "MORE" →
        (self.ParseKeywordLine line).2.keywords_dictionary.find key = some value) := by
    intro key value hs
    have he : self.ParseKeywordLine line = self.storeKeyword key value := by
      rw [ParseKeywordLine_eq_storeKeyword self line _ hs]
      rfl
    rw [he]
    exact ⟨rfl, storeKeyword_validates self key value, storeKeyword_stores self key value⟩
  unfold IsKeywordLine at hk
  rcases hre with hre | hre
  · rw [hre] at hk
    obtain ⟨pre, c1, c2, hl, hc1, hc2, hs⟩ := regex_search_keyword line hk
    refine ⟨String.mk pre, String.mk [c2], c1, by rw [hl], ?_, ?_,
      fin _ _ (by rw [hre]; exact hs)⟩
    · intro _
      refine ⟨hc1, ?_⟩
      rcases hc2 with rfl | rfl
      · exact Or.inl rfl
      · exact Or.inr rfl
    · intro h; rw [hre] at h; exact absurd h hne
  · rw [hre] at hk
    obtain ⟨pre, c1, tag, hl, hc1, hword, hs⟩ := regex_search_keyword_escaped line hk
    refine ⟨String.mk pre, String.mk ('[' :: (tag ++ [']'])), c1, by rw [hl], ?_, ?_,
      fin _ _ (by rw [hre]; exact hs)⟩
    · intro h; rw [hre] at h; exact absurd h.symm hne
    · intro _
      exact ⟨hc1, tag, rfl, fun x hx => by simpa [CharClass.test] using hword x hx⟩

theorem ParseKeywordLine_key_value_witness :
    ({ newParser with format := Format.LM632002 } : IESParser).IsKeywordLine "LAMPsw" = true ∧
    ∃ (key value : String) (sep : Char),
      "LAMPsw".data = key.data ++ sep :: value.data ∧
      (({ newParser with format := Format.LM632002 } : IESParser).KEYWORD_LINE_REGEX =
          IES.KEYWORD_LINE_REGEX →
        sep ∈ [':', 's', 'p', 'a', 'c', 'e'] ∧ (value = "w" ∨ value = "*")) ∧
      (({ newParser with format := Format.LM632002 } : IESParser).KEYWORD_LINE_REGEX =
          KEYWORD_LINE_REGEX_escaped →
        isspace sep = true ∧
        ∃ tag : List Char, value.data = '[' :: (tag ++ [']']) ∧
          ∀ x ∈ tag, (x.isAlphanum || x == '_') = true) ∧
      ({ newParser with format := Format.LM632002 } : IESParser).ParseKeywordLine "LAMPsw" =
        ({ newParser with format := Format.LM632002 } : IESParser).storeKeyword key value ∧
      (({ newParser with format := Format.LM632002 } : IESParser).ignore_allowed_keywords =
          false →
        (({ newParser with format := Format.LM632002 } : IESParser).ParseKeywordLine
          "LAMPsw").1.succeeded = true →
        ({ newParser with format := Format.LM632002 } : IESParser).AcceptKeyword key =
          .ok ()) ∧
      ((({ newParser with format := Format.LM632002 } : IESParser).ParseKeywordLine
          "LAMPsw").1.succeeded = true → key ≠ "MORE" →
        (({ newParser with format := Format.LM632002 } : IESParser).ParseKeywordLine
          "LAMPsw").2.keywords_dictionary.find key = some value) :=
  ⟨by decide,
    ParseKeywordLine_key_value ({ newParser with format := Format.LM632002 }) "LAMPsw"
      (by decide) (Or.inl rfl)⟩

/-- C6, counterexample: the key is the text before the tag, not the content of
the tag. Under the 2002 format the keyword line `TEST [abc]` of the pattern as
written is accepted and stored under the key `TEST` with the value `[abc]`, and
nothing is stored under `abc`; the line `abc [TEST]` is rejected, because `abc`
is validated, although its tag holds the allowed keyword `TEST`. For the
pattern as compiled, `TESTsw` is stored under `TEST` with the value `w`. -/
theorem ParseKeywordLine_key_before_tag :
    (({ newParserEscaped with format := Format.LM632002 } : IESParser).IsKeywordLine
        "TEST [abc]" = true ∧
      (({ newParserEscaped with format := Format.LM632002 } : IESParser).ParseKeywordLine
        "TEST [abc]").1 = .ok () ∧
      (({ newParserEscaped with format := Format.LM632002 } : IESParser).ParseKeywordLine
        "TEST [abc]").2.keywords_dictionary = [("TEST", "[abc]")] ∧
      ({ newParserEscaped with format := Format.LM632002 } : IESParser).IsKeywordLine
        "abc [TEST]" = true ∧
      (({ newParserEscaped with format := Format.LM632002 } : IESParser).ParseKeywordLine
        "abc [TEST]").1 = .error ⟨FailureKind.ParsingException,
          "Keyword abc is not allowed by IESNA LM-63-2002 standard", 0⟩) ∧
    (({ newParser with format := Format.LM632002 } : IESParser).IsKeywordLine
        "TESTsw" = true ∧
      (({ newParser with format := Format.LM632002 } : IESParser).ParseKeywordLine
        "TESTsw").1 = .ok () ∧
      (({ newParser with format := Format.LM632002 } : IESParser).ParseKeywordLine
        "TESTsw").2.keywords_dictionary = [("TEST", "w")]) := by
  decide

/-! ## The allow-lists from one standard to the next -/

/-- C11, amended: every keyword on the 1991 list is on the 1995 list, and every
keyword on the 1995 list other than `DATE`, `BLOCK` and `ENDBLOCK` is on the
2002 list. -/
theorem KeywordAllowed_grows (keyword : String) :
    (KeywordAllowedByIesna91 keyword = true → KeywordAllowedByIesna95 keyword = true) ∧
    (KeywordAllowedByIesna95 keyword = true → keyword ≠ "DATE" → keyword ≠ "BLOCK" →
      keyword ≠ "ENDBLOCK" → KeywordAllowedByIesna02 keyword = true) := by
  constructor
  · intro h
    simp only [KeywordAllowedByIesna91, Bool.or_eq_true, beq_iff_eq] at h
    simp only [KeywordAllowedByIesna95, Bool.or_eq_true, beq_iff_eq]
    tauto
  · intro h h1 h2 h3
    simp only [KeywordAllowedByIesna95, Bool.or_eq_true, beq_iff_eq] at h
    simp only [KeywordAllowedByIesna02, Bool.or_eq_true, beq_iff_eq]
    tauto

theorem KeywordAllowed_grows_witness :
    KeywordAllowedByIesna91 "LAMP" = true ∧ KeywordAllowedByIesna95 "LAMP" = true ∧
    "LAMP" ≠ "DATE" ∧ "LAMP" ≠ "BLOCK" ∧ "LAMP" ≠ "ENDBLOCK" ∧
    KeywordAllowedByIesna02 "LAMP" = true :=
  ⟨by decide, (KeywordAllowed_grows "LAMP").1 (by decide), by decide, by decide, by decide,
    (KeywordAllowed_grows "LAMP").2 (by decide) (by decide) (by decide) (by decide)⟩

/-- C11, counterexample: `BLOCK` and `ENDBLOCK` are on the 1995 list, differ from
`DATE`, and are not on the 2002 list. -/
theorem KeywordAllowed_block_dropped :
    KeywordAllowedByIesna95 "BLOCK" = true ∧ "BLOCK" ≠ "DATE" ∧
    KeywordAllowedByIesna02 "BLOCK" = false ∧
    KeywordAllowedByIesna95 "ENDBLOCK" = true ∧ "ENDBLOCK" ≠ "DATE" ∧
    KeywordAllowedByIesna02 "ENDBLOCK" = false := by
  decide

/-! ## Invariants of the loop -/

theorem readChecked_loop_fuel (self : IESParser) (input_stream : IStream) :
    self.readChecked input_stream
        (fun line1 s2 is2 => ParseLoop input_stream.lines.length s2 is2 line1) =
      self.readChecked input_stream
        (fun line1 s2 is2 => ParseLoop (is2.lines.length + 1) s2 is2 line1) := by
  apply readChecked_congr
  intro l s rest hr
  exact ParseLoop_fuel _ _ _ _ _ hr (Nat.lt_succ_self _)

/-- One iteration of the loop of `Parse`, with the iterations that follow given
as many iterations as they need. -/
theorem ParseLoop_step (self : IESParser) (input_stream : IStream) (line : String) :
    ParseLoop (input_stream.lines.length + 1) self input_stream line =
      if self.IsKeywordLine line then
        match self.ParseKeywordLine line with
        | (.error e, s1) => some (.error e, s1, input_stream)
        | (.ok _, s1) =>
          s1.readChecked input_stream
            (fun line1 s2 is2 => ParseLoop (is2.lines.length + 1) s2 is2 line1)
      else if self.IsTiltLine line then
        match self.ParseTiltLine line with
        | (.error e, s1) => some (.error e, s1, input_stream)
        | (.ok _, s1) =>
          s1.readChecked input_stream (fun _ s2 is2 => some (.ok (), s2, is2))
      else if self.format != Format.LM631986 then
        some (.error (self.parsingException "Expected keyword line or TILT line"),
          self, input_stream)
      else
        self.readChecked input_stream
          (fun line1 s2 is2 => ParseLoop (is2.lines.length + 1) s2 is2 line1) := by
  conv => lhs; unfold ParseLoop
  simp only [readChecked_loop_fuel]

/-- A property of the object that every step of the loop keeps, and a property
of the outcome that every step establishes, hold when the loop is left. -/
theorem ParseLoop_invariant (I : IESParser → Prop) (Q : Outcome → Prop)
    (hadv : ∀ (s : IESParser) (n : Int), I s → I (s.advance n))
    (hkw : ∀ (s : IESParser) (line : String), I s → s.IsKeywordLine line = true →
      I (s.ParseKeywordLine line).2 ∧ Q (s.ParseKeywordLine line).1)
    (htl : ∀ (s : IESParser) (line : String), I s → s.IsTiltLine line = true →
      I (s.ParseTiltLine line).2 ∧ Q (s.ParseTiltLine line).1)
    (hok : Q (.ok ()))
    (hpe : ∀ e : Failure, e.kind = FailureKind.ParsingException → Q (.error e))
    (n : Nat) :
    ∀ (self : IESParser) (input_stream : IStream) (line : String) (r : Outcome)
      (s1 : IESParser) (is1 : IStream), I self →
      ParseLoop n self input_stream line = some (r, s1, is1) → I s1 ∧ Q r := by
  induction n with
  | zero => intro self input_stream line r s1 is1 _ h; simp [ParseLoop] at h
  | succ n ih =>
    intro self input_stream line r s1 is1 hI h
    have hread : ∀ (s : IESParser)
        (next : String → IESParser → IStream → ParseResult), I s →
        (∀ (l : String) (s2 : IESParser) (is2 : IStream), I s2 →
          next l s2 is2 = some (r, s1, is1) → I s1 ∧ Q r) →
        s.readChecked input_stream next = some (r, s1, is1) → I s1 ∧ Q r := by
      intro s next hs hnext hr
      rcases readChecked_cases s input_stream next with
        ⟨e, k, is2, hk, he⟩ | ⟨l, rest, _, _, he⟩
      · rw [he] at hr
        simp only [Option.some.injEq, Prod.mk.injEq] at hr
        rw [← hr.1, ← hr.2.1]
        exact ⟨hadv s k hs, hpe e hk⟩
      · rw [he] at hr
        exact hnext _ _ _ (hadv s _ hs) hr
    unfold ParseLoop at h
    split at h
    · rename_i hkl
      have hstep := hkw self line hI hkl
      split at h
      · rename_i e s2 heq
        rw [heq] at hstep
        simp only [Option.some.injEq, Prod.mk.injEq] at h
        rw [← h.1, ← h.2.1]; exact hstep
      · rename_i u s2 heq
        rw [heq] at hstep
        exact hread s2 _ hstep.1 (fun l s3 is3 h3 hl => ih s3 is3 l r s1 is1 h3 hl) h
    · split at h
      · rename_i htl2
        have hstep := htl self line hI htl2
        split at h
        · rename_i e s2 heq
          rw [heq] at hstep
          simp only [Option.some.injEq, Prod.mk.injEq] at h
          rw [← h.1, ← h.2.1]; exact hstep
        · rename_i u s2 heq
          rw [heq] at hstep
          refine hread s2 _ hstep.1 ?_ h
          intro l s3 is3 h3 hl
          simp only [Option.some.injEq, Prod.mk.injEq] at hl
          rw [← hl.1, ← hl.2.1]
          exact ⟨h3, hok⟩
      · split at h
        · simp only [Option.some.injEq, Prod.mk.injEq] at h
          rw [← h.1, ← h.2.1]
          exact ⟨hI, hpe _ rfl⟩
        · exact hread self _ hI (fun l s3 is3 h3 hl => ih s3 is3 l r s1 is1 h3 hl) h

/-- The same for `Parse`, when the property also survives the decision of the
format and the reset of `last_added_keyword`. -/
theorem Parse_invariant (I : IESParser → Prop) (Q : Outcome → Prop)
    (hadv : ∀ (s : IESParser) (n : Int), I s → I (s.advance n))
    (hfmt : ∀ (s : IESParser) (f : Format), I s → I { s with format := f })
    (hlast : ∀ s : IESParser, I s → I { s with last_added_keyword := none })
    (hkw : ∀ (s : IESParser) (line : String), I s → s.IsKeywordLine line = true →
      I (s.ParseKeywordLine line).2 ∧ Q (s.ParseKeywordLine line).1)
    (htl : ∀ (s : IESParser) (line : String), I s → s.IsTiltLine line = true →
      I (s.ParseTiltLine line).2 ∧ Q (s.ParseTiltLine line).1)
    (hok : Q (.ok ()))
    (hpe : ∀ e : Failure, e.kind = FailureKind.ParsingException → Q (.error e))
    (self : IESParser) (input_stream : IStream) (r : Outcome) (s1 : IESParser)
    (is1 : IStream) (hI : I self)
    (h : self.Parse input_stream = some (r, s1, is1)) : I s1 ∧ Q r := by
  have hloop := ParseLoop_invariant I Q hadv hkw htl hok hpe
  unfold Parse at h
  simp only at h
  rcases readChecked_cases _ input_stream _ with
    ⟨e, k, is2, hk, he⟩ | ⟨l, rest, _, _, he⟩
  · rw [he] at h
    simp only [Option.some.injEq, Prod.mk.injEq] at h
    rw [← h.1, ← h.2.1]
    exact ⟨hadv _ k (hlast self hI), hpe e hk⟩
  · rw [he] at h
    have h1 : I (({ self with last_added_keyword := none } : IESParser).advance
        ((input_stream.lines.length - rest.length : Nat) : Int)) :=
      hadv _ _ (hlast self hI)
    have h2 : I ((({ self with last_added_keyword := none } : IESParser).advance
        ((input_stream.lines.length - rest.length : Nat) : Int)).ParseFormatVersion l) := by
      rw [ParseFormatVersion_eq]
      exact hfmt _ _ h1
    by_cases hf : ((({ self with last_added_keyword := none } : IESParser).advance
        ((input_stream.lines.length - rest.length : Nat) : Int)).ParseFormatVersion l).format =
        Format.UNKNOWN
    · simp only [hf, bne_self_eq_false, Bool.false_eq_true, if_false] at h
      exact hloop _ _ _ _ _ _ _ (hfmt _ _ h2) h
    · have hf2 : (((({ self with last_added_keyword := none } : IESParser).advance
          ((input_stream.lines.length - rest.length : Nat) : Int)).ParseFormatVersion
          l).format != Format.UNKNOWN) = true := by
        simpa using hf
      simp only [hf2, if_true] at h
      rcases readChecked_cases _ ⟨rest, true⟩ _ with
        ⟨e, k, is2, hk, he2⟩ | ⟨l2, rest2, _, _, he2⟩
      · rw [he2] at h
        simp only [Option.some.injEq, Prod.mk.injEq] at h
        rw [← h.1, ← h.2.1]
        exact ⟨hadv _ k h2, hpe e hk⟩
      · rw [he2] at h
        exact hloop _ _ _ _ _ _ _ (hadv _ _ h2) h

/-! ## Lines of the body -/

/-- C13: when `Parse` arrives at its loop with a line (not empty) that is neither
a keyword line nor a TILT line, then under the formats 1991, 1995 and 2002 it
throws the `ParsingException` "Expected keyword line or TILT line" with the
number of that line and leaves the object as it is; under the format 1986 it
passes over the line: it goes on by reading the next line, and when that read
succeeds the loop is entered again with the format, `tilt_specification`, the
dictionary and `inside_block` as they were. -/
theorem Parse_other_line (self0 : IESParser) (is0 : IStream) (keys : List String)
    (s : IESParser) (is : IStream) (line : String)
    (hat : AtLoop self0 is0 keys s is line)
    (hk : s.IsKeywordLine line = false) (ht : s.IsTiltLine line = false) :
    line ≠ "" ∧
    ((s.format = Format.LM631991 ∨ s.format = Format.LM631995 ∨
        s.format = Format.LM632002) →
      self0.Parse is0 =
        some (.error ⟨FailureKind.ParsingException, "Expected keyword line or TILT line",
          s.line_counter⟩, s, is)) ∧
    (s.format = Format.LM631986 →
      self0.Parse is0 =
        s.readChecked is
          (fun line1 s2 is2 => ParseLoop (is2.lines.length + 1) s2 is2 line1) ∧
      ∀ (line1 : String) (s2 : IESParser) (is2 : IStream),
        s.ReadTrimmedLine is = some (line1, s2, is2) → s2.CheckEmpty is2 line1 = .ok () →
        AtLoop self0 is0 keys s2 is2 line1 ∧
        self0.Parse is0 = ParseLoop (is2.lines.length + 1) s2 is2 line1 ∧
        s2.format = s.format ∧ s2.tilt_specification = s.tilt_specification ∧
        s2.keywords_dictionary = s.keywords_dictionary ∧
        s2.inside_block = s.inside_block) := by
  refine ⟨(atLoop_good _ _ _ _ _ _ hat).2, ?_, ?_⟩
  · intro hf
    rw [Parse_eq_of_atLoop _ _ _ _ _ _ hat, ParseLoop_step]
    have hne : (s.format != Format.LM631986) = true := by
      rcases hf with h | h | h <;> rw [h] <;> decide
    simp only [hk, ht, hne, Bool.false_eq_true, if_false, if_true]
    rfl
  · intro hf
    constructor
    · rw [Parse_eq_of_atLoop _ _ _ _ _ _ hat, ParseLoop_step]
      simp [hk, ht, hf]
    · intro line1 s2 is2 hr hc
      have hat2 := AtLoop.other hat hk ht hf hr hc
      have e2 := (ReadTrimmedLine_checked _ _ _ _ _ hr hc).2.2.2
      refine ⟨hat2, Parse_eq_of_atLoop _ _ _ _ _ _ hat2, ?_, ?_, ?_, ?_⟩ <;>
        · rw [e2]; rfl

theorem atLoop_other_example :
    AtLoop newParser (IStream.ofLines ["IESNA:LM-63-2002", "hello", "TILT=NONE", "1"]) []
      (((newParser.advance 1).ParseFormatVersion "IESNA:LM-63-2002").advance 1)
      ⟨["TILT=NONE", "1"], true⟩ "hello" :=
  @AtLoop.header _ _ "IESNA:LM-63-2002" (newParser.advance 1)
    ⟨["hello", "TILT=NONE", "1"], true⟩
    _ _ _ (by decide) (by decide) (by decide) (by decide) (by decide)

theorem Parse_other_line_witness :
    newParser.Parse (IStream.ofLines ["IESNA:LM-63-2002", "hello", "TILT=NONE", "1"]) =
      some (.error ⟨FailureKind.ParsingException, "Expected keyword line or TILT line", 2⟩,
        ((newParser.advance 1).ParseFormatVersion "IESNA:LM-63-2002").advance 1,
        ⟨["TILT=NONE", "1"], true⟩) :=
  (Parse_other_line newParser
    (IStream.ofLines ["IESNA:LM-63-2002", "hello", "TILT=NONE", "1"]) []
    (((newParser.advance 1).ParseFormatVersion "IESNA:LM-63-2002").advance 1)
    ⟨["TILT=NONE", "1"], true⟩ "hello" atLoop_other_example (by decide) (by decide)).2.1
    (Or.inr (Or.inr (by decide)))

theorem ProcessBlockKeywords_state (self : IESParser) (key : String) :
    (self.ProcessBlockKeywords key).2 =
      { self with inside_block := (self.ProcessBlockKeywords key).2.inside_block } := by
  unfold ProcessBlockKeywords
  split
  · split <;> rfl
  · split
    · split <;> rfl
    · split <;> rfl

/-- Handling a keyword line changes at most `inside_block` and the dictionary. -/
theorem storeKeyword_state (self : IESParser) (key value : String) :
    (self.storeKeyword key value).2 =
      { self with
        inside_block := (self.storeKeyword key value).2.inside_block
        keywords_dictionary := (self.storeKeyword key value).2.keywords_dictionary } := by
  have hp := ProcessBlockKeywords_state self key
  unfold storeKeyword
  split
  · rfl
  · split
    · rename_i e s1 heq
      rw [heq] at hp
      simp only at hp ⊢
      rw [hp]
    · rename_i u s1 heq
      rw [heq] at hp
      simp only at hp
      split
      · split
        · simp only; rw [hp]
        · simp only; rw [hp]
      · simp only; rw [hp]

theorem ParseKeywordLine_state (self : IESParser) (line : String) :
    (self.ParseKeywordLine line).2 =
      { self with
        inside_block := (self.ParseKeywordLine line).2.inside_block
        keywords_dictionary := (self.ParseKeywordLine line).2.keywords_dictionary } := by
  unfold ParseKeywordLine
  split
  · rfl
  · exact storeKeyword_state _ _ _

/-- C16, amended: the keyword shape has priority in the classification of `Parse`:
a line that matches the keyword shape is handled with `ParseKeywordLine`,
whether or not it matches the TILT shape as well, and this iteration leaves
`tilt_specification` as it is; a line is handled with `ParseTiltLine` when it
matches the TILT shape and does not match the keyword shape. -/
theorem Parse_classification (self0 : IESParser) (is0 : IStream) (keys : List String)
    (s : IESParser) (is : IStream) (line : String)
    (hat : AtLoop self0 is0 keys s is line) :
    (s.IsKeywordLine line = true →
      self0.Parse is0 =
        (match s.ParseKeywordLine line with
        | (.error e, s1) => some (.error e, s1, is)
        | (.ok _, s1) =>
          s1.readChecked is
            (fun line1 s2 is2 => ParseLoop (is2.lines.length + 1) s2 is2 line1)) ∧
      (s.ParseKeywordLine line).2.tilt_specification = s.tilt_specification) ∧
    (s.IsKeywordLine line = false → s.IsTiltLine line = true →
      self0.Parse is0 =
        (match s.ParseTiltLine line with
        | (.error e, s1) => some (.error e, s1, is)
        | (.ok _, s1) => s1.readChecked is (fun _ s2 is2 => some (.ok (), s2, is2)))) := by
  constructor
  · intro hk
    constructor
    · rw [Parse_eq_of_atLoop _ _ _ _ _ _ hat, ParseLoop_step]
      simp only [hk, if_true]
    · rw [ParseKeywordLine_state]
  · intro hk ht
    rw [Parse_eq_of_atLoop _ _ _ _ _ _ hat, ParseLoop_step]
    simp only [hk, ht, Bool.false_eq_true, if_false, if_true]

theorem atLoop_both_shapes_example :
    AtLoop newParser (IStream.ofLines ["TILT=sw", "TILT=NONE", "1"]) []
      { (newParser.advance 1).ParseFormatVersion "TILT=sw" with format := Format.LM631986 }
      ⟨["TILT=NONE", "1"], true⟩ "TILT=sw" :=
  @AtLoop.noHeader _ _ "TILT=sw" (newParser.advance 1) ⟨["TILT=NONE", "1"], true⟩
    (by decide) (by decide) (by decide)

theorem Parse_classification_witness :
    ({ (newParser.advance 1).ParseFormatVersion "TILT=sw" with
        format := Format.LM631986 } : IESParser).IsKeywordLine "TILT=sw" = true ∧
    ({ (newParser.advance 1).ParseFormatVersion "TILT=sw" with
        format := Format.LM631986 } : IESParser).IsTiltLine "TILT=sw" = true ∧
    newParser.Parse (IStream.ofLines ["TILT=sw", "TILT=NONE", "1"]) =
      (match ({ (newParser.advance 1).ParseFormatVersion "TILT=sw" with
          format := Format.LM631986 } : IESParser).ParseKeywordLine "TILT=sw" with
      | (.error e, s1) => some (.error e, s1, ⟨["TILT=NONE", "1"], true⟩)
      | (.ok _, s1) =>
        s1.readChecked ⟨["TILT=NONE", "1"], true⟩
          (fun line1 s2 is2 => ParseLoop (is2.lines.length + 1) s2 is2 line1)) :=
  ⟨by decide, by decide,
    ((Parse_classification newParser (IStream.ofLines ["TILT=sw", "TILT=NONE", "1"]) []
      { (newParser.advance 1).ParseFormatVersion "TILT=sw" with format := Format.LM631986 }
      ⟨["TILT=NONE", "1"], true⟩ "TILT=sw" atLoop_both_shapes_example).1 (by decide)).1⟩

/-- C16, counterexample: a line that matches both shapes is handled as a keyword
line. With the patterns as compiled, `TILT=sw` matches the TILT shape and the
keyword shape; `ParseTiltLine` would throw on it (its value `w` is neither
`INCLUDE` nor `NONE`), but `Parse` stores it as the key `TILT=` with the value
`w` and goes on to the next line. With the patterns as written the same holds
for the line `TILT=x [y]` of the claim. -/
theorem Parse_tilt_shape_as_keyword :
    (newParser.IsTiltLine "TILT=sw" = true ∧ newParser.IsKeywordLine "TILT=sw" = true ∧
      (newParser.ParseTiltLine "TILT=sw").1.failureKind =
        some FailureKind.NotSupportedException ∧
      (newParser.Parse (IStream.ofLines ["TILT=sw", "TILT=NONE", "1"])).map
          (fun r => (r.1, r.2.1.keywords_dictionary, r.2.1.tilt_specification)) =
        some (.ok (), [("TILT=", "w")], TiltSpecification.NONE)) ∧
    (newParserEscaped.IsTiltLine "TILT=x [y]" = true ∧
      newParserEscaped.IsKeywordLine "TILT=x [y]" = true ∧
      (newParserEscaped.ParseTiltLine "TILT=x [y]").1.failureKind =
        some FailureKind.NotSupportedException ∧
      (newParserEscaped.Parse (IStream.ofLines ["TILT=x [y]", "TILT=NONE", "1"])).map
          (fun r => (r.1, r.2.1.keywords_dictionary, r.2.1.tilt_specification)) =
        some (.ok (), [("TILT=x", "[y]")], TiltSpecification.NONE)) := by
  decide

/-! ## The TILT value -/

theorem ParseTiltLine_cases (self : IESParser) (line : String) :
    (self.ParseTiltLine line).2 = self ∨
    (self.ParseTiltLine line).2 =
      { self with tilt_specification := TiltSpecification.INCLUDE } ∨
    (self.ParseTiltLine line).2 = { self with tilt_specification := TiltSpecification.NONE } := by
  unfold ParseTiltLine
  split
  · exact Or.inl rfl
  · simp only
    split
    · exact Or.inr (Or.inl rfl)
    · split
      · exact Or.inr (Or.inr rfl)
      · exact Or.inl rfl

theorem ParseTiltLine_not_file (self : IESParser) (line : String) :
    (self.ParseTiltLine line).2.tilt_specification_filename =
        self.tilt_specification_filename ∧
    ((self.ParseTiltLine line).2.tilt_specification = TiltSpecification.FILE →
      self.tilt_specification = TiltSpecification.FILE) := by
  rcases ParseTiltLine_cases self line with h | h | h <;> rw [h] <;> simp

/-- C14: on a TILT line whose extracted value is neither `INCLUDE` nor `NONE`,
`ParseTiltLine` throws a `NotSupportedException` and leaves the object, in
particular `tilt_specification` and `tilt_specification_filename`, as it is.
Consequently no call of `ParseTiltLine` and no call of `Parse` sets
`tilt_specification` to `FILE` or changes `tilt_specification_filename`: the
value `FILE` can only be there from before the call. -/
theorem ParseTiltLine_file_value (self : IESParser) (line : String) (what : List String)
    (hs : regex_search line self.TILT_LINE_REGEX = some what)
    (h1 : sub_match what 1 ≠ "INCLUDE") (h2 : sub_match what 1 ≠ "NONE") :
    self.ParseTiltLine line =
      (.error ⟨FailureKind.NotSupportedException,
        "TILT specification from file is not supported", self.line_counter⟩, self) ∧
    (∀ (s : IESParser) (l : String),
      (s.ParseTiltLine l).2.tilt_specification_filename = s.tilt_specification_filename ∧
      ((s.ParseTiltLine l).2.tilt_specification = TiltSpecification.FILE →
        s.tilt_specification = TiltSpecification.FILE)) ∧
    (∀ (s0 : IESParser) (is0 : IStream) (r : Outcome) (s1 : IESParser) (is1 : IStream),
      s0.Parse is0 = some (r, s1, is1) →
      s1.tilt_specification_filename = s0.tilt_specification_filename ∧
      (s1.tilt_specification = TiltSpecification.FILE →
        s0.tilt_specification = TiltSpecification.FILE)) := by
  refine ⟨?_, ParseTiltLine_not_file, ?_⟩
  · unfold ParseTiltLine
    rw [hs]
    simp [h1, h2, notSupportedException]
  · intro s0 is0 r s1 is1 hp
    have hframe : ∀ a b : IESParser, Frame a b →
        (a.tilt_specification_filename = s0.tilt_specification_filename) →
        b.tilt_specification_filename = s0.tilt_specification_filename := by
      intro a b hf ha
      unfold Frame at hf
      rw [hf]; exact ha
    exact (Parse_invariant
      (fun s => s.tilt_specification_filename = s0.tilt_specification_filename ∧
        (s.tilt_specification = TiltSpecification.FILE →
          s0.tilt_specification = TiltSpecification.FILE))
      (fun _ => True)
      (fun s n h => h) (fun s f h => h) (fun s h => h)
      (fun s l h _ => ⟨⟨hframe _ _ (frame_ParseKeywordLine s l) h.1, by
        rw [ParseKeywordLine_state]; exact h.2⟩, trivial⟩)
      (fun s l h _ => ⟨⟨(ParseTiltLine_not_file s l).1.trans h.1,
        fun hf => h.2 ((ParseTiltLine_not_file s l).2 hf)⟩, trivial⟩)
      trivial (fun _ _ => trivial) s0 is0 r s1 is1 ⟨rfl, fun h => h⟩ hp).1

theorem ParseTiltLine_file_value_witness :
    regex_search "TILT=file.ies" newParser.TILT_LINE_REGEX = some ["file.ies"] ∧
    sub_match ["file.ies"] 1 ≠ "INCLUDE" ∧ sub_match ["file.ies"] 1 ≠ "NONE" ∧
    newParser.ParseTiltLine "TILT=file.ies" =
      (.error ⟨FailureKind.NotSupportedException,
        "TILT specification from file is not supported", 0⟩, newParser) :=
  ⟨by decide, by decide, by decide,
    (ParseTiltLine_file_value newParser "TILT=file.ies" ["file.ies"] (by decide) (by decide)
      (by decide)).1⟩

/-! ## The keyword `MORE` -/

theorem AcceptKeyword_more (self : IESParser) (hf : self.format ≠ Format.UNKNOWN) :
    self.AcceptKeyword "MORE" = .ok () ∨
    (self.AcceptKeyword "MORE").failureKind = some FailureKind.ParsingException := by
  have l1 : ¬ (MAX_KEYWORD_LENGTH < "MORE".length) := by decide
  have u1 : startsWithUnderscore "MORE" = false := by decide
  have a1 : KeywordAllowedByIesna91 "MORE" = true := by decide
  have a2 : KeywordAllowedByIesna95 "MORE" = true := by decide
  have a3 : KeywordAllowedByIesna02 "MORE" = true := by decide
  have ne : ("MORE" == "") = false := by decide
  cases hr : self.restrict_keyword_length
  · left
    unfold AcceptKeyword
    cases hfmt : self.format
    · exact absurd hfmt hf
    all_goals simp [ne, hr, l1, u1, a1, a2, a3]
  · right
    simp [AcceptKeyword, hr, Outcome.failureKind, parsingException]

theorem storeKeyword_more_accepted (self : IESParser) (value : String)
    (hl : self.last_added_keyword = none)
    (ha : self.ignore_allowed_keywords = true ∨ self.AcceptKeyword "MORE" = .ok ()) :
    self.storeKeyword "MORE" value =
      (.error (self.parsingException "Keyword MORE occured before any other keyword"),
        self) := by
  have hp : self.ProcessBlockKeywords "MORE" = (.ok (), self) :=
    ProcessBlockKeywords_other self "MORE" (by decide) (by decide)
  unfold storeKeyword
  rw [hp]
  rcases ha with ha | ha
  · simp [ha, hl]
  · cases hi : self.ignore_allowed_keywords <;> simp [ha, hl]

theorem storeKeyword_more (self : IESParser) (value : String)
    (hl : self.last_added_keyword = none)
    (hf : self.format ≠ Format.UNKNOWN ∨ self.ignore_allowed_keywords = true) :
    (self.storeKeyword "MORE" value).1.failureKind = some FailureKind.ParsingException ∧
    (self.storeKeyword "MORE" value).2 = self := by
  cases hi : self.ignore_allowed_keywords
  · have hf2 : self.format ≠ Format.UNKNOWN := by
      rcases hf with h | h
      · exact h
      · rw [hi] at h; simp at h
    rcases AcceptKeyword_more self hf2 with ha | ha
    · rw [storeKeyword_more_accepted self value hl (Or.inr ha)]
      exact ⟨rfl, rfl⟩
    · cases hacc : self.AcceptKeyword "MORE" with
      | ok u => rw [hacc] at ha; simp [Outcome.failureKind] at ha
      | error e =>
        rw [hacc] at ha
        rw [storeKeyword_of_reject self "MORE" value e hi hacc]
        exact ⟨ha, rfl⟩
  · rw [storeKeyword_more_accepted self value hl (Or.inl hi)]
    exact ⟨rfl, rfl⟩

/-- C15: in a state in which `last_added_keyword` is `end()`, that is before any
entry was recorded as inserted, handling a keyword line whose key is `MORE`
throws a `ParsingException` and leaves the object, in particular the
dictionary, as it is (the format being one of the four standards when
`AcceptKeyword` runs). In particular, when `Parse` arrives at its loop with
such a line, also as the first keyword line of the file, it stops there with a
`ParsingException`. -/
theorem ParseKeywordLine_more_without_entry (self : IESParser) (line : String)
    (what : List String)
    (hs : regex_search line self.KEYWORD_LINE_REGEX = some what)
    (hkey : sub_match what 1 = "MORE")
    (hl : self.last_added_keyword = none)
    (hf : self.format ≠ Format.UNKNOWN ∨ self.ignore_allowed_keywords = true) :
    (self.ParseKeywordLine line).1.failureKind = some FailureKind.ParsingException ∧
    (self.ParseKeywordLine line).2 = self ∧
    (self.ParseKeywordLine line).2.keywords_dictionary = self.keywords_dictionary ∧
    (∀ (self0 : IESParser) (is0 : IStream) (keys : List String) (is : IStream),
      AtLoop self0 is0 keys self is line → self.IsKeywordLine line = true →
      ∃ e : Failure, e.kind = FailureKind.ParsingException ∧
        self0.Parse is0 = some (.error e, self, is)) := by
  have h := storeKeyword_more self (sub_match what 2) hl hf
  have he : self.ParseKeywordLine line = self.storeKeyword "MORE" (sub_match what 2) := by
    rw [ParseKeywordLine_eq_storeKeyword self line what hs, hkey]
  rw [he]
  refine ⟨h.1, h.2, by rw [h.2], ?_⟩
  intro self0 is0 keys is hat hk
  rw [Parse_eq_of_atLoop _ _ _ _ _ _ hat, ParseLoop_step]
  simp only [hk, if_true, he]
  cases hst : self.storeKeyword "MORE" (sub_match what 2) with
  | mk r s1 =>
    rw [hst] at h
    cases r with
    | ok u => simp [Outcome.failureKind] at h
    | error e =>
      simp only [Outcome.failureKind, Option.some.injEq] at h
      exact ⟨e, h.1, by rw [h.2]⟩

theorem ParseKeywordLine_more_without_entry_witness :
    regex_search "MOREsw" ({ newParser with format := Format.LM632002 } :
      IESParser).KEYWORD_LINE_REGEX = some ["MORE", "w"] ∧
    sub_match ["MORE", "w"] 1 = "MORE" ∧
    ({ newParser with format := Format.LM632002 } : IESParser).last_added_keyword = none ∧
    (({ newParser with format := Format.LM632002 } : IESParser).ParseKeywordLine
      "MOREsw").1.failureKind = some FailureKind.ParsingException ∧
    (({ newParser with format := Format.LM632002 } : IESParser).ParseKeywordLine
      "MOREsw").2 = { newParser with format := Format.LM632002 } :=
  ⟨by decide, by decide, rfl,
    (ParseKeywordLine_more_without_entry ({ newParser with format := Format.LM632002 })
      "MOREsw" ["MORE", "w"] (by decide) (by decide) rfl (Or.inl (by decide))).1,
    (ParseKeywordLine_more_without_entry ({ newParser with format := Format.LM632002 })
      "MOREsw" ["MORE", "w"] (by decide) (by decide) rfl (Or.inl (by decide))).2.1⟩

theorem keys_appendAt (d : KeywordsDictionary) (key suffix : String) :
    (d.appendAt key suffix).keys = d.keys := by
  induction d with
  | nil => rfl
  | cons p rest ih =>
    obtain ⟨k, v⟩ := p
    unfold KeywordsDictionary.appendAt
    by_cases h : k = key
    · simp [h, KeywordsDictionary.keys]
    · simp only [h, if_false]
      simp only [KeywordsDictionary.keys, List.map_cons] at ih ⊢
      rw [ih]

theorem mem_keys_assign (d : KeywordsDictionary) (key value x : String)
    (h : x ∈ (d.assign key value).keys) : x ∈ d.keys ∨ x = key := by
  induction d with
  | nil =>
    right
    simpa [KeywordsDictionary.assign, KeywordsDictionary.keys] using h
  | cons p rest ih =>
    obtain ⟨k, v⟩ := p
    unfold KeywordsDictionary.assign at h
    by_cases hk : k = key
    · simp only [hk, if_true] at h
      left
      simpa [KeywordsDictionary.keys, hk] using h
    · simp only [hk, if_false, KeywordsDictionary.keys, List.map_cons, List.mem_cons] at h
      rcases h with h | h
      · left; simp [KeywordsDictionary.keys, h]
      · rcases ih h with h2 | h2
        · left
          simp only [KeywordsDictionary.keys, List.map_cons, List.mem_cons]
          exact Or.inr h2
        · exact Or.inr h2

theorem storeKeyword_no_more (self : IESParser) (key value : String)
    (h : "MORE" ∉ self.keywords_dictionary.keys) :
    "MORE" ∉ (self.storeKeyword key value).2.keywords_dictionary.keys := by
  have hp := ProcessBlockKeywords_state self key
  unfold storeKeyword
  split
  · exact h
  · split
    · rename_i e s1 heq
      rw [heq] at hp
      simp only at hp ⊢
      rw [hp]; exact h
    · rename_i u s1 heq
      rw [heq] at hp
      simp only at hp
      have h1 : "MORE" ∉ s1.keywords_dictionary.keys := by rw [hp]; exact h
      split
      · split
        · exact h1
        · simp only
          rw [keys_appendAt]; exact h1
      · rename_i hne
        simp only
        intro hmem
        rcases mem_keys_assign _ _ _ _ hmem with h2 | h2
        · exact h1 h2
        · exact hne (by simp [← h2])

theorem ParseKeywordLine_no_more (self : IESParser) (line : String)
    (h : "MORE" ∉ self.keywords_dictionary.keys) :
    "MORE" ∉ (self.ParseKeywordLine line).2.keywords_dictionary.keys := by
  unfold ParseKeywordLine
  split
  · exact h
  · exact storeKeyword_no_more _ _ _ h

theorem find_eq_none_of_not_mem (d : KeywordsDictionary) (key : String)
    (h : key ∉ d.keys) : d.find key = none := by
  induction d with
  | nil => rfl
  | cons p rest ih =>
    obtain ⟨k, v⟩ := p
    simp only [KeywordsDictionary.keys, List.map_cons, List.mem_cons, not_or] at h
    unfold KeywordsDictionary.find
    have hk : ¬ k = key := fun e => h.1 e.symm
    simp only [hk, if_false]
    exact ih h.2

/-- C18: the dictionary never gets the key `MORE`. When the dictionary of the
object has no key `MORE`, it has none after `ParseKeywordLine` on any line,
whether the call returns or throws, and none after `Parse` on any input,
whatever its outcome; so no entry is stored under `MORE`. This covers every
`Parse` started from an empty dictionary. -/
theorem dictionary_never_has_more (self : IESParser)
    (h : "MORE" ∉ self.keywords_dictionary.keys) :
    (∀ line : String, "MORE" ∉ (self.ParseKeywordLine line).2.keywords_dictionary.keys) ∧
    (∀ (input_stream : IStream) (r : Outcome) (s1 : IESParser) (is1 : IStream),
      self.Parse input_stream = some (r, s1, is1) →
      "MORE" ∉ s1.keywords_dictionary.keys ∧ s1.keywords_dictionary.find "MORE" = none) := by
  refine ⟨fun line => ParseKeywordLine_no_more self line h, ?_⟩
  intro input_stream r s1 is1 hp
  have hinv := (Parse_invariant (fun s => "MORE" ∉ s.keywords_dictionary.keys)
    (fun _ => True) (fun s n hs => hs) (fun s f hs => hs) (fun s hs => hs)
    (fun s l hs _ => ⟨ParseKeywordLine_no_more s l hs, trivial⟩)
    (fun s l hs _ => ⟨by
      rcases ParseTiltLine_cases s l with e | e | e <;> rw [e] <;> exact hs, trivial⟩)
    trivial (fun _ _ => trivial) self input_stream r s1 is1 h hp).1
  exact ⟨hinv, find_eq_none_of_not_mem _ _ hinv⟩

theorem dictionary_never_has_more_witness :
    "MORE" ∉ newParser.keywords_dictionary.keys ∧
    "MORE" ∉ (({ newParser with format := Format.LM632002 } : IESParser).ParseKeywordLine
      "MOREsw").2.keywords_dictionary.keys ∧
    "MORE" ∉ (({ newParser with format := Format.LM632002 } : IESParser).ParseKeywordLine
      "LAMPsw").2.keywords_dictionary.keys :=
  ⟨by decide,
    (dictionary_never_has_more ({ newParser with format := Format.LM632002 })
      (by decide)).1 "MOREsw",
    (dictionary_never_has_more ({ newParser with format := Format.LM632002 })
      (by decide)).1 "LAMPsw"⟩

/-! ## Failures that `Parse` cannot reach -/

/-- The loop of `ReadTrimmedLine` ends within one iteration more than lines are
left: more iterations change nothing, and the call has consumed a line or left
the stream failed. -/
theorem ReadTrimmedLineLoop_total (lines : List String) :
    ∀ (fuel : Nat) (self : IESParser) (good : Bool), lines.length < fuel →
      ReadTrimmedLineLoop fuel self ⟨lines, good⟩ =
        ReadTrimmedLineLoop (lines.length + 1) self ⟨lines, good⟩ ∧
      ∃ (l : String) (s1 : IESParser) (is1 : IStream),
        ReadTrimmedLineLoop fuel self ⟨lines, good⟩ = some (l, s1, is1) ∧
        (is1.lines.length < lines.length ∨ is1.good = false) := by
  have hfailed : ∀ (ls : List String) (f : Nat) (p : IESParser),
      ReadTrimmedLineLoop (f + 1) p ⟨ls, false⟩ =
        some (trim_copy "", p.advance 1, ⟨ls, false⟩) := by
    intro ls f p
    conv => lhs; unfold ReadTrimmedLineLoop
    simp only [ReadLine_failed]
    simp
  induction lines with
  | nil =>
    intro fuel self good hf
    cases fuel with
    | zero => simp at hf
    | succ fuel =>
      cases good
      · rw [hfailed, List.length_nil, hfailed]
        exact ⟨rfl, _, _, _, rfl, Or.inr rfl⟩
      · have hnil : ∀ f : Nat, ReadTrimmedLineLoop (f + 1) self ⟨[], true⟩ =
            some (trim_copy "", self.advance 1, ⟨[], false⟩) := by
          intro f
          conv => lhs; unfold ReadTrimmedLineLoop
          simp only [ReadLine_nil]
          simp
        rw [hnil, List.length_nil, hnil]
        exact ⟨rfl, _, _, _, rfl, Or.inr rfl⟩
  | cons x xs ih =>
    intro fuel self good hf
    cases fuel with
    | zero => simp at hf
    | succ fuel =>
      have hf2 : xs.length < fuel := by simp at hf; omega
      cases good
      · rw [hfailed, hfailed]
        exact ⟨rfl, _, _, _, rfl, Or.inr rfl⟩
      · have step : ∀ f : Nat, ReadTrimmedLineLoop (f + 1) self ⟨x :: xs, true⟩ =
            if (self.ignore_empty_lines && true && trim_copy x == "") = true then
              ReadTrimmedLineLoop f (self.advance 1) ⟨xs, true⟩
            else some (trim_copy x, self.advance 1, ⟨xs, true⟩) := by
          intro f
          conv => lhs; unfold ReadTrimmedLineLoop
          simp only [ReadLine_cons]
        have h1 := ih fuel (self.advance 1) true hf2
        rw [step fuel, List.length_cons, step (xs.length + 1)]
        by_cases hc : (self.ignore_empty_lines && true && trim_copy x == "") = true
        · rw [if_pos hc, if_pos hc]
          refine ⟨h1.1, ?_⟩
          obtain ⟨l, s1, is1, he, hlen⟩ := h1.2
          refine ⟨l, s1, is1, he, ?_⟩
          rcases hlen with h | h
          · left; omega
          · exact Or.inr h
        · rw [if_neg hc, if_neg hc]
          exact ⟨rfl, _, _, _, rfl, Or.inl (Nat.lt_succ_self _)⟩

theorem readChecked_isSome (self : IESParser) (input_stream : IStream)
    (next : String → IESParser → IStream → ParseResult)
    (h : ∀ (l : String) (s : IESParser) (rest : List String),
      (next l s ⟨rest, true⟩).isSome = true) :
    (self.readChecked input_stream next).isSome = true := by
  rcases readChecked_cases self input_stream next with
    ⟨e, k, is2, _, he⟩ | ⟨l, rest, _, _, he⟩
  · rw [he]; rfl
  · rw [he]; exact h _ _ _

/-- C20: `Parse` ends on every finite input. For every object and every stream
over a finite list of lines, `Parse` returns an outcome (a normal return or an
exception) within the iterations it is given; every call of `ReadTrimmedLine`
ends, having consumed at least one line or left the stream failed, and more
iterations of its loop change nothing; and the loop of `Parse`, given more
iterations than lines are left, ends with the same result for any such number. -/
theorem Parse_terminates (self : IESParser) (input_stream : IStream) :
    (self.Parse input_stream).isSome = true ∧
    (∃ (l : String) (s1 : IESParser) (is1 : IStream),
      self.ReadTrimmedLine input_stream = some (l, s1, is1) ∧
      (is1.lines.length < input_stream.lines.length ∨ is1.good = false)) ∧
    (∀ fuel : Nat, input_stream.lines.length < fuel →
      ReadTrimmedLineLoop fuel self input_stream = self.ReadTrimmedLine input_stream) ∧
    (∀ (fuel : Nat) (line : String), input_stream.lines.length < fuel →
      (ParseLoop fuel self input_stream line).isSome = true ∧
      ParseLoop fuel self input_stream line =
        ParseLoop (input_stream.lines.length + 1) self input_stream line) := by
  refine ⟨?_, ?_, ?_, ?_⟩
  · unfold Parse
    simp only
    apply readChecked_isSome
    intro l s rest
    split
    · apply readChecked_isSome
      intro l2 s2 rest2
      exact ParseLoop_isSome _ _ _ _ (Nat.lt_succ_self _)
    · exact ParseLoop_isSome _ _ _ _ (Nat.lt_succ_self _)
  · obtain ⟨lines, good⟩ := input_stream
    exact (ReadTrimmedLineLoop_total lines _ self good (Nat.lt_succ_self _)).2
  · intro fuel hf
    obtain ⟨lines, good⟩ := input_stream
    exact (ReadTrimmedLineLoop_total lines fuel self good hf).1
  · intro fuel line hf
    exact ⟨ParseLoop_isSome fuel self input_stream line hf,
      ParseLoop_fuel fuel _ self input_stream line hf (Nat.lt_succ_self _)⟩

/-! ## Two runs of `Parse` side by side -/

theorem AcceptKeyword_moved (self : IESParser) (n : Int) (t : TiltSpecification)
    (keyword : String) :
    (self.moved n t).AcceptKeyword keyword = (self.AcceptKeyword keyword).atLine n := by
  unfold AcceptKeyword
  simp only [moved, parsingException]
  split
  · rfl
  · split
    · rfl
    · split
      · rfl
      · split
        · split <;> rfl
        · split <;> rfl
        · split
          · rfl
          · split <;> rfl
        · rfl

theorem ProcessBlockKeywords_moved (self : IESParser) (n : Int) (t : TiltSpecification)
    (key : String) :
    (self.moved n t).ProcessBlockKeywords key =
      ((self.ProcessBlockKeywords key).1.atLine n,
        (self.ProcessBlockKeywords key).2.moved n t) := by
  unfold ProcessBlockKeywords
  simp only [moved, parsingException, notSupportedException]
  split
  · split <;> rfl
  · split
    · split <;> rfl
    · split <;> rfl

theorem storeKeyword_moved (self : IESParser) (n : Int) (t : TiltSpecification)
    (key value : String) :
    (self.moved n t).storeKeyword key value =
      ((self.storeKeyword key value).1.atLine n,
        (self.storeKeyword key value).2.moved n t) := by
  unfold storeKeyword
  rw [AcceptKeyword_moved, ProcessBlockKeywords_moved]
  have hi : (self.moved n t).ignore_allowed_keywords = self.ignore_allowed_keywords := rfl
  rw [hi]
  cases hacc : (if (!self.ignore_allowed_keywords) = true then self.AcceptKeyword key
      else Except.ok ()) with
  | error e =>
    cases hig : self.ignore_allowed_keywords
    · rw [hig] at hacc
      simp only [Bool.not_false, if_true] at hacc
      simp only [Bool.not_false, if_true, hacc, Outcome.atLine]
    · rw [hig] at hacc
      simp at hacc
  | ok u =>
    have h2 : (if (!self.ignore_allowed_keywords) = true
        then (self.AcceptKeyword key).atLine n else Except.ok ()) = Except.ok () := by
      cases hig : self.ignore_allowed_keywords
      · rw [hig] at hacc
        simp only [Bool.not_false, if_true] at hacc
        simp only [Bool.not_false, if_true, hacc, Outcome.atLine]
      · simp
    rw [h2]
    simp only []
    rcases hp : self.ProcessBlockKeywords key with ⟨r, s1⟩
    cases r with
    | error e => simp only [Outcome.atLine]
    | ok u2 =>
      simp only [Outcome.atLine]
      by_cases hm : (key == "MORE") = true
      · simp only [hm, if_true]
        have hl : (s1.moved n t).last_added_keyword = s1.last_added_keyword := rfl
        rw [hl]
        cases s1.last_added_keyword with
        | none => rfl
        | some k => rfl
      · simp only [hm]
        rfl

theorem ParseKeywordLine_moved (self : IESParser) (n : Int) (t : TiltSpecification)
    (line : String) :
    (self.moved n t).ParseKeywordLine line =
      ((self.ParseKeywordLine line).1.atLine n,
        (self.ParseKeywordLine line).2.moved n t) := by
  unfold ParseKeywordLine
  have hk : (self.moved n t).KEYWORD_LINE_REGEX = self.KEYWORD_LINE_REGEX := rfl
  rw [hk]
  cases regex_search line self.KEYWORD_LINE_REGEX with
  | none => rfl
  | some what => exact storeKeyword_moved self n t _ _

theorem ParseTiltLine_moved (self : IESParser) (n : Int) (t : TiltSpecification)
    (line : String) :
    (self.moved n t).ParseTiltLine line =
      ((self.ParseTiltLine line).1.atLine n,
        (self.ParseTiltLine line).2.moved n
          (if (self.ParseTiltLine line).1.succeeded = true
            then (self.ParseTiltLine line).2.tilt_specification else t)) := by
  unfold ParseTiltLine
  have hk : (self.moved n t).TILT_LINE_REGEX = self.TILT_LINE_REGEX := rfl
  rw [hk]
  cases regex_search line self.TILT_LINE_REGEX with
  | none => rfl
  | some what =>
    simp only []
    split
    · rfl
    · split <;> rfl

theorem atLine_what (r : Outcome) (n : Int) : (r.atLine n).what = r.what := by
  cases r <;> rfl

theorem atLine_succeeded (r : Outcome) (n : Int) : (r.atLine n).succeeded = r.succeeded := by
  cases r <;> rfl


/-- When no line with content is left, what the loop of `ReadTrimmedLine`
returns depends on the object only through `ignore_empty_lines`; when blank
lines are skipped, it has run into the end of the stream. -/
theorem ReadTrimmedLineLoop_none_uniform (ign : Bool) (lines : List String) :
    nextContent ign lines = none →
    ∃ (n : Int) (is1 : IStream), (ign = true → is1.good = false) ∧
      ∀ (fuel : Nat) (self : IESParser), lines.length < fuel →
        self.ignore_empty_lines = ign →
        ReadTrimmedLineLoop fuel self ⟨lines, true⟩ = some ("", self.advance n, is1) := by
  induction lines with
  | nil =>
    intro _
    refine ⟨1, ⟨[], false⟩, fun _ => rfl, ?_⟩
    intro fuel self hf _
    cases fuel with
    | zero => simp at hf
    | succ fuel =>
      unfold ReadTrimmedLineLoop
      rw [ReadLine_nil]
      simp [trim_copy_empty]
  | cons x xs ih =>
    intro h
    unfold nextContent at h
    by_cases hx : trim_copy x = ""
    · simp only [hx, beq_self_eq_true, if_true] at h
      cases ign with
      | false =>
        refine ⟨1, ⟨xs, true⟩, fun h0 => by simp at h0, ?_⟩
        intro fuel self hf hi
        cases fuel with
        | zero => simp at hf
        | succ fuel =>
          unfold ReadTrimmedLineLoop
          rw [ReadLine_cons]
          simp [hx, hi]
      | true =>
        simp only [if_true] at h
        obtain ⟨n, is1, hg, hn⟩ := ih h
        refine ⟨1 + n, is1, hg, ?_⟩
        intro fuel self hf hi
        cases fuel with
        | zero => simp at hf
        | succ fuel =>
          unfold ReadTrimmedLineLoop
          rw [ReadLine_cons]
          simp only [hx, hi, beq_self_eq_true, Bool.and_self, if_true]
          rw [hn fuel (self.advance 1) (by simp at hf; omega) hi, advance_advance]
    · simp [hx] at h

/-- What `ReadTrimmedLine` and `CheckEmpty` do depends on the object only
through `ignore_empty_lines`: either they throw, with a message and after a
number of lines that the stream determines, or they hand the next line with
content to what follows. -/
theorem readChecked_shape (ign : Bool) (input_stream : IStream) :
    (∃ (msg : String) (n : Int) (is1 : IStream),
      (ign = true → msg = "End of file is not expectied") ∧
      ∀ (self : IESParser) (next : String → IESParser → IStream → ParseResult),
        self.ignore_empty_lines = ign →
        self.readChecked input_stream next =
          some (.error ((self.advance n).parsingException msg), self.advance n, is1)) ∨
    (∃ (l : String) (rest : List String), input_stream.good = true ∧
      nextContent ign input_stream.lines = some (l, rest) ∧
      ∀ (self : IESParser) (next : String → IESParser → IStream → ParseResult),
        self.ignore_empty_lines = ign →
        self.readChecked input_stream next =
          next l (self.advance ((input_stream.lines.length - rest.length : Nat) : Int))
            ⟨rest, true⟩) := by
  cases hg : input_stream.good with
  | false =>
    left
    exact ⟨_, 1, input_stream, fun _ => rfl, fun self next _ =>
      readChecked_failed self input_stream next hg⟩
  | true =>
    cases hn : nextContent ign input_stream.lines with
    | some p =>
      right
      obtain ⟨l, rest⟩ := p
      refine ⟨l, rest, rfl, rfl, ?_⟩
      intro self next hi
      exact readChecked_some self input_stream next l rest hg (by rw [hi]; exact hn)
    | none =>
      left
      obtain ⟨lines, good⟩ := input_stream
      simp only at hg hn
      subst hg
      obtain ⟨n, is1, hgood, hloop⟩ := ReadTrimmedLineLoop_none_uniform ign lines hn
      by_cases hg1 : is1.good = true
      · refine ⟨"Empty line is not expected", n, is1, ?_, ?_⟩
        · intro hi
          rw [hgood hi] at hg1
          simp at hg1
        · intro self next hi
          unfold readChecked ReadTrimmedLine
          rw [hloop _ self (Nat.lt_succ_self _) hi]
          simp [CheckEmpty, hg1]
      · refine ⟨"End of file is not expectied", n, is1, fun _ => rfl, ?_⟩
        intro self next hi
        unfold readChecked ReadTrimmedLine
        rw [hloop _ self (Nat.lt_succ_self _) hi]
        simp [CheckEmpty, hg1]

theorem nextContent_true_none (lines : List String) :
    nextContent true lines = none ↔ contentLines lines = [] := by
  induction lines with
  | nil => simp [nextContent, contentLines]
  | cons x xs ih =>
    unfold nextContent
    by_cases hx : trim_copy x = ""
    · simp only [hx, beq_self_eq_true, if_true]
      rw [ih]
      simp [contentLines, hx]
    · simp [contentLines, hx]

theorem nextContent_true_some (lines : List String) :
    ∀ (l : String) (rest : List String), nextContent true lines = some (l, rest) →
      ∃ c, contentLines lines = c :: contentLines rest ∧ l = trim_copy c := by
  induction lines with
  | nil => intro l rest h; simp [nextContent] at h
  | cons x xs ih =>
    intro l rest h
    unfold nextContent at h
    by_cases hx : trim_copy x = ""
    · simp only [hx, beq_self_eq_true, if_true] at h
      obtain ⟨c, hc, hl⟩ := ih l rest h
      refine ⟨c, ?_, hl⟩
      rw [← hc]
      simp [contentLines, hx]
    · simp only [beq_iff_eq, hx, if_false, Option.some.injEq, Prod.mk.injEq] at h
      obtain ⟨h1, h2⟩ := h
      subst h1 h2
      exact ⟨x, by simp [contentLines, hx], rfl⟩

/-- With blank lines skipped, the next line with content depends only on the
lines that are not blank. -/
theorem nextContent_of_contentLines (lines lines1 : List String)
    (h : contentLines lines = contentLines lines1) :
    (nextContent true lines = none ∧ nextContent true lines1 = none) ∨
    (∃ (l : String) (rest rest1 : List String),
      nextContent true lines = some (l, rest) ∧ nextContent true lines1 = some (l, rest1) ∧
      contentLines rest = contentLines rest1) := by
  cases h1 : nextContent true lines with
  | none =>
    left
    refine ⟨rfl, ?_⟩
    rw [nextContent_true_none] at h1 ⊢
    rw [← h, h1]
  | some p =>
    obtain ⟨l, rest⟩ := p
    cases h2 : nextContent true lines1 with
    | none =>
      rw [nextContent_true_none] at h2
      obtain ⟨c, hc, _⟩ := nextContent_true_some lines l rest h1
      rw [h, h2] at hc
      simp at hc
    | some q =>
      obtain ⟨l1, rest1⟩ := q
      right
      obtain ⟨c, hc, hl⟩ := nextContent_true_some lines l rest h1
      obtain ⟨c1, hc1, hl1⟩ := nextContent_true_some lines1 l1 rest1 h2
      rw [h, hc1] at hc
      simp only [List.cons.injEq] at hc
      obtain ⟨hcc, hrr⟩ := hc
      subst hcc
      refine ⟨l, rest, rest1, rfl, ?_, hrr.symm⟩
      rw [hl, hl1]

theorem readChecked_stop (ign : Bool) (input_stream : IStream)
    (h : input_stream.good = false ∨ nextContent ign input_stream.lines = none) :
    ∃ (msg : String) (n : Int) (is1 : IStream),
      (ign = true → msg = "End of file is not expectied") ∧
      ∀ (self : IESParser) (next : String → IESParser → IStream → ParseResult),
        self.ignore_empty_lines = ign →
        self.readChecked input_stream next =
          some (.error ((self.advance n).parsingException msg), self.advance n, is1) := by
  rcases readChecked_shape ign input_stream with h1 | ⟨l, rest, hg, hn, _⟩
  · exact h1
  · rcases h with h | h
    · rw [hg] at h; cases h
    · rw [hn] at h; cases h

/-- Two reads from streams that look the same either both throw, with the same
message, or both hand on the same line and leave streams that look the same. -/
theorem readChecked_sim (ign : Bool) (is1 is2 : IStream) (hs : SameContent ign is1 is2) :
    (∃ (msg : String) (n1 n2 : Int) (j1 j2 : IStream),
      ∀ (a b : IESParser) (next1 next2 : String → IESParser → IStream → ParseResult),
        a.ignore_empty_lines = ign → b.ignore_empty_lines = ign →
        a.readChecked is1 next1 =
          some (.error ((a.advance n1).parsingException msg), a.advance n1, j1) ∧
        b.readChecked is2 next2 =
          some (.error ((b.advance n2).parsingException msg), b.advance n2, j2)) ∨
    (∃ (l : String) (rest1 rest2 : List String) (n1 n2 : Int),
      SameContent ign ⟨rest1, true⟩ ⟨rest2, true⟩ ∧
      rest1.length < is1.lines.length ∧ rest2.length < is2.lines.length ∧
      ∀ (a b : IESParser) (next1 next2 : String → IESParser → IStream → ParseResult),
        a.ignore_empty_lines = ign → b.ignore_empty_lines = ign →
        a.readChecked is1 next1 = next1 l (a.advance n1) ⟨rest1, true⟩ ∧
        b.readChecked is2 next2 = next2 l (b.advance n2) ⟨rest2, true⟩) := by
  obtain ⟨hg, hl⟩ := hs
  cases ign with
  | false =>
    simp only [Bool.false_eq_true, if_false] at hl
    have he : is2 = is1 := by
      obtain ⟨l1, g1⟩ := is1
      obtain ⟨l2, g2⟩ := is2
      simp only at hg hl
      rw [hg, hl]
    subst he
    rcases readChecked_shape false is2 with ⟨msg, n, j, _, h⟩ | ⟨l, rest, hgood, hn, h⟩
    · left
      exact ⟨msg, n, n, j, j, fun a b next1 next2 ha hb => ⟨h a next1 ha, h b next2 hb⟩⟩
    · right
      have hlen := (nextContent_length false is2.lines l rest hn).1
      refine ⟨l, rest, rest, ((is2.lines.length - rest.length : Nat) : Int),
        ((is2.lines.length - rest.length : Nat) : Int), ⟨rfl, by simp⟩, hlen, hlen, ?_⟩
      exact fun a b next1 next2 ha hb => ⟨h a next1 ha, h b next2 hb⟩
  | true =>
    simp only [if_true] at hl
    cases hg1 : is1.good with
    | false =>
      left
      have hg2 : is2.good = false := by rw [← hg, hg1]
      obtain ⟨msg1, n1, j1, hm1, h1⟩ := readChecked_stop true is1 (Or.inl hg1)
      obtain ⟨msg2, n2, j2, hm2, h2⟩ := readChecked_stop true is2 (Or.inl hg2)
      refine ⟨msg1, n1, n2, j1, j2, ?_⟩
      intro a b next1 next2 ha hb
      refine ⟨h1 a next1 ha, ?_⟩
      rw [hm1 rfl, ← hm2 rfl]
      exact h2 b next2 hb
    | true =>
      have hg2 : is2.good = true := by rw [← hg, hg1]
      rcases nextContent_of_contentLines is1.lines is2.lines hl with
        ⟨hn1, hn2⟩ | ⟨l, rest1, rest2, hn1, hn2, hrest⟩
      · left
        obtain ⟨msg1, n1, j1, hm1, h1⟩ := readChecked_stop true is1 (Or.inr hn1)
        obtain ⟨msg2, n2, j2, hm2, h2⟩ := readChecked_stop true is2 (Or.inr hn2)
        refine ⟨msg1, n1, n2, j1, j2, ?_⟩
        intro a b next1 next2 ha hb
        refine ⟨h1 a next1 ha, ?_⟩
        rw [hm1 rfl, ← hm2 rfl]
        exact h2 b next2 hb
      · right
        refine ⟨l, rest1, rest2, ((is1.lines.length - rest1.length : Nat) : Int),
          ((is2.lines.length - rest2.length : Nat) : Int), ⟨rfl, by simpa using hrest⟩,
          (nextContent_length true _ l rest1 hn1).1,
          (nextContent_length true _ l rest2 hn2).1, ?_⟩
        intro a b next1 next2 ha hb
        exact ⟨readChecked_some a is1 next1 l rest1 hg1 (by rw [ha]; exact hn1),
          readChecked_some b is2 next2 l rest2 hg2 (by rw [hb]; exact hn2)⟩

theorem SameRun.mono {c d : Prop} {x y : ParseResult} (h : SameRun c x y) (hd : d → c) :
    SameRun d x y := by
  obtain ⟨r, s, i, k, m, t, j, hx, hy, ht⟩ := h
  refine ⟨r, s, i, k, m, t, j, hx, hy, ?_⟩
  rintro (h1 | h1)
  · exact ht (Or.inl h1)
  · exact ht (Or.inr (hd h1))

/-- Two reads, by objects that differ at most in `line_counter` and
`tilt_specification`, from streams that look the same, followed by
continuations that agree, agree. -/
theorem readChecked_sameRun (s1 : IESParser) (m : Int) (t : TiltSpecification) (c : Prop)
    (hc : c → t = s1.tilt_specification) (is1 is2 : IStream)
    (hs : SameContent s1.ignore_empty_lines is1 is2)
    (next1 next2 : String → IESParser → IStream → ParseResult)
    (hnext : ∀ (l : String) (rest1 rest2 : List String) (k1 k2 : Int),
      SameContent s1.ignore_empty_lines ⟨rest1, true⟩ ⟨rest2, true⟩ →
      rest1.length < is1.lines.length → rest2.length < is2.lines.length →
      SameRun c (next1 l (s1.advance k1) ⟨rest1, true⟩)
        (next2 l ((s1.advance k1).moved k2 t) ⟨rest2, true⟩)) :
    SameRun c (s1.readChecked is1 next1) ((s1.moved m t).readChecked is2 next2) := by
  rcases readChecked_sim s1.ignore_empty_lines is1 is2 hs with
    ⟨msg, n1, n2, j1, j2, h⟩ | ⟨l, rest1, rest2, n1, n2, hrest, hl1, hl2, h⟩
  · obtain ⟨h1, h2⟩ := h s1 (s1.moved m t) next1 next2 rfl rfl
    rw [h1, h2]
    refine ⟨_, _, j1, m + n2, m + n2, t, j2, rfl, rfl, ?_⟩
    rintro (h3 | h3)
    · cases h3
    · exact hc h3
  · obtain ⟨h1, h2⟩ := h s1 (s1.moved m t) next1 next2 rfl rfl
    rw [h1, h2]
    exact hnext l rest1 rest2 n1 (m + n2) hrest hl1 hl2

theorem ParseTiltLine_failed_state (self : IESParser) (line : String)
    (h : (self.ParseTiltLine line).1.succeeded = false) :
    (self.ParseTiltLine line).2 = self := by
  revert h
  unfold ParseTiltLine
  split
  · intro _; rfl
  · simp only
    split
    · intro h; cases h
    · split
      · intro h; cases h
      · intro _; rfl

theorem ParseKeywordLine_tilt (self : IESParser) (line : String) :
    (self.ParseKeywordLine line).2.tilt_specification = self.tilt_specification := by
  rw [ParseKeywordLine_state]

/-- The loop of `Parse`, run by two objects that differ at most in
`line_counter` and `tilt_specification` on the same current line and on streams
that look the same, gives results that differ at most in line numbers, in the
stream left, and, when both fail, in a `tilt_specification` that differed before. -/
theorem ParseLoop_sim : ∀ (n1 n2 : Nat) (a : IESParser) (m : Int) (t : TiltSpecification)
    (is1 is2 : IStream) (line : String),
    SameContent a.ignore_empty_lines is1 is2 →
    is1.lines.length < n1 → is2.lines.length < n2 →
    SameRun (t = a.tilt_specification) (ParseLoop n1 a is1 line)
      (ParseLoop n2 (a.moved m t) is2 line) := by
  intro n1
  induction n1 with
  | zero => intro n2 a m t is1 is2 line _ h; simp at h
  | succ n1 ih =>
    intro n2 a m t is1 is2 line hs h1 h2
    cases n2 with
    | zero => simp at h2
    | succ n2 =>
      have hloop : ∀ (s1 : IESParser), s1.ignore_empty_lines = a.ignore_empty_lines →
          s1.tilt_specification = a.tilt_specification →
          SameRun (t = a.tilt_specification)
            (s1.readChecked is1 (fun line1 s2 is2 => ParseLoop n1 s2 is2 line1))
            ((s1.moved m t).readChecked is2 (fun line1 s2 is2 => ParseLoop n2 s2 is2 line1)) := by
        intro s1 hi ht
        apply readChecked_sameRun s1 m t _ (fun hc => by rw [ht]; exact hc) is1 is2
          (by rw [hi]; exact hs)
        intro l rest1 rest2 k1 k2 hrest hl1 hl2
        have := ih n2 (s1.advance k1) k2 t ⟨rest1, true⟩ ⟨rest2, true⟩ l hrest
          (by simp only; omega) (by simp only; omega)
        exact this.mono (fun hc => by rw [hc]; exact ht.symm)
      unfold ParseLoop
      have hk : (a.moved m t).IsKeywordLine line = a.IsKeywordLine line := rfl
      have htl : (a.moved m t).IsTiltLine line = a.IsTiltLine line := rfl
      have hf : (a.moved m t).format = a.format := rfl
      rw [hk, htl, hf]
      by_cases hkw : a.IsKeywordLine line = true
      · simp only [hkw, if_true]
        rw [ParseKeywordLine_moved]
        have hi := (frame_ParseKeywordLine a line).ignore_empty_lines_eq
        have ht := ParseKeywordLine_tilt a line
        rcases hp : a.ParseKeywordLine line with ⟨r, s1⟩
        rw [hp] at hi ht
        simp only at hi ht
        cases r with
        | error e =>
          simp only [Outcome.atLine]
          refine ⟨.error e, s1, is1, m, m, t, is2, rfl, rfl, ?_⟩
          rintro (h3 | h3)
          · cases h3
          · rw [h3, ht]
        | ok u =>
          simp only [Outcome.atLine]
          exact hloop s1 hi ht
      · simp only [hkw, Bool.false_eq_true, if_false]
        by_cases htilt : a.IsTiltLine line = true
        · simp only [htilt, if_true]
          rw [ParseTiltLine_moved]
          have hi := (frame_ParseTiltLine a line).ignore_empty_lines_eq
          have hfail := ParseTiltLine_failed_state a line
          rcases hp : a.ParseTiltLine line with ⟨r, s1⟩
          rw [hp] at hi hfail
          simp only at hi hfail
          cases r with
          | error e =>
            simp only [Outcome.atLine, Outcome.succeeded, Bool.false_eq_true, if_false]
            refine ⟨.error e, s1, is1, m, m, t, is2, rfl, rfl, ?_⟩
            rintro (h3 | h3)
            · cases h3
            · rw [h3, hfail rfl]
          | ok u =>
            simp only [Outcome.atLine, Outcome.succeeded, if_true]
            have := readChecked_sameRun s1 m s1.tilt_specification True (fun _ => rfl) is1 is2
              (by rw [hi]; exact hs) (fun _ s2 is2 => some (.ok (), s2, is2))
              (fun _ s2 is2 => some (.ok (), s2, is2))
              (fun l rest1 rest2 k1 k2 _ _ _ =>
                ⟨.ok (), s1.advance k1, ⟨rest1, true⟩, 0, k2, s1.tilt_specification,
                  ⟨rest2, true⟩, rfl, rfl, fun _ => rfl⟩)
            exact this.mono (fun _ => trivial)
        · simp only [htilt, Bool.false_eq_true, if_false]
          by_cases hfm : (a.format != Format.LM631986) = true
          · simp only [hfm, if_true]
            refine ⟨_, a, is1, m, m, t, is2, rfl, rfl, ?_⟩
            rintro (h3 | h3)
            · cases h3
            · exact h3
          · simp only [hfm, Bool.false_eq_true, if_false]
            exact hloop a rfl rfl

/-- Two calls of `Parse`, on objects that differ at most in `format`,
`last_added_keyword`, `line_counter` and `tilt_specification` and on streams
that look the same, give the same outcome up to the line number and leave
objects that differ at most in `format`, `line_counter` and
`tilt_specification`; `tilt_specification` differs only if both calls fail and
it differed before, `format` only if the first read fails and it differed before. -/
theorem Parse_sim (a : IESParser) (f : Format) (k : Option String) (m : Int)
    (t : TiltSpecification) (is1 is2 : IStream)
    (hs : SameContent a.ignore_empty_lines is1 is2) :
    ∃ (r : Outcome) (s : IESParser) (i : IStream) (kk : Int) (f1 : Format) (m1 : Int)
      (t1 : TiltSpecification) (j : IStream),
      a.Parse is1 = some (r, s, i) ∧
      (a.withPrior f k m t).Parse is2 =
        some (r.atLine kk,
          { s with format := f1, line_counter := m1, tilt_specification := t1 }, j) ∧
      (r.succeeded = true ∨ t = a.tilt_specification → t1 = s.tilt_specification) ∧
      (r.succeeded = true ∨ f = a.format ∨
        (is1.good = true ∧ (nextContent a.ignore_empty_lines is1.lines).isSome = true) →
        f1 = s.format) := by
  unfold Parse
  simp only []
  rcases readChecked_sim a.ignore_empty_lines is1 is2 hs with
    ⟨msg, n1, n2, j1, j2, h⟩ | ⟨l, rest1, rest2, n1, n2, hrest, hl1, hl2, h⟩
  · have hcontra : ¬ (is1.good = true ∧
        (nextContent a.ignore_empty_lines is1.lines).isSome = true) := by
      rintro ⟨hg, hn⟩
      obtain ⟨p, hp⟩ := Option.isSome_iff_exists.mp hn
      obtain ⟨l, rest⟩ := p
      have h1 := (h { a with last_added_keyword := none } a (fun _ _ _ => none)
        (fun _ _ _ => none) rfl rfl).1
      have h0 := readChecked_some { a with last_added_keyword := none } is1
        (fun _ _ _ => none) l rest hg hp
      have h3 := h0.symm.trans h1
      cases h3
    obtain ⟨h1, h2⟩ := h { a with last_added_keyword := none }
      { a.withPrior f k m t with last_added_keyword := none } _ _ rfl rfl
    rw [h1, h2]
    refine ⟨_, _, j1, m + n2, f, m + n2, t, j2, rfl, rfl, ?_, ?_⟩
    · rintro (h3 | h3)
      · cases h3
      · exact h3
    · rintro (h3 | h3 | h3)
      · cases h3
      · exact h3
      · exact absurd h3 hcontra
  · obtain ⟨h1, h2⟩ := h { a with last_added_keyword := none }
      { a.withPrior f k m t with last_added_keyword := none } _ _ rfl rfl
    rw [h1, h2]
    simp only []
    generalize hX : ({ a with last_added_keyword := none } : IESParser).advance n1 = X
    have hXi : X.ignore_empty_lines = a.ignore_empty_lines := by rw [← hX]; rfl
    have hXt : X.tilt_specification = a.tilt_specification := by rw [← hX]; rfl
    have hY : ({ a.withPrior f k m t with last_added_keyword := none } : IESParser).advance n2
        = { X with format := f, line_counter := m + n2, tilt_specification := t } := by
      rw [← hX]; rfl
    rw [hY, ParseFormatVersion_eq X, ParseFormatVersion_eq _]
    generalize hF : (if l = "IESNA91" then Format.LM631991
          else if l = "IESNA:LM-63-1995" then Format.LM631995
          else if l = "IESNA:LM-63-2002" then Format.LM632002
          else Format.UNKNOWN) = F
    have key : ∀ (x y : ParseResult), SameRun (t = a.tilt_specification) x y →
        ∃ (r : Outcome) (s : IESParser) (i : IStream) (kk : Int) (f1 : Format) (m1 : Int)
          (t1 : TiltSpecification) (j : IStream),
          x = some (r, s, i) ∧
          y = some (r.atLine kk,
            { s with format := f1, line_counter := m1, tilt_specification := t1 }, j) ∧
          (r.succeeded = true ∨ t = a.tilt_specification → t1 = s.tilt_specification) ∧
          (r.succeeded = true ∨ f = a.format ∨
            (is1.good = true ∧ (nextContent a.ignore_empty_lines is1.lines).isSome = true) →
            f1 = s.format) := by
      rintro x y ⟨r, s, i, kk, m1, t1, j, hx, hy, ht⟩
      exact ⟨r, s, i, kk, s.format, m1, t1, j, hx, hy, ht, fun _ => rfl⟩
    apply key
    by_cases hfu : (F != Format.UNKNOWN) = true
    · simp only [hfu, if_true]
      have := readChecked_sameRun { X with format := F } (m + n2) t (t = a.tilt_specification)
        (fun hc => by rw [hc]; exact hXt.symm) ⟨rest1, true⟩ ⟨rest2, true⟩
        (by rw [← hXi] at hrest; exact hrest)
        (fun line2 s3 is3 => ParseLoop (is3.lines.length + 1) s3 is3 line2)
        (fun line2 s3 is3 => ParseLoop (is3.lines.length + 1) s3 is3 line2)
        (by
          intro l2 r1 r2 k1 k2 hr _ _
          have h4 := ParseLoop_sim (r1.length + 1) (r2.length + 1)
            (({ X with format := F } : IESParser).advance k1) k2 t ⟨r1, true⟩ ⟨r2, true⟩ l2
            hr (Nat.lt_succ_self _) (Nat.lt_succ_self _)
          exact h4.mono (fun hc => by rw [hc]; exact hXt.symm))
      exact this
    · simp only [hfu, Bool.false_eq_true, if_false]
      have := ParseLoop_sim (rest1.length + 1) (rest2.length + 1)
        { X with format := Format.LM631986 } (m + n2) t ⟨rest1, true⟩ ⟨rest2, true⟩ l
        (by rw [← hXi] at hrest; exact hrest) (Nat.lt_succ_self _) (Nat.lt_succ_self _)
      exact this.mono (fun hc => by rw [hc]; exact hXt.symm)

/-! ## Blank lines -/

theorem insertedBlanks_contentLines {a b : List String} (h : InsertedBlanks a b) :
    contentLines a = contentLines b := by
  induction h with
  | nil => rfl
  | keep l _ ih =>
    unfold contentLines at ih ⊢
    simp only [List.filter_cons, ih]
  | blank w hw _ ih =>
    rw [ih]
    simp [contentLines, hw]

/-- With blank lines not skipped, a read that meets a whitespace-only line throws. -/
theorem readChecked_blank (s : IESParser) (w : String) (rest : List String)
    (next : String → IESParser → IStream → ParseResult)
    (hi : s.ignore_empty_lines = false) (hw : trim_copy w = "") :
    s.readChecked ⟨w :: rest, true⟩ next =
      some (.error ⟨FailureKind.ParsingException, "Empty line is not expected",
        s.line_counter + 1⟩, s.advance 1, ⟨rest, true⟩) := by
  unfold readChecked ReadTrimmedLine
  simp only [List.length_cons]
  unfold ReadTrimmedLineLoop
  rw [ReadLine_cons]
  simp [hi, hw, CheckEmpty, parsingException, advance]

theorem atLoop_ignore_empty_lines (self0 : IESParser) (is0 : IStream) (keys : List String)
    (s : IESParser) (is : IStream) (line : String)
    (h : AtLoop self0 is0 keys s is line) :
    s.ignore_empty_lines = self0.ignore_empty_lines := by
  induction h with
  | header hr hc hf hr2 hc2 =>
    have e1 := (ReadTrimmedLine_checked _ _ _ _ _ hr hc).2.2.2
    have e2 := (ReadTrimmedLine_checked _ _ _ _ _ hr2 hc2).2.2.2
    rw [e2, ParseFormatVersion_eq, e1]; rfl
  | noHeader hr hc hf =>
    have e1 := (ReadTrimmedLine_checked _ _ _ _ _ hr hc).2.2.2
    rw [ParseFormatVersion_eq, e1]; rfl
  | keyword hat hk hs hp hr hc ih =>
    rename_i keys1 s0 is1 line0 what s1 line1 s2 is2
    have e2 := (ReadTrimmedLine_checked _ _ _ _ _ hr hc).2.2.2
    have hf := frame_ParseKeywordLine s0 line0
    rw [hp] at hf
    rw [e2]
    show s1.ignore_empty_lines = _
    rw [hf.ignore_empty_lines_eq]; exact ih
  | other hat hk ht hf hr hc ih =>
    have e2 := (ReadTrimmedLine_checked _ _ _ _ _ hr hc).2.2.2
    rw [e2]
    exact ih

/-- A read that meets a line with content hands it, trimmed, to what follows. -/
theorem readChecked_content (s : IESParser) (x : String) (rest : List String)
    (next : String → IESParser → IStream → ParseResult) (hx : trim_copy x ≠ "") :
    s.readChecked ⟨x :: rest, true⟩ next = next (trim_copy x) (s.advance 1) ⟨rest, true⟩ := by
  unfold readChecked ReadTrimmedLine
  simp only [List.length_cons]
  unfold ReadTrimmedLineLoop
  rw [ReadLine_cons]
  simp [hx, CheckEmpty]

/-- With blank lines not skipped, a read from a stream in which the blank line
`w` comes after the lines `pre`, followed by a continuation that reaches `w`
or stops before it, reaches `w` or stops before it. -/
theorem readChecked_blankReached (s : IESParser) (w : String) (rest : List String)
    (hw : trim_copy w = "") (hi : s.ignore_empty_lines = false) (pre : List String)
    (K : String → IESParser → IStream → ParseResult) (n : Int)
    (hn : n = s.line_counter + (pre.length : Int) + 1)
    (hK : ∀ (x : String) (xs : List String), pre = x :: xs → trim_copy x ≠ "" →
      BlankReached w rest n (K (trim_copy x) (s.advance 1) ⟨xs ++ w :: rest, true⟩)) :
    BlankReached w rest n (s.readChecked ⟨pre ++ w :: rest, true⟩ K) := by
  cases pre with
  | nil =>
    rw [List.nil_append, readChecked_blank s w rest K hi hw]
    refine ⟨_, _, _, rfl, Or.inr ⟨?_, rfl⟩⟩
    subst hn
    simp
  | cons x xs =>
    rw [List.cons_append]
    by_cases hx : trim_copy x = ""
    · rw [readChecked_blank s x (xs ++ w :: rest) K hi hx]
      exact ⟨_, _, _, rfl, Or.inl ⟨xs, rfl⟩⟩
    · rw [readChecked_content s x (xs ++ w :: rest) K hx]
      exact hK x xs rfl hx

/-- With blank lines not skipped, the loop of `Parse` over a stream in which the
blank line `w` comes after the lines `pre` reaches `w` or stops before it. -/
theorem ParseLoop_blankReached (w : String) (rest : List String) (hw : trim_copy w = "") :
    ∀ (fuel : Nat) (pre : List String) (s : IESParser) (line : String) (n : Int),
      s.ignore_empty_lines = false → (pre ++ w :: rest).length < fuel →
      n = s.line_counter + (pre.length : Int) + 1 →
      BlankReached w rest n (ParseLoop fuel s ⟨pre ++ w :: rest, true⟩ line) := by
  intro fuel
  induction fuel with
  | zero => intro pre s line n _ h; simp at h
  | succ fuel ih =>
    intro pre s line n hi hlen hn
    have hread : ∀ (s1 : IESParser), s1.ignore_empty_lines = false →
        s1.line_counter = s.line_counter →
        BlankReached w rest n
          (s1.readChecked ⟨pre ++ w :: rest, true⟩
            (fun line1 s2 is2 => ParseLoop fuel s2 is2 line1)) := by
      intro s1 hi1 hl1
      apply readChecked_blankReached s1 w rest hw hi1 pre _ n (by rw [hl1]; exact hn)
      intro x xs hpre hx
      subst hpre
      apply ih xs (s1.advance 1) (trim_copy x) n hi1
      · simp only [List.cons_append, List.length_cons] at hlen
        omega
      · rw [hn]
        show s.line_counter + ((x :: xs).length : Int) + 1 =
          (s1.line_counter + 1) + (xs.length : Int) + 1
        rw [hl1]
        simp only [List.length_cons]
        push_cast
        ring
    have hstop : ∀ (r : Outcome) (s1 : IESParser),
        BlankReached w rest n (some (r, s1, ⟨pre ++ w :: rest, true⟩)) :=
      fun r s1 => ⟨r, s1, _, rfl, Or.inl ⟨pre, rfl⟩⟩
    unfold ParseLoop
    by_cases hk : s.IsKeywordLine line = true
    · rw [if_pos hk]
      have hst := ParseKeywordLine_state s line
      have hfr := (frame_ParseKeywordLine s line).ignore_empty_lines_eq
      rcases hp : s.ParseKeywordLine line with ⟨r, s1⟩
      rw [hp] at hst hfr
      simp only at hst hfr
      cases r with
      | error e => exact hstop _ _
      | ok u =>
        simp only
        exact hread s1 (by rw [hfr]; exact hi) (by rw [hst])
    · rw [if_neg hk]
      by_cases htl : s.IsTiltLine line = true
      · rw [if_pos htl]
        have hst := ParseTiltLine_cases s line
        rcases hp : s.ParseTiltLine line with ⟨r, s1⟩
        rw [hp] at hst
        simp only at hst
        cases r with
        | error e => exact hstop _ _
        | ok u =>
          simp only
          have hs1 : s1.ignore_empty_lines = false ∧ s1.line_counter = s.line_counter := by
            rcases hst with h | h | h <;> rw [h] <;> exact ⟨hi, rfl⟩
          apply readChecked_blankReached s1 w rest hw hs1.1 pre _ n (by rw [hs1.2]; exact hn)
          intro x xs _ _
          exact ⟨_, _, _, rfl, Or.inl ⟨xs, rfl⟩⟩
      · rw [if_neg htl]
        by_cases hfm : (s.format != Format.LM631986) = true
        · rw [if_pos hfm]
          exact hstop _ _
        · rw [if_neg hfm]
          exact hread s hi rfl

/-- With blank lines not skipped, `Parse` on a stream in which the blank line
`w` comes after the lines `pre` returns, and it has stopped before `w` or
thrown the exception for an empty line at `w`. -/
theorem Parse_blankReached (self : IESParser) (w : String) (rest : List String)
    (hw : trim_copy w = "") (hi : self.ignore_empty_lines = false) (pre : List String) :
    BlankReached w rest (self.line_counter + (pre.length : Int) + 1)
      (self.Parse ⟨pre ++ w :: rest, true⟩) := by
  unfold Parse
  simp only []
  apply readChecked_blankReached ({ self with last_added_keyword := none } : IESParser)
    w rest hw hi pre _ _ rfl
  intro x xs hpre hx
  subst hpre
  simp only []
  generalize hX : ({ self with last_added_keyword := none } : IESParser).advance 1 = X
  have hXi : X.ignore_empty_lines = false := by rw [← hX]; exact hi
  have hXl : X.line_counter = self.line_counter + 1 := by rw [← hX]; rfl
  rw [ParseFormatVersion_eq X]
  generalize (if trim_copy x = "IESNA91" then Format.LM631991
        else if trim_copy x = "IESNA:LM-63-1995" then Format.LM631995
        else if trim_copy x = "IESNA:LM-63-2002" then Format.LM632002
        else Format.UNKNOWN) = F
  have hnum : self.line_counter + ((x :: xs).length : Int) + 1 =
      X.line_counter + (xs.length : Int) + 1 := by
    rw [hXl]
    simp only [List.length_cons]
    push_cast
    ring
  by_cases hfu : (F != Format.UNKNOWN) = true
  · simp only [hfu, if_true]
    apply readChecked_blankReached ({ X with format := F } : IESParser) w rest hw hXi xs _ _
      hnum
    intro y ys hxs hy
    subst hxs
    apply ParseLoop_blankReached w rest hw _ ys
      (({ X with format := F } : IESParser).advance 1) _ _ hXi (Nat.lt_succ_self _)
    show self.line_counter + ((x :: y :: ys).length : Int) + 1 =
      (X.line_counter + 1) + (ys.length : Int) + 1
    rw [hXl]
    simp only [List.length_cons]
    push_cast
    ring
  · simp only [hfu, Bool.false_eq_true, if_false]
    exact ParseLoop_blankReached w rest hw _ xs
      ({ X with format := Format.LM631986 } : IESParser) _ _ hXi (Nat.lt_succ_self _) hnum

/-- C12: with `ignore_empty_lines` enabled, `Parse` on a stream and `Parse` on
the stream with whitespace-only lines inserted anywhere both return, with the
same outcome (both succeed, or both throw the same class of exception with the
same message) and the same `format`, `tilt_specification`, dictionary and
`inside_block`: the objects left differ at most in `line_counter`. With
`ignore_empty_lines` disabled, every read that meets a whitespace-only line
ends the call with the `ParsingException` "Empty line is not expected": the
first read of `Parse`, the read that follows the handling of the current
line of the loop, unless that handling has thrown before, and the read that
follows a recognised version line; and on every stream that holds a
whitespace-only line `Parse` returns, having either stopped with that line
still unread or thrown this exception, with the number of that line, when it
read it. -/
theorem Parse_blank_lines (self : IESParser) (good : Bool) (lines lines1 : List String)
    (hins : InsertedBlanks lines lines1) :
    (self.ignore_empty_lines = true →
      ∃ (r : Outcome) (s : IESParser) (i : IStream) (r1 : Outcome) (s1 : IESParser)
        (i1 : IStream),
        self.Parse ⟨lines, good⟩ = some (r, s, i) ∧
        self.Parse ⟨lines1, good⟩ = some (r1, s1, i1) ∧
        r1.succeeded = r.succeeded ∧ r1.failureKind = r.failureKind ∧ r1.what = r.what ∧
        s1.format = s.format ∧ s1.tilt_specification = s.tilt_specification ∧
        s1.keywords_dictionary = s.keywords_dictionary ∧ s1.inside_block = s.inside_block ∧
        s1 = { s with line_counter := s1.line_counter }) ∧
    (self.ignore_empty_lines = false →
      ∀ (w : String) (rest : List String), trim_copy w = "" →
        (∀ (s : IESParser) (next : String → IESParser → IStream → ParseResult),
          s.ignore_empty_lines = false →
          s.readChecked ⟨w :: rest, true⟩ next =
            some (.error ⟨FailureKind.ParsingException, "Empty line is not expected",
              s.line_counter + 1⟩, s.advance 1, ⟨rest, true⟩)) ∧
        self.Parse ⟨w :: rest, true⟩ =
          some (.error ⟨FailureKind.ParsingException, "Empty line is not expected",
            self.line_counter + 1⟩,
            ({ self with last_added_keyword := none } : IESParser).advance 1, ⟨rest, true⟩) ∧
        (∀ (is0 : IStream) (keys : List String) (s : IESParser) (line : String),
          AtLoop self is0 keys s ⟨w :: rest, true⟩ line →
          ∃ (e : Failure) (s1 : IESParser) (i1 : IStream),
            self.Parse is0 = some (.error e, s1, i1) ∧
            (e = ⟨FailureKind.ParsingException, "Empty line is not expected",
                s.line_counter + 1⟩ ∨
              (s.IsKeywordLine line = true ∧ (s.ParseKeywordLine line).1 = .error e) ∨
              (s.IsKeywordLine line = false ∧ s.IsTiltLine line = true ∧
                (s.ParseTiltLine line).1 = .error e) ∨
              (s.IsKeywordLine line = false ∧ s.IsTiltLine line = false ∧
                s.format ≠ Format.LM631986 ∧
                e = s.parsingException "Expected keyword line or TILT line"))) ∧
        (∀ v : String,
          (trim_copy v = "IESNA91" ∨ trim_copy v = "IESNA:LM-63-1995" ∨
            trim_copy v = "IESNA:LM-63-2002") →
          self.Parse ⟨v :: w :: rest, true⟩ =
            some (.error ⟨FailureKind.ParsingException, "Empty line is not expected",
              self.line_counter + 2⟩,
              ((({ self with last_added_keyword := none } : IESParser).advance
                1).ParseFormatVersion (trim_copy v)).advance 1, ⟨rest, true⟩)) ∧
        (∀ pre : List String,
          ∃ (r : Outcome) (s1 : IESParser) (i1 : IStream),
            self.Parse ⟨pre ++ w :: rest, true⟩ = some (r, s1, i1) ∧
            ((∃ more : List String, i1.lines = more ++ w :: rest) ∨
              (r = .error ⟨FailureKind.ParsingException, "Empty line is not expected",
                  self.line_counter + (pre.length : Int) + 1⟩ ∧
                i1 = ⟨rest, true⟩)))) := by
  constructor
  · intro hi
    have hs : SameContent self.ignore_empty_lines ⟨lines, good⟩ ⟨lines1, good⟩ := by
      refine ⟨rfl, ?_⟩
      rw [hi]
      simpa using insertedBlanks_contentLines hins
    obtain ⟨r, s, i, kk, f1, m1, t1, j, h1, h2, ht, hf⟩ :=
      Parse_sim self self.format self.last_added_keyword self.line_counter
        self.tilt_specification ⟨lines, good⟩ ⟨lines1, good⟩ hs
    have hself : self.withPrior self.format self.last_added_keyword self.line_counter
        self.tilt_specification = self := rfl
    rw [hself] at h2
    have ht1 := ht (Or.inr rfl)
    have hf1 := hf (Or.inr (Or.inl rfl))
    subst ht1 hf1
    refine ⟨r, s, i, _, _, j, h1, h2, atLine_succeeded r kk, ?_, atLine_what r kk,
      rfl, rfl, rfl, rfl, rfl⟩
    cases r <;> rfl
  · intro hi w rest hw
    refine ⟨fun s next hs => readChecked_blank s w rest next hs hw, ?_, ?_, ?_, ?_⟩
    · unfold Parse
      exact readChecked_blank _ w rest _ hi hw
    · intro is0 keys s line hat
      have hsi : s.ignore_empty_lines = false := by
        rw [atLoop_ignore_empty_lines _ _ _ _ _ _ hat]; exact hi
      rw [Parse_eq_of_atLoop _ _ _ _ _ _ hat, ParseLoop_step]
      by_cases hk : s.IsKeywordLine line = true
      · rw [if_pos hk]
        have hst := ParseKeywordLine_state s line
        have hfr := (frame_ParseKeywordLine s line).ignore_empty_lines_eq
        rcases hp : s.ParseKeywordLine line with ⟨r, s1⟩
        rw [hp] at hst hfr
        simp only at hst hfr
        cases r with
        | error e => exact ⟨e, s1, _, rfl, Or.inr (Or.inl ⟨hk, rfl⟩)⟩
        | ok u =>
          simp only
          rw [readChecked_blank s1 w rest _ (by rw [hfr]; exact hsi) hw]
          refine ⟨_, _, _, rfl, Or.inl ?_⟩
          rw [hst]
      · rw [if_neg hk]
        have hk0 : s.IsKeywordLine line = false := by simpa using hk
        by_cases htl : s.IsTiltLine line = true
        · rw [if_pos htl]
          have hst := ParseTiltLine_cases s line
          rcases hp : s.ParseTiltLine line with ⟨r, s1⟩
          rw [hp] at hst
          simp only at hst
          cases r with
          | error e => exact ⟨e, s1, _, rfl, Or.inr (Or.inr (Or.inl ⟨hk0, htl, rfl⟩))⟩
          | ok u =>
            simp only
            have hs1 : s1.ignore_empty_lines = false ∧ s1.line_counter = s.line_counter := by
              rcases hst with h | h | h <;> rw [h] <;> exact ⟨hsi, rfl⟩
            rw [readChecked_blank s1 w rest _ hs1.1 hw]
            refine ⟨_, _, _, rfl, Or.inl ?_⟩
            rw [hs1.2]
        · rw [if_neg htl]
          have ht0 : s.IsTiltLine line = false := by simpa using htl
          by_cases hfm : (s.format != Format.LM631986) = true
          · rw [if_pos hfm]
            refine ⟨_, _, _, rfl, Or.inr (Or.inr (Or.inr ⟨hk0, ht0, ?_, rfl⟩))⟩
            simpa using hfm
          · rw [if_neg hfm]
            rw [readChecked_blank s w rest _ hsi hw]
            exact ⟨_, _, _, rfl, Or.inl rfl⟩
    · intro v hv
      have hne : trim_copy v ≠ "" := by
        rcases hv with h | h | h <;> rw [h] <;> decide
      unfold Parse
      simp only []
      rw [readChecked_content _ v (w :: rest) _ hne]
      simp only []
      generalize hX : ({ self with last_added_keyword := none } : IESParser).advance 1 = X
      have hXi : X.ignore_empty_lines = false := by rw [← hX]; exact hi
      have hXl : X.line_counter = self.line_counter + 1 := by rw [← hX]; rfl
      have hfmt : ((X.ParseFormatVersion (trim_copy v)).format != Format.UNKNOWN) = true := by
        have hF : ∀ l : String,
            (l = "IESNA91" ∨ l = "IESNA:LM-63-1995" ∨ l = "IESNA:LM-63-2002") →
            ((if l = "IESNA91" then Format.LM631991
              else if l = "IESNA:LM-63-1995" then Format.LM631995
              else if l = "IESNA:LM-63-2002" then Format.LM632002
              else Format.UNKNOWN) != Format.UNKNOWN) = true := by
          rintro l (h | h | h) <;> subst h <;> decide
        rw [ParseFormatVersion_eq]
        exact hF _ hv
      have hi2 : (X.ParseFormatVersion (trim_copy v)).ignore_empty_lines = false := by
        rw [ParseFormatVersion_eq]; exact hXi
      have hl2 : (X.ParseFormatVersion (trim_copy v)).line_counter + 1 =
          self.line_counter + 2 := by
        rw [ParseFormatVersion_eq]
        show X.line_counter + 1 = self.line_counter + 2
        rw [hXl]
        ring
      rw [if_pos hfmt, readChecked_blank _ w rest _ hi2 hw, hl2]
    · intro pre
      exact Parse_blankReached self w rest hw hi pre

theorem insertedBlanks_example :
    InsertedBlanks ["IESNA91", "TILT=NONE", "1"]
      [" ", "IESNA91", "", "TILT=NONE", "\t", "1", "  "] :=
  .blank " " (by decide) (.keep "IESNA91" (.blank "" (by decide) (.keep "TILT=NONE"
    (.blank "\t" (by decide) (.keep "1" (.blank "  " (by decide) .nil))))))

theorem Parse_blank_lines_witness :
    InsertedBlanks ["IESNA91", "TILT=NONE", "1"]
      [" ", "IESNA91", "", "TILT=NONE", "\t", "1", "  "] ∧
    (∃ (r : Outcome) (s : IESParser) (i : IStream) (r1 : Outcome) (s1 : IESParser)
      (i1 : IStream),
      newParser.Parse ⟨["IESNA91", "TILT=NONE", "1"], true⟩ = some (r, s, i) ∧
      newParser.Parse ⟨[" ", "IESNA91", "", "TILT=NONE", "\t", "1", "  "], true⟩ =
        some (r1, s1, i1) ∧
      r1.succeeded = r.succeeded ∧ r1.failureKind = r.failureKind ∧ r1.what = r.what ∧
      s1.format = s.format ∧ s1.tilt_specification = s.tilt_specification ∧
      s1.keywords_dictionary = s.keywords_dictionary ∧ s1.inside_block = s.inside_block ∧
      s1 = { s with line_counter := s1.line_counter }) ∧
    ({ newParser with ignore_empty_lines := false } : IESParser).Parse
        ⟨[" ", "IESNA91", "TILT=NONE", "1"], true⟩ =
      some (.error ⟨FailureKind.ParsingException, "Empty line is not expected", 1⟩,
        ({ newParser with ignore_empty_lines := false } : IESParser).advance 1,
        ⟨["IESNA91", "TILT=NONE", "1"], true⟩) ∧
    ({ newParser with ignore_empty_lines := false } : IESParser).Parse
        ⟨["IESNA91", " ", "TILT=NONE", "1"], true⟩ =
      some (.error ⟨FailureKind.ParsingException, "Empty line is not expected", 2⟩,
        ((({ newParser with ignore_empty_lines := false } : IESParser).advance
          1).ParseFormatVersion "IESNA91").advance 1,
        ⟨["TILT=NONE", "1"], true⟩) :=
  ⟨insertedBlanks_example,
    (Parse_blank_lines newParser true _ _ insertedBlanks_example).1 (by decide),
    ((Parse_blank_lines { newParser with ignore_empty_lines := false } true _ _
      insertedBlanks_example).2 (by decide) " " ["IESNA91", "TILT=NONE", "1"]
      (by decide)).2.1,
    ((Parse_blank_lines { newParser with ignore_empty_lines := false } true _ _
      insertedBlanks_example).2 (by decide) " " ["TILT=NONE", "1"]
      (by decide)).2.2.2.1 "IESNA91" (Or.inl (by decide))⟩

/-! ## The object before the call -/

theorem sameContent_refl (ignore : Bool) (a : IStream) : SameContent ignore a a :=
  ⟨rfl, by split <;> rfl⟩

/-- C17, counterexample: the outcome of `Parse` depends on what an earlier call
left in the object. With `ignore_blocks` enabled the same input is parsed
normally when `inside_block` was false and throws a `ParsingException` when it
was true; the entries already in the dictionary are still in it after the call;
and when the first read fails, `format` keeps the value it had (for the
patterns as compiled and as written). -/
theorem Parse_depends_on_prior_state :
    ((({ newParser with ignore_blocks := true } : IESParser).Parse
        (IStream.ofLines ["IESNA:LM-63-1995", "BLOCKsw", "ENDBLOCKsw", "TILT=NONE", "1"])).map
        (fun r => r.1.failureKind) = some none ∧
      (({ newParser with ignore_blocks := true, inside_block := true } : IESParser).Parse
        (IStream.ofLines ["IESNA:LM-63-1995", "BLOCKsw", "ENDBLOCKsw", "TILT=NONE", "1"])).map
        (fun r => r.1.failureKind) = some (some FailureKind.ParsingException)) ∧
    ((({ newParserEscaped with ignore_blocks := true } : IESParser).Parse
        (IStream.ofLines
          ["IESNA:LM-63-1995", "BLOCK [x]", "ENDBLOCK [x]", "TILT=NONE", "1"])).map
        (fun r => r.1.failureKind) = some none ∧
      (({ newParserEscaped with ignore_blocks := true, inside_block := true } :
          IESParser).Parse
        (IStream.ofLines
          ["IESNA:LM-63-1995", "BLOCK [x]", "ENDBLOCK [x]", "TILT=NONE", "1"])).map
        (fun r => r.1.failureKind) = some (some FailureKind.ParsingException)) ∧
    ((newParser.Parse (IStream.ofLines ["IESNA91", "TILT=NONE", "1"])).map
        (fun r => (r.1, r.2.1.keywords_dictionary)) = some (.ok (), []) ∧
      (({ newParser with keywords_dictionary := [("OLD", "x")] } : IESParser).Parse
        (IStream.ofLines ["IESNA91", "TILT=NONE", "1"])).map
        (fun r => (r.1, r.2.1.keywords_dictionary)) = some (.ok (), [("OLD", "x")])) ∧
    ((newParserEscaped.Parse (IStream.ofLines ["IESNA91", "TILT=NONE", "1"])).map
        (fun r => (r.1, r.2.1.keywords_dictionary)) = some (.ok (), []) ∧
      (({ newParserEscaped with keywords_dictionary := [("OLD", "x")] } : IESParser).Parse
        (IStream.ofLines ["IESNA91", "TILT=NONE", "1"])).map
        (fun r => (r.1, r.2.1.keywords_dictionary)) = some (.ok (), [("OLD", "x")])) ∧
    ((newParser.Parse (IStream.ofLines [])).map (fun r => r.2.1.format) =
        some Format.UNKNOWN ∧
      (({ newParser with format := Format.LM632002 } : IESParser).Parse
        (IStream.ofLines [])).map (fun r => r.2.1.format) = some Format.LM632002) := by
  refine ⟨⟨?_, ?_⟩, ⟨?_, ?_⟩, ⟨?_, ?_⟩, ⟨?_, ?_⟩, ⟨?_, ?_⟩⟩ <;> decide

/-- C17, amended: what `Parse` does depends on the object it is called on only
through the options, the pattern constants, the dictionary and `inside_block`.
For two objects that differ at most in `format`, `last_added_keyword`,
`line_counter` and `tilt_specification`, both calls on the same stream return,
with the same outcome (both succeed, or both throw the same class of exception
with the same message), the same dictionary and the same `inside_block`; with
the same `format` when the first read finds a line with content, and with the
same `tilt_specification` when the calls succeed. -/
theorem Parse_prior_state (self : IESParser) (f : Format) (k : Option String) (m : Int)
    (t : TiltSpecification) (input_stream : IStream) :
    ∃ (r : Outcome) (s : IESParser) (i : IStream) (r1 : Outcome) (s1 : IESParser)
      (i1 : IStream),
      self.Parse input_stream = some (r, s, i) ∧
      (self.withPrior f k m t).Parse input_stream = some (r1, s1, i1) ∧
      r1.succeeded = r.succeeded ∧ r1.failureKind = r.failureKind ∧ r1.what = r.what ∧
      s1.keywords_dictionary = s.keywords_dictionary ∧ s1.inside_block = s.inside_block ∧
      ((input_stream.good = true ∧
          (nextContent self.ignore_empty_lines input_stream.lines).isSome = true) →
        s1.format = s.format) ∧
      (r.succeeded = true →
        s1.format = s.format ∧ s1.tilt_specification = s.tilt_specification) := by
  obtain ⟨r, s, i, kk, f1, m1, t1, j, h1, h2, ht, hf⟩ :=
    Parse_sim self f k m t input_stream input_stream (sameContent_refl _ _)
  refine ⟨r, s, i, _, _, j, h1, h2, atLine_succeeded r kk, ?_, atLine_what r kk,
    rfl, rfl, ?_, ?_⟩
  · cases r <;> rfl
  · intro h
    exact hf (Or.inr (Or.inr h))
  · intro h
    exact ⟨hf (Or.inl h), ht (Or.inl h)⟩

end IES
